import Mathlib

/-!
# ToDo-List backend: project/task consistency and activity logging

A shallow embedding of the Express/Mongoose handlers of `src/routes/tasks.js`
and `src/routes/projects.js` together with the schemas of `src/models/`.

Modelling conventions.

* A Mongo collection is a list of documents in insertion order.  `findById`,
  `findOne`, `findByIdAndUpdate` and `findByIdAndDelete` act on the first
  document that matches, `deleteMany` and `countDocuments` on all of them.
* An `ObjectId` is a natural number.  A fresh document receives the value of the
  store's `nextId` counter, which is then incremented.
* The authenticated caller (`req.user._id`, set by the auth middleware) and the
  clock (`new Date()`) are explicit arguments `user` and `now` of every handler.
* A handler returns the HTTP status it answers with and the store it leaves
  behind.  A rejected `save()` (schema validation) is caught by the handler's
  `catch` block: status 500, nothing written.
* Request fields are either absent (`none`, JavaScript `undefined`) or present
  with a value of the JSON type the schema expects; enumerated fields arrive as
  strings and are checked against the schema's `enum`.  Ids in a request are
  well-formed `ObjectId`s, dates are already parsed.
* The `required` fields of an activity entry are titles that passed the
  `required` validator when they were stored, so `activity.save()` succeeds.
* `timestamps: true` (`createdAt`, `updatedAt`) and `populate` only decorate the
  response and are left out.
-/

namespace ToDo

/-! ## Data model (`src/models`) -/

abbrev ObjectId := Nat

/-- Values of `Task.status` (`enum: ['todo', 'in_progress', 'completed']`). -/
inductive TaskStatus where
  | todo
  | in_progress
  | completed
  deriving DecidableEq, Repr

/-- Values of `priority` in both schemas (`enum: ['low', 'medium', 'high']`). -/
inductive Priority where
  | low
  | medium
  | high
  deriving DecidableEq, Repr

/-- Values of `Project.status` (`enum: ['active', 'completed', 'archived']`). -/
inductive ProjectStatus where
  | active
  | completed
  | archived
  deriving DecidableEq, Repr

/-- Values of a collaborator's `role` (`enum: ['viewer', 'editor', 'admin']`). -/
inductive Role where
  | viewer
  | editor
  | admin
  deriving DecidableEq, Repr

/-- Values of `ActivityFeed.type`. -/
inductive ActivityType where
  | task_created
  | task_completed
  | task_reopened
  | task_deleted
  | project_created
  | project_deleted
  | project_updated
  deriving DecidableEq, Repr

/-- One element of `Project.collaborators`. -/
structure Collaborator where
  user : ObjectId
  role : Role
  deriving DecidableEq, Repr

/-- A document of the `Project` collection (`src/models/Project.js`). -/
structure Project where
  _id : ObjectId
  title : String
  description : Option String
  color : String
  owner : ObjectId
  collaborators : List Collaborator
  status : ProjectStatus
  priority : Priority
  dueDate : Option Nat
  tasksCount : Nat
  completedTasksCount : Nat
  deriving DecidableEq, Repr

/-- A document of the `Task` collection (`src/models/Task.js`). -/
structure Task where
  _id : ObjectId
  title : String
  description : Option String
  project : ObjectId
  assignedTo : Option ObjectId
  createdBy : ObjectId
  status : TaskStatus
  priority : Priority
  dueDate : Option Nat
  tags : List String
  completed : Bool
  completedAt : Option Nat
  order : Nat
  deriving DecidableEq, Repr

/-- A document of the `ActivityFeed` collection (`src/models/ActivityFeed.js`);
`type` is spelled `type_` here. -/
structure ActivityFeed where
  user : ObjectId
  projectId : ObjectId
  projectName : String
  taskId : Option ObjectId
  task : String
  type_ : ActivityType
  deriving DecidableEq, Repr

/-- Modelled from the spec: the `User` model (`models/User`) is not among the
sources; a user is an identity, and the only field the routes read besides the
id is the `email` that `POST /projects/:id/collaborators` looks up. -/
structure User where
  _id : ObjectId
  email : String
  deriving DecidableEq, Repr

/-- The document store: the four collections and the `ObjectId` generator. -/
structure Store where
  users : List User
  projects : List Project
  tasks : List Task
  activities : List ActivityFeed
  nextId : ObjectId
  deriving DecidableEq, Repr

/-! ## Collection primitives -/

/-- Replace the first element satisfying `p` by its image under `f`
(`findOneAndUpdate`). -/
def updateFirst {α : Type} (p : α → Bool) (f : α → α) : List α → List α
  | [] => []
  | x :: xs => if p x then f x :: xs else x :: updateFirst p f xs

/-- `Project.findById(id)`. -/
def findProject (s : Store) (id : ObjectId) : Option Project :=
  s.projects.find? (fun p => p._id == id)

/-- `Task.findById(id)`. -/
def findTask (s : Store) (id : ObjectId) : Option Task :=
  s.tasks.find? (fun t => t._id == id)

/-- `Task.countDocuments({ project: projectId })`. -/
def countTasks (tasks : List Task) (projectId : ObjectId) : Nat :=
  tasks.countP (fun t => t.project == projectId)

/-- `Task.countDocuments({ project: projectId, completed: true })`. -/
def countCompletedTasks (tasks : List Task) (projectId : ObjectId) : Nat :=
  tasks.countP (fun t => t.project == projectId && t.completed == true)

/-- The helper `updateProjectTaskCounts` of `src/routes/tasks.js`: two counting
queries, then `Project.findByIdAndUpdate` of the two counters. -/
def updateProjectTaskCounts (s : Store) (projectId : ObjectId) : Store :=
  let totalTasks := countTasks s.tasks projectId
  let completedTasks := countCompletedTasks s.tasks projectId
  let setCounts : Project → Project := fun p =>
    { p with tasksCount := totalTasks, completedTasksCount := completedTasks }
  { s with projects := updateFirst (fun p => p._id == projectId) setCounts s.projects }

/-! ## Schema casting and validation -/

/-- What a handler answers: the HTTP status and the store it leaves behind. -/
structure Result where
  status : Nat
  store : Store
  deriving DecidableEq, Repr

/-- The characters `String.prototype.trim` strips: ECMAScript white space and
line terminators. -/
def isJsWhitespace (c : Char) : Bool :=
  let n := c.toNat
  (0x9 ≤ n && n ≤ 0xD) || n == 0x20 || n == 0xA0 || n == 0x1680
    || (0x2000 ≤ n && n ≤ 0x200A) || n == 0x2028 || n == 0x2029 || n == 0x202F
    || n == 0x205F || n == 0x3000 || n == 0xFEFF

/-- The schema setter of `trim: true`, that is `String.prototype.trim`. -/
def jsTrim (s : String) : String :=
  String.mk ((s.data.dropWhile isJsWhitespace).reverse.dropWhile isJsWhitespace).reverse

/-- The `length` of a JavaScript string: its number of UTF-16 code units. -/
def jsLength (s : String) : Nat :=
  (s.data.map (fun c => if c.toNat < 0x10000 then 1 else 2)).sum

/-- The `required` and `maxlength` validators of a `title` path, on the value
the `trim: true` setter has produced. -/
def validTitle (maxlength : Nat) (title : String) : Bool :=
  title != "" && decide (jsLength title ≤ maxlength)

/-- The `maxlength` validator of a `description` path (not required). -/
def validDescription (maxlength : Nat) (description : Option String) : Bool :=
  match description with
  | none => true
  | some d => decide (jsLength d ≤ maxlength)

/-- The `enum` validator of `priority`. -/
def parsePriority : String → Option Priority
  | "low" => some Priority.low
  | "medium" => some Priority.medium
  | "high" => some Priority.high
  | _ => none

/-- The `enum` validator of `Task.status`. -/
def parseTaskStatus : String → Option TaskStatus
  | "todo" => some TaskStatus.todo
  | "in_progress" => some TaskStatus.in_progress
  | "completed" => some TaskStatus.completed
  | _ => none

/-- The `enum` validator of `Project.status`. -/
def parseProjectStatus : String → Option ProjectStatus
  | "active" => some ProjectStatus.active
  | "completed" => some ProjectStatus.completed
  | "archived" => some ProjectStatus.archived
  | _ => none

/-- The `enum` validator of a collaborator's `role`. -/
def parseRole : String → Option Role
  | "viewer" => some Role.viewer
  | "editor" => some Role.editor
  | "admin" => some Role.admin
  | _ => none

/-- The `enum` validator of `Project.color`. -/
def validColor (color : String) : Bool :=
  ["bg-green-100", "bg-yellow-100", "bg-red-100", "bg-blue-100", "bg-purple-100",
    "bg-pink-100"].contains color

/-- The hook `taskSchema.pre('save')` of `src/models/Task.js`; `statusModified`
stands for `this.isModified('status')`. -/
def preSave (statusModified : Bool) (now : Nat) (t : Task) : Task :=
  if statusModified then
    if t.status = TaskStatus.completed then
      { t with completed := true, completedAt := some now }
    else
      { t with completed := false, completedAt := none }
  else t

/-- The `type` of the entry written for a change of the `completed` flag:
`task.completed ? 'task_completed' : 'task_reopened'`. -/
def completionType (completed : Bool) : ActivityType :=
  if completed then ActivityType.task_completed else ActivityType.task_reopened

/-- Replace the stored task `id` by `t` (the write of `task.save()`). -/
def saveTask (s : Store) (id : ObjectId) (t : Task) : Store :=
  { s with tasks := updateFirst (fun x => x._id == id) (fun _ => t) s.tasks }

/-- Replace the stored project `id` by `p` (the write of `project.save()`). -/
def saveProject (s : Store) (id : ObjectId) (p : Project) : Store :=
  { s with projects := updateFirst (fun x => x._id == id) (fun _ => p) s.projects }

/-- Append one entry to the activity feed (`activity.save()`). -/
def record (s : Store) (a : ActivityFeed) : Store :=
  { s with activities := s.activities ++ [a] }

/-- The query `Project.findOne({ _id: id, owner: user })`. -/
def findOwnedProject (s : Store) (id user : ObjectId) : Option Project :=
  s.projects.find? (fun p => p._id == id && p.owner == user)

/-- The query `Project.findOne({ _id: id, $or: [{ owner: user },
{ 'collaborators.user': user }] })`. -/
def findAccessibleProject (s : Store) (id user : ObjectId) : Option Project :=
  s.projects.find? (fun p =>
    p._id == id && (p.owner == user || p.collaborators.any (fun c => c.user == user)))

/-! ## Task routes (`src/routes/tasks.js`) -/

/-- The body of `POST /tasks`. -/
structure CreateTaskBody where
  title : Option String
  description : Option String
  projectId : Option ObjectId
  assignedTo : Option ObjectId
  priority : Option String
  dueDate : Option Nat
  tags : Option (List String)
  deriving DecidableEq, Repr

/-- The body of `PUT /tasks/:id`. -/
structure UpdateTaskBody where
  title : Option String
  description : Option String
  status : Option String
  priority : Option String
  dueDate : Option Nat
  tags : Option (List String)
  assignedTo : Option ObjectId
  deriving DecidableEq, Repr

/-- The body of `PATCH /tasks/reorder`. -/
structure ReorderBody where
  taskIds : Option (List ObjectId)
  projectId : Option ObjectId
  deriving DecidableEq, Repr

/-- The query `Task.findOne({ project: projectId }).sort({ order: -1 })`: a task
of the project with the greatest `order`, if the project has a task. -/
def findLastTask (tasks : List Task) (projectId : ObjectId) : Option Task :=
  (tasks.filter (fun t => t.project == projectId)).foldl
    (fun best t =>
      match best with
      | none => some t
      | some b => if b.order < t.order then some t else some b)
    none

/-- The document `new Task({...})` of `POST /tasks` after casting, with the
schema defaults (`status: 'todo'`, `priority: 'medium'`, `completed: false`);
`none` when a validator rejects it. -/
def newTask (id user projectId : ObjectId) (title : String) (body : CreateTaskBody)
    (order : Nat) : Option Task :=
  let priority : Option Priority :=
    match body.priority with
    | none => some Priority.medium
    | some x => parsePriority x
  match priority with
  | none => none
  | some pr =>
    let t : Task :=
      { _id := id
        title := jsTrim title
        description := body.description.map jsTrim
        project := projectId
        assignedTo := some (body.assignedTo.getD user)
        createdBy := user
        status := TaskStatus.todo
        priority := pr
        dueDate := body.dueDate
        tags := (body.tags.getD []).map jsTrim
        completed := false
        completedAt := none
        order := order }
    if validTitle 200 t.title && validDescription 1000 t.description then some t else none

/-- The handler `router.post('/')` of `src/routes/tasks.js`.  The new document's
`status` comes from the schema default, so the save hook leaves it as it is. -/
def createTask (s : Store) (user : ObjectId) (now : Nat) (body : CreateTaskBody) : Result :=
  match body.title, body.projectId with
  | some title, some projectId =>
    if title == "" then ⟨400, s⟩ else
    match findOwnedProject s projectId user with
    | none => ⟨404, s⟩
    | some project =>
      let order :=
        match findLastTask s.tasks projectId with
        | some lastTask => lastTask.order + 1
        | none => 0
      match newTask s.nextId user projectId title body order with
      | none => ⟨500, s⟩
      | some t =>
        let task := preSave false now t
        let s1 : Store := { s with tasks := s.tasks ++ [task], nextId := s.nextId + 1 }
        let s2 := updateProjectTaskCounts s1 projectId
        ⟨201, record s2 ⟨user, projectId, project.title, some task._id, task.title,
          ActivityType.task_created⟩⟩
  | _, _ => ⟨400, s⟩

/-- The assignments `if (x !== undefined) task.x = x` of `PUT /tasks/:id`, with
`status` and `priority` already cast to `st` and `pr`. -/
def assignedTask (task : Task) (body : UpdateTaskBody) (st : TaskStatus) (pr : Priority) :
    Task :=
  { task with
    title := (body.title.map jsTrim).getD task.title
    description := if body.description.isSome then body.description.map jsTrim
      else task.description
    status := st
    priority := pr
    dueDate := if body.dueDate.isSome then body.dueDate else task.dueDate
    tags := ((body.tags.map (fun ts => ts.map jsTrim))).getD task.tags
    assignedTo := if body.assignedTo.isSome then body.assignedTo else task.assignedTo }

/-- The validators of the paths `PUT /tasks/:id` has assigned. -/
def validTaskUpdate (body : UpdateTaskBody) (t : Task) : Bool :=
  (body.title.isNone || validTitle 200 t.title)
    && (body.description.isNone || validDescription 1000 t.description)

/-- The assignments of `PUT /tasks/:id` after casting; `none` when a validator
rejects an assigned value. -/
def assignTaskFields (task : Task) (body : UpdateTaskBody) : Option Task :=
  let status : Option TaskStatus :=
    match body.status with
    | none => some task.status
    | some x => parseTaskStatus x
  let priority : Option Priority :=
    match body.priority with
    | none => some task.priority
    | some x => parsePriority x
  match status, priority with
  | some st, some pr =>
    if validTaskUpdate body (assignedTask task body st pr) then
      some (assignedTask task body st pr)
    else none
  | _, _ => none

/-- The document `task.save()` writes in `PUT /tasks/:id`: the assignments,
validation, then the save hook, for which `status` counts as modified when its
new value differs from the stored one. -/
def updatedTask (now : Nat) (task : Task) (body : UpdateTaskBody) : Option Task :=
  (assignTaskFields task body).map (fun t => preSave (t.status != task.status) now t)

/-- The handler `router.put('/:id')` of `src/routes/tasks.js`.  When the task's
project is gone, `task.project` is populated with `null` and reading its
`owner` throws: status 500. -/
def updateTask (s : Store) (user : ObjectId) (now : Nat) (id : ObjectId)
    (body : UpdateTaskBody) : Result :=
  match findTask s id with
  | none => ⟨404, s⟩
  | some task =>
    match findProject s task.project with
    | none => ⟨500, s⟩
    | some project =>
      if project.owner != user then ⟨403, s⟩ else
      let oldCompleted := task.completed
      match updatedTask now task body with
      | none => ⟨500, s⟩
      | some saved =>
        let s1 := saveTask s task._id saved
        let s2 := updateProjectTaskCounts s1 project._id
        if oldCompleted != saved.completed then
          ⟨200, record s2 ⟨user, project._id, project.title, some saved._id, saved.title,
            completionType saved.completed⟩⟩
        else ⟨200, s2⟩

/-- The handler `router.delete('/:id')` of `src/routes/tasks.js`. -/
def deleteTask (s : Store) (user : ObjectId) (id : ObjectId) : Result :=
  match findTask s id with
  | none => ⟨404, s⟩
  | some task =>
    match findProject s task.project with
    | none => ⟨500, s⟩
    | some project =>
      if project.owner != user then ⟨403, s⟩ else
      let s1 : Store := { s with tasks := s.tasks.eraseP (fun x => x._id == id) }
      let s2 := updateProjectTaskCounts s1 project._id
      ⟨200, record s2 ⟨user, project._id, project.title, none, task.title,
        ActivityType.task_deleted⟩⟩

/-- The document `task.save()` writes in `PATCH /tasks/:id/toggle`: the flip of
`completed`, the `status` and `completedAt` derived from it, then the save hook. -/
def toggledTask (now : Nat) (task : Task) : Task :=
  let completed := !task.completed
  let status := if completed then TaskStatus.completed else TaskStatus.todo
  let completedAt := if completed then some now else none
  let t : Task :=
    { task with completed := completed, status := status, completedAt := completedAt }
  preSave (t.status != task.status) now t

/-- The handler `router.patch('/:id/toggle')` of `src/routes/tasks.js`. -/
def toggleTask (s : Store) (user : ObjectId) (now : Nat) (id : ObjectId) : Result :=
  match findTask s id with
  | none => ⟨404, s⟩
  | some task =>
    match findProject s task.project with
    | none => ⟨500, s⟩
    | some project =>
      if project.owner != user then ⟨403, s⟩ else
      let saved := toggledTask now task
      let s1 := saveTask s task._id saved
      let s2 := updateProjectTaskCounts s1 project._id
      ⟨200, record s2 ⟨user, project._id, project.title, some saved._id, saved.title,
        completionType saved.completed⟩⟩

/-- The updates `taskIds.map((taskId, index) => Task.findByIdAndUpdate(taskId,
{ order: index }))` of `PATCH /tasks/reorder`, applied in the order of the
array, `index` being the position of the head of the remaining ids. -/
def setOrders (tasks : List Task) : List ObjectId → Nat → List Task
  | [], _ => tasks
  | taskId :: rest, index =>
    setOrders (updateFirst (fun t => t._id == taskId) (fun t => { t with order := index }) tasks)
      rest (index + 1)

/-- The handler `router.patch('/reorder')` of `src/routes/tasks.js`. -/
def reorderTasks (s : Store) (user : ObjectId) (body : ReorderBody) : Result :=
  match body.taskIds, body.projectId with
  | some taskIds, some projectId =>
    match findAccessibleProject s projectId user with
    | none => ⟨404, s⟩
    | some _ => ⟨200, { s with tasks := setOrders s.tasks taskIds 0 }⟩
  | _, _ => ⟨400, s⟩

/-! ## Project routes (`src/routes/projects.js`) -/

/-- The body of `POST /projects`. -/
structure CreateProjectBody where
  title : Option String
  description : Option String
  color : Option String
  priority : Option String
  dueDate : Option Nat
  deriving DecidableEq, Repr

/-- The body of `PUT /projects/:id`. -/
structure UpdateProjectBody where
  title : Option String
  description : Option String
  color : Option String
  priority : Option String
  dueDate : Option Nat
  status : Option String
  deriving DecidableEq, Repr

/-- The body of `POST /projects/:id/collaborators`; `role` defaults to
`'editor'` in the handler's destructuring. -/
structure AddCollaboratorBody where
  userEmail : String
  role : Option String
  deriving DecidableEq, Repr

/-- The document `new Project({...})` of `POST /projects` after casting, with
the schema defaults; `none` when a validator rejects it. -/
def newProject (id user : ObjectId) (title : String) (body : CreateProjectBody) :
    Option Project :=
  let priority : Option Priority :=
    match body.priority with
    | none => some Priority.medium
    | some x => parsePriority x
  match priority with
  | none => none
  | some pr =>
    let p : Project :=
      { _id := id
        title := jsTrim title
        description := body.description.map jsTrim
        color := body.color.getD "bg-blue-100"
        owner := user
        collaborators := []
        status := ProjectStatus.active
        priority := pr
        dueDate := body.dueDate
        tasksCount := 0
        completedTasksCount := 0 }
    if validTitle 100 p.title && validDescription 500 p.description && validColor p.color
    then some p else none

/-- The handler `router.post('/')` of `src/routes/projects.js`. -/
def createProject (s : Store) (user : ObjectId) (body : CreateProjectBody) : Result :=
  match body.title with
  | none => ⟨400, s⟩
  | some title =>
    if title == "" then ⟨400, s⟩ else
    match newProject s.nextId user title body with
    | none => ⟨500, s⟩
    | some project =>
      let s1 : Store := { s with projects := s.projects ++ [project], nextId := s.nextId + 1 }
      ⟨201, record s1 ⟨user, project._id, project.title, none, project.title,
        ActivityType.project_created⟩⟩

/-- The assignments `if (x !== undefined) project.x = x` of `PUT /projects/:id`,
with `status` and `priority` already cast to `st` and `pr`. -/
def assignedProject (project : Project) (body : UpdateProjectBody) (st : ProjectStatus)
    (pr : Priority) : Project :=
  { project with
    title := (body.title.map jsTrim).getD project.title
    description := if body.description.isSome then body.description.map jsTrim
      else project.description
    color := body.color.getD project.color
    priority := pr
    dueDate := if body.dueDate.isSome then body.dueDate else project.dueDate
    status := st }

/-- The validators of the paths `PUT /projects/:id` has assigned. -/
def validProjectUpdate (body : UpdateProjectBody) (p : Project) : Bool :=
  (body.title.isNone || validTitle 100 p.title)
    && (body.description.isNone || validDescription 500 p.description)
    && (body.color.isNone || validColor p.color)

/-- The assignments of `PUT /projects/:id` after casting; `none` when a
validator rejects an assigned value. -/
def assignProjectFields (project : Project) (body : UpdateProjectBody) : Option Project :=
  let status : Option ProjectStatus :=
    match body.status with
    | none => some project.status
    | some x => parseProjectStatus x
  let priority : Option Priority :=
    match body.priority with
    | none => some project.priority
    | some x => parsePriority x
  match status, priority with
  | some st, some pr =>
    if validProjectUpdate body (assignedProject project body st pr) then
      some (assignedProject project body st pr)
    else none
  | _, _ => none

/-- The handler `router.put('/:id')` of `src/routes/projects.js`. -/
def updateProject (s : Store) (user : ObjectId) (id : ObjectId) (body : UpdateProjectBody) :
    Result :=
  match findOwnedProject s id user with
  | none => ⟨404, s⟩
  | some project =>
    match assignProjectFields project body with
    | none => ⟨500, s⟩
    | some p =>
      let s1 := saveProject s project._id p
      ⟨200, record s1 ⟨user, p._id, p.title, none, p.title, ActivityType.project_updated⟩⟩

/-- The handler `router.delete('/:id')` of `src/routes/projects.js`:
`Task.deleteMany`, then the activity entry, then `Project.findByIdAndDelete`. -/
def deleteProject (s : Store) (user : ObjectId) (id : ObjectId) : Result :=
  match findOwnedProject s id user with
  | none => ⟨404, s⟩
  | some project =>
    let s1 : Store := { s with tasks := s.tasks.filter (fun t => !(t.project == project._id)) }
    let s2 := record s1 ⟨user, project._id, project.title, none, project.title,
      ActivityType.project_deleted⟩
    ⟨200, { s2 with projects := s2.projects.eraseP (fun x => x._id == id) }⟩

/-- The handler `router.post('/:id/collaborators')` of `src/routes/projects.js`. -/
def addCollaborator (s : Store) (user : ObjectId) (id : ObjectId)
    (body : AddCollaboratorBody) : Result :=
  match findOwnedProject s id user with
  | none => ⟨404, s⟩
  | some project =>
    match s.users.find? (fun u => u.email == body.userEmail) with
    | none => ⟨404, s⟩
    | some collaboratorUser =>
      match project.collaborators.find? (fun collab => collab.user == collaboratorUser._id) with
      | some _ => ⟨400, s⟩
      | none =>
        match parseRole (body.role.getD "editor") with
        | none => ⟨500, s⟩
        | some role =>
          let p : Project :=
            { project with collaborators := project.collaborators ++ [⟨collaboratorUser._id, role⟩] }
          ⟨200, saveProject s project._id p⟩

/-- The handler `router.delete('/:id/collaborators/:userId')` of
`src/routes/projects.js`. -/
def removeCollaborator (s : Store) (user : ObjectId) (id : ObjectId) (userId : ObjectId) :
    Result :=
  match findOwnedProject s id user with
  | none => ⟨404, s⟩
  | some project =>
    let p : Project :=
      { project with
        collaborators := project.collaborators.filter (fun collab => !(collab.user == userId)) }
    ⟨200, saveProject s project._id p⟩

/-! ## Requests and reachable states -/

/-- The state-changing requests of the two routers, each with the caller the
auth middleware resolved and, where the handler reads the clock, the time. -/
inductive Request where
  | createProject (user : ObjectId) (body : CreateProjectBody)
  | updateProject (user : ObjectId) (id : ObjectId) (body : UpdateProjectBody)
  | deleteProject (user : ObjectId) (id : ObjectId)
  | addCollaborator (user : ObjectId) (id : ObjectId) (body : AddCollaboratorBody)
  | removeCollaborator (user : ObjectId) (id : ObjectId) (userId : ObjectId)
  | createTask (user : ObjectId) (now : Nat) (body : CreateTaskBody)
  | updateTask (user : ObjectId) (now : Nat) (id : ObjectId) (body : UpdateTaskBody)
  | deleteTask (user : ObjectId) (id : ObjectId)
  | toggleTask (user : ObjectId) (now : Nat) (id : ObjectId)
  | reorderTasks (user : ObjectId) (body : ReorderBody)
  deriving DecidableEq, Repr

/-- Dispatch of a request to its handler. -/
def handle (s : Store) : Request → Result
  | Request.createProject user body => createProject s user body
  | Request.updateProject user id body => updateProject s user id body
  | Request.deleteProject user id => deleteProject s user id
  | Request.addCollaborator user id body => addCollaborator s user id body
  | Request.removeCollaborator user id userId => removeCollaborator s user id userId
  | Request.createTask user now body => createTask s user now body
  | Request.updateTask user now id body => updateTask s user now id body
  | Request.deleteTask user id => deleteTask s user id
  | Request.toggleTask user now id => toggleTask s user now id
  | Request.reorderTasks user body => reorderTasks s user body

/-- The store before any request: registered users, no project, task or
activity entry. -/
def emptyStore (users : List User) : Store :=
  { users := users, projects := [], tasks := [], activities := [], nextId := 0 }

/-- The store after the requests `rs` have been served one after the other. -/
def run (s : Store) : List Request → Store
  | [] => s
  | r :: rs => run (handle s r).store rs

/-- States reachable from the empty store by requests served sequentially. -/
def Reachable (s : Store) : Prop :=
  ∃ (users : List User) (rs : List Request), s = run (emptyStore users) rs

/-! ## The `progress` virtual (`src/models/Project.js`)

JavaScript numbers are IEEE 754 binary64 values.  A non-negative finite value is
kept as an exact fraction `(num, den)`; each arithmetic operation rounds its
exact result to the nearest value with a 53-bit significand, ties to even.  The
counters stay far inside the normal range, so exponent limits are not modelled.
-/

/-- The fraction `num / den` rounded to the nearest natural number, ties to even. -/
def roundHalfEven (num den : Nat) : Nat :=
  let q := num / den
  let r := num % den
  if 2 * r < den then q
  else if den < 2 * r then q + 1
  else if q % 2 = 0 then q else q + 1

/-- The least `k`, counted from the given one, with `den * 2^52 ≤ num * 2^k`. -/
def scaleUp (num den : Nat) : Nat → Nat → Nat
  | 0, k => k
  | fuel + 1, k => if den * 2 ^ 52 ≤ num * 2 ^ k then k else scaleUp num den fuel (k + 1)

/-- The least `k`, counted from the given one, with `num < den * 2^(53 + k)`. -/
def scaleDown (num den : Nat) : Nat → Nat → Nat
  | 0, k => k
  | fuel + 1, k => if num < den * 2 ^ (53 + k) then k else scaleDown num den fuel (k + 1)

/-- The binary64 value nearest to the fraction `num / den` (`den ≠ 0`), as an
exact fraction: the significand is rounded to 53 bits, ties to even. -/
def roundToDouble (num den : Nat) : Nat × Nat :=
  if num = 0 then (0, 1)
  else if num < den * 2 ^ 52 then
    let k := scaleUp num den (den + 53) 0
    (roundHalfEven (num * 2 ^ k) den, 2 ^ k)
  else
    let k := scaleDown num den (num + 1) 0
    (roundHalfEven num (den * 2 ^ k) * 2 ^ k, 1)

/-- The value of `Math.round(x)` for `x ≥ 0`: the nearest integer, halves up. -/
def mathRound (x : Nat × Nat) : Nat :=
  (2 * x.1 + x.2) / (2 * x.2)

/-- The getter `projectSchema.virtual('progress')`:
`Math.round((this.completedTasksCount / this.tasksCount) * 100)`, a division and
then a multiplication in binary64. -/
def progress (tasksCount completedTasksCount : Nat) : Nat :=
  if tasksCount = 0 then 0
  else
    let ratio := roundToDouble completedTasksCount tasksCount
    let percent := roundToDouble (ratio.1 * 100) ratio.2
    mathRound percent

/-- The spec's `round(completedTasksCount / tasksCount × 100)` over the exact
quotient: the nearest integer to `100 * c / t`, halves rounded up. -/
def exactPercent (tasksCount completedTasksCount : Nat) : Nat :=
  (200 * completedTasksCount + tasksCount) / (2 * tasksCount)

/-! ## Read routes

A read handler returns the HTTP status and the payload; it writes nothing. -/

/-- The handler `router.get('/:id')` of `src/routes/projects.js`. -/
def getProject (s : Store) (user : ObjectId) (id : ObjectId) : Nat × Option Project :=
  match findAccessibleProject s id user with
  | none => (404, none)
  | some project => (200, some project)

/-- The handler `router.get('/:id')` of `src/routes/tasks.js`.  When the task's
project is gone, `task.project` is populated with `null` and reading its
`owner` throws: status 500. -/
def getTask (s : Store) (user : ObjectId) (id : ObjectId) : Nat × Option Task :=
  match findTask s id with
  | none => (404, none)
  | some task =>
    match findProject s task.project with
    | none => (500, none)
    | some project =>
      if project.owner != user then (403, none) else (200, some task)

/-- The `stats` object of `GET /projects/:id/stats`.  `inProgressTasks` is the
result of a subtraction and so an integer; `tasksByStatus` is the object the
`reduce` builds, as its key-value pairs. -/
structure Stats where
  totalTasks : Nat
  completedTasks : Nat
  inProgressTasks : Int
  progress : Nat
  tasksByStatus : List (TaskStatus × Nat)
  deriving DecidableEq, Repr

/-- The pipeline `Task.aggregate([{ $match: { project } }, { $group: { _id:
'$status', count: { $sum: 1 } } }])` folded into an object by `reduce`: one
key for every status that a task of the project has, with the number of those
tasks, listed in the order of the schema's `enum`. -/
def taskStats (tasks : List Task) (projectId : ObjectId) : List (TaskStatus × Nat) :=
  ([TaskStatus.todo, TaskStatus.in_progress, TaskStatus.completed].map (fun st =>
      (st, tasks.countP (fun t => t.project == projectId && t.status == st)))).filter
    (fun group => group.2 != 0)

/-- The handler `router.get('/:id/stats')` of `src/routes/projects.js`. -/
def getProjectStats (s : Store) (user : ObjectId) (id : ObjectId) : Nat × Option Stats :=
  match findAccessibleProject s id user with
  | none => (404, none)
  | some project =>
    (200, some
      { totalTasks := project.tasksCount
        completedTasks := project.completedTasksCount
        inProgressTasks := (project.tasksCount : Int) - (project.completedTasksCount : Int)
        progress := progress project.tasksCount project.completedTasksCount
        tasksByStatus := taskStats s.tasks project._id })

/-- The value of the digit `c` in the given radix, if it is one. -/
def digitValue (radix : Nat) (c : Char) : Option Nat :=
  let n := c.toNat
  let v : Option Nat :=
    if 48 ≤ n ∧ n ≤ 57 then some (n - 48)
    else if 97 ≤ n ∧ n ≤ 122 then some (n - 87)
    else if 65 ≤ n ∧ n ≤ 90 then some (n - 55)
    else none
  match v with
  | some d => if d < radix then some d else none
  | none => none

/-- The values of the longest prefix of digits of the given radix. -/
def takeDigits (radix : Nat) : List Char → List Nat
  | [] => []
  | c :: cs =>
    match digitValue radix c with
    | some d => d :: takeDigits radix cs
    | none => []

/-- A JavaScript number as it occurs in the paging arithmetic: a binary64 value
that is an integer, an infinity, or `NaN`.  The sign of a zero is not kept: `-0`
is falsy and compares equal to `0`. -/
inductive JsNumber where
  | finite (n : Int)
  | posInf
  | negInf
  | nan
  deriving DecidableEq, Repr

/-- The least power of two `u`, counted from the given one, with
`m < 2^53 * u`: the spacing of the binary64 values around `m`. -/
def unitFor (m : Nat) : Nat → Nat → Nat
  | 0, u => u
  | fuel + 1, u => if m < 2 ^ 53 * u then u else unitFor m fuel (2 * u)

/-- The natural number `m` rounded to the nearest natural number with a 53-bit
significand, ties to even; `m` itself below `2^53`. -/
def roundNat (m : Nat) : Nat :=
  if m < 2 ^ 53 then m
  else
    let u := unitFor m (m + 1) 1
    roundHalfEven m u * u

/-- The bound `2^1024` beyond the greatest binary64 value. -/
def overflowBound : Nat :=
  2 ^ 256 * 2 ^ 256 * 2 ^ 256 * 2 ^ 256

/-- The binary64 value of the exact integer `n`: rounded to nearest, ties to
even, and an infinity when the rounded magnitude reaches `2^1024`. -/
def toNumber (n : Int) : JsNumber :=
  let r := roundNat n.natAbs
  if overflowBound ≤ r then (if n < 0 then JsNumber.negInf else JsNumber.posInf)
  else JsNumber.finite (if n < 0 then -(r : Int) else (r : Int))

/-- The binary64 difference `a - b`. -/
def JsNumber.sub : JsNumber → JsNumber → JsNumber
  | JsNumber.finite x, JsNumber.finite y => toNumber (x - y)
  | JsNumber.nan, _ => JsNumber.nan
  | _, JsNumber.nan => JsNumber.nan
  | JsNumber.posInf, JsNumber.posInf => JsNumber.nan
  | JsNumber.negInf, JsNumber.negInf => JsNumber.nan
  | JsNumber.posInf, _ => JsNumber.posInf
  | JsNumber.negInf, _ => JsNumber.negInf
  | JsNumber.finite _, JsNumber.posInf => JsNumber.negInf
  | JsNumber.finite _, JsNumber.negInf => JsNumber.posInf

/-- The sign of a number that is neither zero nor `NaN`: `true` for negative. -/
def JsNumber.isNegative : JsNumber → Bool
  | JsNumber.finite n => decide (n < 0)
  | JsNumber.negInf => true
  | _ => false

/-- The binary64 product `a * b`; an infinity times zero is `NaN`. -/
def JsNumber.mul : JsNumber → JsNumber → JsNumber
  | JsNumber.finite x, JsNumber.finite y => toNumber (x * y)
  | JsNumber.nan, _ => JsNumber.nan
  | _, JsNumber.nan => JsNumber.nan
  | a, b =>
    if a = JsNumber.finite 0 ∨ b = JsNumber.finite 0 then JsNumber.nan
    else if a.isNegative = b.isNegative then JsNumber.posInf
    else JsNumber.negInf

/-- The comparison `a >= n` of JavaScript, false for `NaN`. -/
def JsNumber.atLeast (a : JsNumber) (n : Int) : Prop :=
  match a with
  | JsNumber.finite x => n ≤ x
  | JsNumber.posInf => True
  | _ => False

instance (a : JsNumber) (n : Int) : Decidable (a.atLeast n) := by
  unfold JsNumber.atLeast
  cases a <;> exact inferInstance

/-- JavaScript `parseInt(input)` without a radix argument: leading white space
is skipped, then an optional sign, then the prefix `0x` or `0X` selects radix
16, then the longest run of digits is read; no digit gives `NaN`, as does
`undefined`.  The integer read is returned as a binary64 number. -/
def parseInt (input : Option String) : JsNumber :=
  match input with
  | none => JsNumber.nan
  | some str =>
    let s := str.data.dropWhile isJsWhitespace
    let signed : Int × List Char :=
      match s with
      | '-' :: r => (-1, r)
      | '+' :: r => (1, r)
      | _ => (1, s)
    let prefixed : Nat × List Char :=
      match signed.2 with
      | '0' :: 'x' :: r => (16, r)
      | '0' :: 'X' :: r => (16, r)
      | _ => (10, signed.2)
    let digits := takeDigits prefixed.1 prefixed.2
    if digits = [] then JsNumber.nan
    else
      toNumber (signed.1 * ((digits.foldl (fun acc d => acc * prefixed.1 + d) 0 : Nat) : Int))

/-- The expression `value || fallback` for a number: `NaN` and zero are falsy. -/
def orDefault (value : JsNumber) (fallback : JsNumber) : JsNumber :=
  if value = JsNumber.nan ∨ value = JsNumber.finite 0 then fallback else value

/-- The `limit`, `page` and `skip` of `GET /tasks/activity/feed`; `limit` and
`page` are what the response's `pagination` reports. -/
structure FeedPaging where
  limit : JsNumber
  page : JsNumber
  skip : JsNumber
  deriving DecidableEq, Repr

/-- Lines 443-445 of `src/routes/tasks.js`: `parseInt(req.query.limit) || 20`,
`parseInt(req.query.page) || 1`, `(page - 1) * limit`, in binary64. -/
def feedPaging (limit page : Option String) : FeedPaging :=
  let limit := orDefault (parseInt limit) (JsNumber.finite 20)
  let page := orDefault (parseInt page) (JsNumber.finite 1)
  { limit := limit, page := page, skip := (page.sub (JsNumber.finite 1)).mul limit }

/-! ## Predicates of the specification -/

/-- The task invariant of the data model: `completed == (status == 'completed')`
and `completedAt` is non-null iff `completed`. -/
def TaskOK (t : Task) : Prop :=
  t.completed = decide (t.status = TaskStatus.completed) ∧ t.completedAt.isSome = t.completed

instance (t : Task) : Decidable (TaskOK t) := by
  unfold TaskOK
  exact inferInstance

/-- The counter invariant of the data model for one project of a store. -/
def CountersOK (s : Store) (p : Project) : Prop :=
  p.completedTasksCount ≤ p.tasksCount
    ∧ p.tasksCount = (s.tasks.filter (fun t => t.project = p._id)).length
    ∧ p.completedTasksCount
        = (s.tasks.filter (fun t => t.project = p._id ∧ t.completed = true)).length

instance (s : Store) (p : Project) : Decidable (CountersOK s p) := by
  unfold CountersOK
  exact inferInstance

/-- Uniqueness of `_id` within the `Project` and the `Task` collection, which
the database enforces. -/
def UniqueIds (s : Store) : Prop :=
  (s.projects.map (fun p => p._id)).Nodup ∧ (s.tasks.map (fun t => t._id)).Nodup

instance (s : Store) : Decidable (UniqueIds s) := by
  unfold UniqueIds
  exact inferInstance

/-- The store invariant behind the counters: ids are unique and older than the
generator, every task belongs to a stored project, and every project's counters
agree with the tasks. -/
def Consistent (s : Store) : Prop :=
  UniqueIds s
    ∧ (∀ i ∈ s.projects.map (fun p => p._id), i < s.nextId)
    ∧ (∀ i ∈ s.tasks.map (fun t => t._id), i < s.nextId)
    ∧ (∀ i ∈ s.tasks.map (fun t => t.project), i ∈ s.projects.map (fun p => p._id))
    ∧ (∀ p ∈ s.projects, CountersOK s p)

instance (s : Store) : Decidable (Consistent s) := by
  unfold Consistent
  exact inferInstance

/-- The project as `updateProjectTaskCounts` leaves it. -/
def withCounts (s : Store) (p : Project) : Project :=
  { p with tasksCount := countTasks s.tasks p._id
           completedTasksCount := countCompletedTasks s.tasks p._id }

/-- The collaborator invariant of the data model: within a project's
`collaborators` list no user occurs twice. -/
def CollaboratorsUnique (s : Store) : Prop :=
  ∀ p ∈ s.projects, (p.collaborators.map (fun c => c.user)).Nodup

instance (s : Store) : Decidable (CollaboratorsUnique s) := by
  unfold CollaboratorsUnique
  exact inferInstance

/-! ## Sample sessions -/

/-- User 1 creates the project "Sprint 1" (id 0) and the task "Design" in it
(id 1). -/
def sessionRequests : List Request :=
  [ Request.createProject 1 ⟨some "Sprint 1", none, none, none, none⟩,
    Request.createTask 1 10 ⟨some "Design", none, some 0, none, none, none, none⟩ ]

/-- The store after `sessionRequests`. -/
def sessionStore : Store :=
  run (emptyStore []) sessionRequests

/-- The task of `sessionStore`. -/
def sessionTask : Task :=
  { _id := 1
    title := "Design"
    description := none
    project := 0
    assignedTo := some 1
    createdBy := 1
    status := TaskStatus.todo
    priority := Priority.medium
    dueDate := none
    tags := []
    completed := false
    completedAt := none
    order := 0 }

/-- An update body that sets only `status`. -/
def statusBody (status : String) : UpdateTaskBody :=
  { title := none, description := none, status := some status, priority := none,
    dueDate := none, tags := none, assignedTo := none }

/-- The store of `sessionStore` after user 1 has moved the task to
`in_progress`. -/
def inProgressStore : Store :=
  (updateTask sessionStore 1 11 1 (statusBody "in_progress")).store

/-- User 1 creates a project (id 0) with the tasks 1, 2 and 3, which get the
orders 0, 1 and 2. -/
def threeTaskStore : Store :=
  run (emptyStore [])
    [ Request.createProject 1 ⟨some "Sprint 1", none, none, none, none⟩,
      Request.createTask 1 10 ⟨some "Design", none, some 0, none, none, none, none⟩,
      Request.createTask 1 11 ⟨some "Build", none, some 0, none, none, none, none⟩,
      Request.createTask 1 12 ⟨some "Test", none, some 0, none, none, none, none⟩ ]

/-- User 2 creates a project (id 0) with the tasks 1 and 2 (orders 0 and 1);
user 1, who is neither its owner nor a collaborator, creates a project of their
own (id 3). -/
def twoOwnerStore : Store :=
  run (emptyStore [])
    [ Request.createProject 2 ⟨some "Private", none, none, none, none⟩,
      Request.createTask 2 10 ⟨some "First", none, some 0, none, none, none, none⟩,
      Request.createTask 2 11 ⟨some "Second", none, some 0, none, none, none, none⟩,
      Request.createProject 1 ⟨some "Mine", none, none, none, none⟩ ]

/-- The body of a request of user 1 for a second task, "Build", in project 0. -/
def buildBody : CreateTaskBody :=
  { title := some "Build", description := none, projectId := some 0, assignedTo := none,
    priority := none, dueDate := none, tags := none }

/-- The project of `sessionStore`. -/
def sessionProject : Project :=
  { _id := 0
    title := "Sprint 1"
    description := none
    color := "bg-blue-100"
    owner := 1
    collaborators := []
    status := ProjectStatus.active
    priority := Priority.medium
    dueDate := none
    tasksCount := 1
    completedTasksCount := 0 }

/-- The body of a request for the project "Sprint 1". -/
def sprintBody : CreateProjectBody :=
  { title := some "Sprint 1", description := none, color := none, priority := none,
    dueDate := none }

/-- The body of a request for the task "Design" in project 0. -/
def designBody : CreateTaskBody :=
  { title := some "Design", description := none, projectId := some 0, assignedTo := none,
    priority := none, dueDate := none, tags := none }

/-- A title of 101 characters. -/
def longTitle : String :=
  String.mk (List.replicate 101 'a')

/-- A store with the user 2, `bob@example.com`, in which user 1 has created the
project "Sprint 1" (id 0) and added user 2 to it as a viewer. -/
def sharedStore : Store :=
  run (emptyStore [⟨2, "bob@example.com"⟩])
    [ Request.createProject 1 ⟨some "Sprint 1", none, none, none, none⟩,
      Request.addCollaborator 1 0 ⟨"bob@example.com", some "viewer"⟩ ]

/-- The project of `sharedStore`. -/
def sharedProject : Project :=
  { _id := 0
    title := "Sprint 1"
    description := none
    color := "bg-blue-100"
    owner := 1
    collaborators := [⟨2, Role.viewer⟩]
    status := ProjectStatus.active
    priority := Priority.medium
    dueDate := none
    tasksCount := 0
    completedTasksCount := 0 }

/-- The body of a request that renames a project to " Sprint 2 " and archives
it. -/
def renameBody : UpdateProjectBody :=
  { title := some " Sprint 2 ", description := none, color := none, priority := none,
    dueDate := none, status := some "archived" }

/-! ## Lemmas on the collection primitives -/

theorem updateFirst_length {α : Type} (p : α → Bool) (f : α → α) (l : List α) :
    (updateFirst p f l).length = l.length := by
  induction l with
  | nil => rfl
  | cons x xs ih =>
    by_cases h : p x = true
    · simp [updateFirst, h]
    · simp [updateFirst, h, ih]

/-- Looking up with the predicate that selected the updated element. -/
theorem find?_updateFirst_self {α : Type} (p : α → Bool) (f : α → α)
    (hf : ∀ x, p x = true → p (f x) = true) (l : List α) :
    (updateFirst p f l).find? p = (l.find? p).map f := by
  induction l with
  | nil => rfl
  | cons x xs ih =>
    by_cases h : p x = true
    · simp [updateFirst, h, hf x h]
    · simp [updateFirst, h, ih]

/-- A filter that rejects the selected elements and their images does not see
the update. -/
theorem filter_updateFirst_of_disjoint {α : Type} (p q : α → Bool) (f : α → α)
    (hq : ∀ x, p x = true → q x = false ∧ q (f x) = false) (l : List α) :
    (updateFirst p f l).filter q = l.filter q := by
  induction l with
  | nil => rfl
  | cons x xs ih =>
    by_cases h : p x = true
    · simp [updateFirst, h, List.filter_cons, (hq x h).1, (hq x h).2]
    · simp [updateFirst, h, List.filter_cons, ih]

/-- With unique keys, erasing the first element with a key erases every one. -/
theorem eraseP_key_eq_filter {α : Type} (k : α → Nat) (id : Nat) (l : List α)
    (h : (l.map k).Nodup) :
    l.eraseP (fun x => k x == id) = l.filter (fun x => !(k x == id)) := by
  induction l with
  | nil => rfl
  | cons x xs ih =>
    rw [List.map_cons, List.nodup_cons] at h
    obtain ⟨hx, hxs⟩ := h
    by_cases hk : k x = id
    · have hall : ∀ y ∈ xs, (!(k y == id)) = true := by
        intro y hy
        have : k y ≠ k x := fun e => hx (e ▸ List.mem_map_of_mem k hy)
        simpa [hk] using this
      simp [List.eraseP_cons, hk, List.filter_eq_self.2 hall]
    · simp [List.eraseP_cons, hk, ih hxs]

/-- With unique keys, updating the first element with a key updates every one. -/
theorem updateFirst_key_eq_map {α : Type} (k : α → Nat) (id : Nat) (f : α → α) (l : List α)
    (h : (l.map k).Nodup) :
    updateFirst (fun x => k x == id) f l = l.map (fun x => if k x = id then f x else x) := by
  induction l with
  | nil => rfl
  | cons x xs ih =>
    rw [List.map_cons, List.nodup_cons] at h
    obtain ⟨hx, hxs⟩ := h
    by_cases hk : k x = id
    · have hall : ∀ y ∈ xs, (if k y = id then f y else y) = y := by
        intro y hy
        have : k y ≠ k x := fun e => hx (e ▸ List.mem_map_of_mem k hy)
        simp [hk ▸ this]
      simp [updateFirst, hk, List.map_congr_left hall]
    · simp [updateFirst, hk, ih hxs]

theorem mem_updateFirst {α : Type} {p : α → Bool} {f : α → α} {l : List α} {z : α}
    (h : z ∈ updateFirst p f l) : z ∈ l ∨ ∃ y ∈ l, p y = true ∧ z = f y := by
  induction l with
  | nil => cases h
  | cons x xs ih =>
    by_cases hp : p x = true
    · rw [updateFirst, if_pos hp, List.mem_cons] at h
      rcases h with h | h
      · exact Or.inr ⟨x, List.mem_cons_self _ _, hp, h⟩
      · exact Or.inl (List.mem_cons_of_mem _ h)
    · rw [updateFirst, if_neg hp, List.mem_cons] at h
      rcases h with h | h
      · exact Or.inl (h ▸ List.mem_cons_self _ _)
      · rcases ih h with h | ⟨y, hy, hpy, hz⟩
        · exact Or.inl (List.mem_cons_of_mem _ h)
        · exact Or.inr ⟨y, List.mem_cons_of_mem _ hy, hpy, hz⟩

/-- An update that keeps the key of the elements it may touch keeps the keys. -/
theorem map_updateFirst {α β : Type} (k : α → β) (p : α → Bool) (f : α → α) (l : List α)
    (hk : ∀ y ∈ l, p y = true → k (f y) = k y) :
    (updateFirst p f l).map k = l.map k := by
  induction l with
  | nil => rfl
  | cons x xs ih =>
    by_cases hp : p x = true
    · simp [updateFirst, hp, hk x (List.mem_cons_self _ _) hp]
    · simp [updateFirst, hp, ih (fun y hy => hk y (List.mem_cons_of_mem _ hy))]

/-- Counting with a predicate that does not tell the updated element from its
replacement. -/
theorem countP_updateFirst {α : Type} (q p : α → Bool) (f : α → α) (l : List α)
    (hq : ∀ y ∈ l, p y = true → q (f y) = q y) :
    (updateFirst p f l).countP q = l.countP q := by
  induction l with
  | nil => rfl
  | cons x xs ih =>
    by_cases hp : p x = true
    · simp [updateFirst, hp, List.countP_cons, hq x (List.mem_cons_self _ _) hp]
    · simp [updateFirst, hp, List.countP_cons, ih (fun y hy => hq y (List.mem_cons_of_mem _ hy))]

/-- Counting after the element that `find?` returns has been replaced. -/
theorem countP_updateFirst_of_find {α : Type} (q p : α → Bool) (f : α → α) (l : List α) (x : α)
    (hx : l.find? p = some x) (hq : q (f x) = q x) :
    (updateFirst p f l).countP q = l.countP q := by
  induction l with
  | nil => rfl
  | cons y ys ih =>
    by_cases hp : p y = true
    · simp only [List.find?_cons, hp, Option.some.injEq] at hx
      subst hx
      simp [updateFirst, hp, List.countP_cons, hq]
    · simp only [List.find?_cons, hp] at hx
      simp [updateFirst, hp, List.countP_cons, ih hx]

/-- Counting after the element that `find?` returns has been erased, with a
predicate that rejects it. -/
theorem countP_eraseP_of_find {α : Type} (q p : α → Bool) (l : List α) (x : α)
    (hx : l.find? p = some x) (hq : q x = false) :
    (l.eraseP p).countP q = l.countP q := by
  induction l with
  | nil => rfl
  | cons y ys ih =>
    by_cases hp : p y = true
    · simp only [List.find?_cons, hp, Option.some.injEq] at hx
      subst hx
      simp [List.eraseP_cons, hp, List.countP_cons, hq]
    · simp only [List.find?_cons, hp] at hx
      simp [List.eraseP_cons, hp, List.countP_cons, ih hx]

/-- Two elements of a list with unique keys that share a key are equal. -/
theorem eq_of_key_eq {α : Type} (k : α → Nat) {l : List α} (h : (l.map k).Nodup) {x y : α}
    (hx : x ∈ l) (hy : y ∈ l) (hk : k x = k y) : x = y := by
  induction l with
  | nil => cases hx
  | cons z zs ih =>
    rw [List.map_cons, List.nodup_cons] at h
    obtain ⟨hz, hzs⟩ := h
    rcases List.mem_cons.1 hx with hx | hx <;> rcases List.mem_cons.1 hy with hy | hy
    · rw [hx, hy]
    · refine absurd ?_ hz
      rw [← hx, hk]
      exact List.mem_map_of_mem k hy
    · refine absurd ?_ hz
      rw [← hy, ← hk]
      exact List.mem_map_of_mem k hx
    · exact ih hzs hx hy

/-! ## Counter maintenance -/

/-- C1. For every store and every project id `P`, reading project `P` after
`updateProjectTaskCounts(P)` gives the project as it was with `tasksCount` the
number of tasks whose `project` is `P` and `completedTasksCount` the number of
those with `completed == true` (both 0 when there is none); the tasks, the
projects with another id, the number of projects, the activity feed and the
users are as before. -/
theorem updateProjectTaskCounts_recounts (s : Store) (P : ObjectId) :
    findProject (updateProjectTaskCounts s P) P =
        (findProject s P).map (fun p =>
          { p with
            tasksCount := (s.tasks.filter (fun t => t.project = P)).length
            completedTasksCount :=
              (s.tasks.filter (fun t => t.project = P ∧ t.completed = true)).length })
      ∧ (updateProjectTaskCounts s P).tasks = s.tasks
      ∧ (updateProjectTaskCounts s P).projects.filter (fun q => q._id != P)
          = s.projects.filter (fun q => q._id != P)
      ∧ (updateProjectTaskCounts s P).projects.length = s.projects.length
      ∧ (updateProjectTaskCounts s P).activities = s.activities
      ∧ (updateProjectTaskCounts s P).users = s.users
      ∧ (updateProjectTaskCounts s P).nextId = s.nextId := by
  refine ⟨?_, rfl, ?_, ?_, rfl, rfl, rfl⟩
  · simp only [findProject, updateProjectTaskCounts]
    rw [find?_updateFirst_self _ _ (fun x hx => by simpa using hx)]
    simp only [countTasks, countCompletedTasks, List.countP_eq_length_filter]
    congr 1
    funext p
    congr 2
    all_goals (congr 2; funext t; by_cases h : t.project = P <;> simp [h])
  · simp only [updateProjectTaskCounts]
    apply filter_updateFirst_of_disjoint
    intro x hx
    simp at hx
    simp [hx]
  · simp only [updateProjectTaskCounts]
    exact updateFirst_length _ _ _

/-! ## The `progress` virtual -/

/-- C4. `progress` is 0 when `tasksCount` is 0, `progress(10, 3) = 30` and
`progress(3, 3) = 100`; at `tasksCount = 40`, `completedTasksCount = 23` the
getter returns 57, while `23 / 40 * 100 = 57.5` rounded to the nearest integer,
halves up, is 58. -/
theorem progress_at_40_23 :
    (∀ c, progress 0 c = 0) ∧ progress 10 3 = 30 ∧ progress 3 3 = 100
      ∧ progress 40 23 = 57 ∧ exactPercent 40 23 = 58 := by
  refine ⟨fun c => by simp [progress], by decide, by decide, by decide, by decide⟩

/-! ## Lookups across the store updates -/

@[simp] theorem record_tasks (s : Store) (a : ActivityFeed) : (record s a).tasks = s.tasks := rfl

@[simp] theorem record_projects (s : Store) (a : ActivityFeed) :
    (record s a).projects = s.projects := rfl

@[simp] theorem record_activities (s : Store) (a : ActivityFeed) :
    (record s a).activities = s.activities ++ [a] := rfl

@[simp] theorem record_nextId (s : Store) (a : ActivityFeed) :
    (record s a).nextId = s.nextId := rfl

@[simp] theorem updateProjectTaskCounts_tasks (s : Store) (P : ObjectId) :
    (updateProjectTaskCounts s P).tasks = s.tasks := rfl

@[simp] theorem updateProjectTaskCounts_activities (s : Store) (P : ObjectId) :
    (updateProjectTaskCounts s P).activities = s.activities := rfl

@[simp] theorem updateProjectTaskCounts_nextId (s : Store) (P : ObjectId) :
    (updateProjectTaskCounts s P).nextId = s.nextId := rfl

@[simp] theorem saveTask_projects (s : Store) (id : ObjectId) (t : Task) :
    (saveTask s id t).projects = s.projects := rfl

@[simp] theorem saveTask_activities (s : Store) (id : ObjectId) (t : Task) :
    (saveTask s id t).activities = s.activities := rfl

@[simp] theorem saveTask_nextId (s : Store) (id : ObjectId) (t : Task) :
    (saveTask s id t).nextId = s.nextId := rfl

@[simp] theorem findTask_record (s : Store) (a : ActivityFeed) (id : ObjectId) :
    findTask (record s a) id = findTask s id := rfl

@[simp] theorem findTask_updateProjectTaskCounts (s : Store) (P id : ObjectId) :
    findTask (updateProjectTaskCounts s P) id = findTask s id := rfl

@[simp] theorem findProject_record (s : Store) (a : ActivityFeed) (id : ObjectId) :
    findProject (record s a) id = findProject s id := rfl

@[simp] theorem findProject_saveTask (s : Store) (id : ObjectId) (t : Task) (P : ObjectId) :
    findProject (saveTask s id t) P = findProject s P := rfl

theorem findTask_id {s : Store} {id : ObjectId} {t : Task} (h : findTask s id = some t) :
    t._id = id := by
  have := List.find?_some h
  simpa using this

theorem findProject_id {s : Store} {id : ObjectId} {p : Project} (h : findProject s id = some p) :
    p._id = id := by
  have := List.find?_some h
  simpa using this

/-- Reading a task back after `task.save()`. -/
theorem findTask_saveTask {s : Store} {id : ObjectId} {task saved : Task}
    (h : findTask s id = some task) (hid : saved._id = id) :
    findTask (saveTask s task._id saved) id = some saved := by
  have ht := findTask_id h
  unfold findTask at h
  simp only [findTask, saveTask, ht]
  rw [find?_updateFirst_self _ _ (fun _ _ => by simpa using hid), h]
  rfl

/-- Reading the recounted project back. -/
theorem findProject_updateProjectTaskCounts {s : Store} {P : ObjectId} {p : Project}
    (h : findProject s P = some p) :
    findProject (updateProjectTaskCounts s P) P = some (withCounts s p) := by
  have hp := findProject_id h
  unfold findProject at h
  simp only [findProject, updateProjectTaskCounts]
  rw [find?_updateFirst_self _ _ (fun x hx => by simpa using hx), h]
  simp [withCounts, hp]

/-! ## What a successful task request did -/

theorem toggleTask_ok {s : Store} {user now id : Nat}
    (h : (toggleTask s user now id).status = 200) :
    ∃ task project, findTask s id = some task ∧ findProject s task.project = some project
      ∧ project.owner = user
      ∧ (toggleTask s user now id).store =
          record (updateProjectTaskCounts (saveTask s task._id (toggledTask now task)) project._id)
            ⟨user, project._id, project.title, some (toggledTask now task)._id,
              (toggledTask now task).title, completionType (toggledTask now task).completed⟩ := by
  unfold toggleTask at h ⊢
  cases ht : findTask s id with
  | none => simp [ht] at h
  | some task =>
    cases hp : findProject s task.project with
    | none => simp [ht, hp] at h
    | some project =>
      by_cases ho : project.owner = user
      · exact ⟨task, project, rfl, hp, ho, by simp [hp, ho]⟩
      · simp [ht, hp, ho] at h


theorem toggleTask_of_found {s : Store} {user id : Nat} (now : Nat) {task : Task}
    {project : Project}
    (ht : findTask s id = some task) (hp : findProject s task.project = some project)
    (ho : project.owner = user) :
    toggleTask s user now id =
      ⟨200, record (updateProjectTaskCounts (saveTask s task._id (toggledTask now task)) project._id)
        ⟨user, project._id, project.title, some (toggledTask now task)._id,
          (toggledTask now task).title, completionType (toggledTask now task).completed⟩⟩ := by
  unfold toggleTask
  simp [ht, hp, ho]

theorem toggledTask_id (now : Nat) (t : Task) : (toggledTask now t)._id = t._id := by
  unfold toggledTask preSave
  simp only
  split_ifs <;> rfl

theorem toggledTask_project (now : Nat) (t : Task) : (toggledTask now t).project = t.project := by
  unfold toggledTask preSave
  simp only
  split_ifs <;> rfl

/-- Reading the task back after a successful toggle. -/
theorem findTask_toggleTask {s : Store} {user now id : Nat} {t : Task}
    (ht : findTask s id = some t) (h : (toggleTask s user now id).status = 200) :
    findTask (toggleTask s user now id).store id = some (toggledTask now t) := by
  obtain ⟨task, project, ht', _, _, hs⟩ := toggleTask_ok h
  rw [ht] at ht'
  cases ht'
  rw [hs]
  simp only [findTask_record, findTask_updateProjectTaskCounts]
  exact findTask_saveTask ht ((toggledTask_id now t).trans (findTask_id ht))

/-! ## Toggle -/

theorem toggledTask_completed (now : Nat) (t : Task) :
    (toggledTask now t).completed = !t.completed := by
  unfold toggledTask preSave
  cases hc : t.completed <;> cases hs : t.status <;> simp [hc, hs]

theorem toggledTask_status (now : Nat) (t : Task) :
    (toggledTask now t).status
      = if t.completed then TaskStatus.todo else TaskStatus.completed := by
  unfold toggledTask preSave
  cases hc : t.completed <;> cases hs : t.status <;> simp [hc, hs]

theorem toggledTask_completedAt (now : Nat) (t : Task) :
    (toggledTask now t).completedAt = if t.completed then none else some now := by
  unfold toggledTask preSave
  cases hc : t.completed <;> cases hs : t.status <;> simp [hc, hs]

theorem toggledTask_twice (now₁ now₂ : Nat) (t : Task) (hinv : TaskOK t) :
    (toggledTask now₂ (toggledTask now₁ t)).completed = t.completed
      ∧ (toggledTask now₂ (toggledTask now₁ t)).completedAt.isSome = t.completedAt.isSome
      ∧ (toggledTask now₂ (toggledTask now₁ t)).status
          = (if t.status = TaskStatus.in_progress then TaskStatus.todo else t.status) := by
  obtain ⟨hc, ha⟩ := hinv
  simp only [toggledTask_completed, toggledTask_status, toggledTask_completedAt, ha]
  cases hcomp : t.completed <;> cases hs : t.status <;> simp_all

/-- C5 (amended). For every stored task that satisfies the task invariant, when
a toggle by the caller succeeds, a second toggle succeeds too and leaves the
task with its original `completed` flag and its original null-ness of
`completedAt`; its `status` is the original one when that was `todo` or
`completed`, and `todo` when it was `in_progress`. -/
theorem toggle_twice (s : Store) (user now₁ now₂ id : Nat) (t : Task)
    (ht : findTask s id = some t) (hinv : TaskOK t)
    (h : (toggleTask s user now₁ id).status = 200) :
    (toggleTask (toggleTask s user now₁ id).store user now₂ id).status = 200
      ∧ ∃ t₂, findTask (toggleTask (toggleTask s user now₁ id).store user now₂ id).store id
            = some t₂
          ∧ t₂.completed = t.completed
          ∧ t₂.completedAt.isSome = t.completedAt.isSome
          ∧ t₂.status = (if t.status = TaskStatus.in_progress then TaskStatus.todo else t.status) := by
  have ht₁ := findTask_toggleTask ht h
  obtain ⟨task, project, ht', hp, ho, hs⟩ := toggleTask_ok h
  rw [ht] at ht'
  cases ht'
  have hp₁ : findProject (toggleTask s user now₁ id).store (toggledTask now₁ t).project
      = some (withCounts (saveTask s t._id (toggledTask now₁ t)) project) := by
    rw [hs, toggledTask_project, findProject_record, ← findProject_id hp]
    apply findProject_updateProjectTaskCounts
    rw [findProject_saveTask, findProject_id hp]
    exact hp
  have h₂ := toggleTask_of_found now₂ ht₁ hp₁ (by simpa [withCounts] using ho)
  have hst : (toggleTask (toggleTask s user now₁ id).store user now₂ id).status = 200 := by
    rw [h₂]
  exact ⟨hst, toggledTask now₂ (toggledTask now₁ t), findTask_toggleTask ht₁ hst,
    toggledTask_twice now₁ now₂ t hinv⟩

/-! ## Task update -/

theorem assignTaskFields_some {task t : Task} {body : UpdateTaskBody}
    (h : assignTaskFields task body = some t) :
    t._id = task._id ∧ t.project = task.project ∧ t.completed = task.completed
      ∧ t.completedAt = task.completedAt ∧ t.order = task.order
      ∧ (body.status = none → t.status = task.status)
      ∧ (∀ x, body.status = some x → parseTaskStatus x = some t.status) := by
  unfold assignTaskFields at h
  simp only at h
  split at h
  · rename_i st pr hst hpr
    split at h
    · cases h
      refine ⟨rfl, rfl, rfl, rfl, rfl, ?_, ?_⟩
      · intro hb
        rw [hb] at hst
        simpa [assignedTask] using hst.symm
      · intro x hb
        rw [hb] at hst
        simpa [assignedTask] using hst
    · cases h
  · cases h

theorem preSave_fields (m : Bool) (now : Nat) (t : Task) :
    (preSave m now t)._id = t._id ∧ (preSave m now t).project = t.project
      ∧ (preSave m now t).order = t.order ∧ (preSave m now t).status = t.status
      ∧ (preSave m now t).title = t.title := by
  unfold preSave
  split_ifs <;> exact ⟨rfl, rfl, rfl, rfl, rfl⟩

theorem preSave_completed (m : Bool) (now : Nat) (t : Task) :
    (preSave m now t).completed
      = if m then decide (t.status = TaskStatus.completed) else t.completed := by
  unfold preSave
  cases m <;> cases hs : t.status <;> simp [hs]

theorem preSave_completedAt (m : Bool) (now : Nat) (t : Task) :
    (preSave m now t).completedAt.isSome
      = if m then decide (t.status = TaskStatus.completed) else t.completedAt.isSome := by
  unfold preSave
  cases m <;> cases hs : t.status <;> simp [hs]

/-- What `PUT /tasks/:id` saves: identity, project and order are kept; `status`
is the requested one, or the stored one when the request has none; `completed`
and `completedAt` follow `status` when it changed and are kept otherwise. -/
theorem updatedTask_some {now : Nat} {task saved : Task} {body : UpdateTaskBody}
    (h : updatedTask now task body = some saved) :
    saved._id = task._id ∧ saved.project = task.project ∧ saved.order = task.order
      ∧ (body.status = none → saved.status = task.status)
      ∧ (∀ x, body.status = some x → parseTaskStatus x = some saved.status)
      ∧ saved.completed = (if saved.status = task.status then task.completed
          else decide (saved.status = TaskStatus.completed))
      ∧ saved.completedAt.isSome = (if saved.status = task.status then task.completedAt.isSome
          else decide (saved.status = TaskStatus.completed)) := by
  unfold updatedTask at h
  cases ha : assignTaskFields task body with
  | none => simp [ha] at h
  | some t =>
    simp only [ha, Option.map_some', Option.some.injEq] at h
    obtain ⟨h1, h2, h3, h4, h5, h6, h7⟩ := assignTaskFields_some ha
    obtain ⟨p1, p2, p3, p4, _⟩ := preSave_fields (t.status != task.status) now t
    subst h
    refine ⟨p1.trans h1, p2.trans h2, p3.trans h5, ?_, ?_, ?_, ?_⟩
    · intro hb
      rw [p4]
      exact h6 hb
    · intro x hb
      rw [p4]
      exact h7 x hb
    · rw [preSave_completed, p4]
      by_cases hst : t.status = task.status <;> simp [hst, h3]
    · rw [preSave_completedAt, p4]
      by_cases hst : t.status = task.status <;> simp [hst, h4]

theorem updateTask_ok {s : Store} {user now id : Nat} {body : UpdateTaskBody}
    (h : (updateTask s user now id body).status = 200) :
    ∃ task project saved, findTask s id = some task
      ∧ findProject s task.project = some project ∧ project.owner = user
      ∧ updatedTask now task body = some saved
      ∧ (updateTask s user now id body).store =
          if task.completed = saved.completed then
            updateProjectTaskCounts (saveTask s task._id saved) project._id
          else
            record (updateProjectTaskCounts (saveTask s task._id saved) project._id)
              ⟨user, project._id, project.title, some saved._id, saved.title,
                completionType saved.completed⟩ := by
  unfold updateTask at h ⊢
  cases ht : findTask s id with
  | none => simp [ht] at h
  | some task =>
    cases hp : findProject s task.project with
    | none => simp [ht, hp] at h
    | some project =>
      by_cases ho : project.owner = user
      · cases hu : updatedTask now task body with
        | none => simp [ht, hp, ho, hu] at h
        | some saved =>
          refine ⟨task, project, saved, rfl, hp, ho, hu, ?_⟩
          by_cases hc : task.completed = saved.completed <;> simp [hp, ho, hu, hc]
      · simp [ht, hp, ho] at h

/-- C6. For every successful update of a stored task `t`, the caller owns the
task's project and, `t'` being the task as stored afterwards: when `completed`
went from false to true the feed is the old feed plus one entry, of type
`task_completed`; when it went from true to false, plus one entry of type
`task_reopened`; when the flag did not change the feed is unchanged, which is
the case for an update without `status` and for an update of a task that is not
completed to `in_progress`. -/
theorem updateTask_activity (s : Store) (user now id : Nat) (body : UpdateTaskBody) (t : Task)
    (ht : findTask s id = some t) (h : (updateTask s user now id body).status = 200) :
    (findProject s t.project).map (fun p => p.owner) = some user
      ∧ ∃ t', findTask (updateTask s user now id body).store id = some t'
        ∧ (t.completed = false → t'.completed = true →
            ∃ a, (updateTask s user now id body).store.activities = s.activities ++ [a]
              ∧ a.type_ = ActivityType.task_completed ∧ a.user = user ∧ a.taskId = some id)
        ∧ (t.completed = true → t'.completed = false →
            ∃ a, (updateTask s user now id body).store.activities = s.activities ++ [a]
              ∧ a.type_ = ActivityType.task_reopened ∧ a.user = user ∧ a.taskId = some id)
        ∧ (t'.completed = t.completed →
            (updateTask s user now id body).store.activities = s.activities)
        ∧ (body.status = none →
            (updateTask s user now id body).store.activities = s.activities)
        ∧ (t.completed = false → body.status = some "in_progress" →
            (updateTask s user now id body).store.activities = s.activities) := by
  obtain ⟨task, project, saved, ht', hp, ho, hu, hs⟩ := updateTask_ok h
  rw [ht] at ht'
  cases ht'
  obtain ⟨hid, _, _, hnone, hsome, hcomp, _⟩ := updatedTask_some hu
  have hfind : findTask (updateTask s user now id body).store id = some saved := by
    rw [hs]
    split_ifs <;>
      simp only [findTask_record, findTask_updateProjectTaskCounts] <;>
      exact findTask_saveTask ht (hid.trans (findTask_id ht))
  have hsame : saved.completed = t.completed →
      (updateTask s user now id body).store.activities = s.activities := by
    intro hc
    rw [hs, if_pos hc.symm]
    rfl
  have hflip : saved.completed ≠ t.completed →
      (updateTask s user now id body).store.activities
        = s.activities ++ [⟨user, project._id, project.title, some saved._id, saved.title,
            completionType saved.completed⟩] := by
    intro hc
    rw [hs, if_neg (fun e => hc e.symm)]
    rfl
  refine ⟨by simp [hp, ho], saved, hfind, ?_, ?_, hsame, ?_, ?_⟩
  · intro h0 h1
    refine ⟨_, hflip (by simp [h0, h1]), ?_, rfl, ?_⟩
    · simp [completionType, h1]
    · simpa using hid.trans (findTask_id ht)
  · intro h0 h1
    refine ⟨_, hflip (by simp [h0, h1]), ?_, rfl, ?_⟩
    · simp [completionType, h1]
    · simpa using hid.trans (findTask_id ht)
  · intro hb
    apply hsame
    rw [hcomp, if_pos (hnone hb)]
  · intro h0 hb
    apply hsame
    have hst : saved.status = TaskStatus.in_progress := by
      have := hsome _ hb
      simpa [parseTaskStatus] using this.symm
    rw [hcomp, hst, h0]
    split_ifs <;> simp

/-! ## Task creation -/

theorem foldl_lastTask_some (l : List Task) (b : Task) :
    ∃ m, l.foldl
        (fun best t =>
          match best with
          | none => some t
          | some b => if b.order < t.order then some t else some b)
        (some b) = some m
      ∧ (m = b ∨ m ∈ l) ∧ b.order ≤ m.order ∧ ∀ t ∈ l, t.order ≤ m.order := by
  induction l generalizing b with
  | nil => exact ⟨b, rfl, Or.inl rfl, le_refl _, by simp⟩
  | cons x xs ih =>
    simp only [List.foldl_cons]
    by_cases hlt : b.order < x.order
    · obtain ⟨m, hm, hmem, hle, hall⟩ := ih x
      refine ⟨m, by simpa [hlt] using hm, ?_, by omega, ?_⟩
      · rcases hmem with rfl | hmem
        · exact Or.inr (List.mem_cons_self _ _)
        · exact Or.inr (List.mem_cons_of_mem _ hmem)
      · intro t ht
        rcases List.mem_cons.1 ht with rfl | ht
        · exact hle
        · exact hall t ht
    · obtain ⟨m, hm, hmem, hle, hall⟩ := ih b
      refine ⟨m, by simpa [hlt] using hm, ?_, hle, ?_⟩
      · rcases hmem with rfl | hmem
        · exact Or.inl rfl
        · exact Or.inr (List.mem_cons_of_mem _ hmem)
      · intro t ht
        rcases List.mem_cons.1 ht with rfl | ht
        · omega
        · exact hall t ht

/-- The query for the last task finds nothing exactly when the project has no
task. -/
theorem findLastTask_none {tasks : List Task} {P : ObjectId}
    (h : findLastTask tasks P = none) : ∀ t ∈ tasks, t.project ≠ P := by
  unfold findLastTask at h
  cases hl : tasks.filter (fun t => t.project == P) with
  | nil =>
    intro t ht hp
    have : t ∈ tasks.filter (fun t => t.project == P) := by
      simp [List.mem_filter, ht, hp]
    rw [hl] at this
    cases this
  | cons x xs =>
    rw [hl] at h
    obtain ⟨m, hm, _⟩ := foldl_lastTask_some xs x
    simp only [List.foldl_cons] at h
    rw [hm] at h
    cases h

/-- The task the query finds belongs to the project and has the greatest
`order` among the project's tasks. -/
theorem findLastTask_some {tasks : List Task} {P : ObjectId} {m : Task}
    (h : findLastTask tasks P = some m) :
    m ∈ tasks ∧ m.project = P ∧ ∀ t ∈ tasks, t.project = P → t.order ≤ m.order := by
  unfold findLastTask at h
  cases hl : tasks.filter (fun t => t.project == P) with
  | nil =>
    rw [hl] at h
    cases h
  | cons x xs =>
    rw [hl] at h
    obtain ⟨m', hm, hmem, hle, hall⟩ := foldl_lastTask_some xs x
    simp only [List.foldl_cons] at h
    rw [hm] at h
    cases h
    have hm_mem : m ∈ tasks.filter (fun t => t.project == P) := by
      rw [hl]
      rcases hmem with rfl | hmem
      · exact List.mem_cons_self _ _
      · exact List.mem_cons_of_mem _ hmem
    have hm2 := List.mem_filter.1 hm_mem
    refine ⟨hm2.1, by simpa using hm2.2, ?_⟩
    intro t ht hp
    have : t ∈ x :: xs := by
      rw [← hl]
      simp [List.mem_filter, ht, hp]
    rcases List.mem_cons.1 this with rfl | hx
    · exact hle
    · exact hall t hx

theorem newTask_some {id user P : ObjectId} {title : String} {body : CreateTaskBody}
    {order : Nat} {t : Task} (h : newTask id user P title body order = some t) :
    t._id = id ∧ t.project = P ∧ t.order = order ∧ t.status = TaskStatus.todo
      ∧ t.completed = false ∧ t.completedAt = none ∧ t.title = jsTrim title := by
  unfold newTask at h
  simp only at h
  split at h
  · cases h
  · split at h
    · cases h
      exact ⟨rfl, rfl, rfl, rfl, rfl, rfl, rfl⟩
    · cases h

theorem createTask_ok {s : Store} {user now : Nat} {body : CreateTaskBody}
    (h : (createTask s user now body).status = 201) :
    ∃ title P project t, body.title = some title ∧ body.projectId = some P
      ∧ findOwnedProject s P user = some project
      ∧ newTask s.nextId user P title body
          (match findLastTask s.tasks P with
            | some lastTask => lastTask.order + 1
            | none => 0) = some t
      ∧ (createTask s user now body).store =
          record
            (updateProjectTaskCounts
              { s with tasks := s.tasks ++ [preSave false now t], nextId := s.nextId + 1 } P)
            ⟨user, P, project.title, some (preSave false now t)._id, (preSave false now t).title,
              ActivityType.task_created⟩ := by
  cases ht : body.title with
  | none => simp [createTask, ht] at h
  | some title =>
    cases hP : body.projectId with
    | none => simp [createTask, ht, hP] at h
    | some P =>
      by_cases he : title = ""
      · simp [createTask, ht, hP, he] at h
      · cases hproj : findOwnedProject s P user with
        | none => simp [createTask, ht, hP, he, hproj] at h
        | some project =>
          cases hnew : newTask s.nextId user P title body
              (match findLastTask s.tasks P with
                | some lastTask => lastTask.order + 1
                | none => 0) with
          | none => simp [createTask, ht, hP, he, hproj, hnew] at h
          | some t =>
            refine ⟨title, P, project, t, rfl, rfl, hproj, hnew, ?_⟩
            simp [createTask, ht, hP, he, hproj, hnew]

/-- C9. For every successful task creation, the request names a project `P`
and the task collection is the old one followed by one new task of project `P`;
when `P` had no task the new task's `order` is 0, otherwise it is one more than
the greatest `order` among the tasks already in `P`; in both cases it is
strictly greater than the `order` of every task already in `P`. -/
theorem createTask_order (s : Store) (user now : Nat) (body : CreateTaskBody)
    (h : (createTask s user now body).status = 201) :
    ∃ P task, body.projectId = some P
      ∧ (createTask s user now body).store.tasks = s.tasks ++ [task]
      ∧ task.project = P
      ∧ (((∀ t ∈ s.tasks, t.project ≠ P) ∧ task.order = 0)
          ∨ ∃ m ∈ s.tasks, m.project = P ∧ (∀ t ∈ s.tasks, t.project = P → t.order ≤ m.order)
              ∧ task.order = m.order + 1)
      ∧ ∀ t ∈ s.tasks, t.project = P → t.order < task.order := by
  obtain ⟨title, P, project, t, _, hP, _, hnew, hs⟩ := createTask_ok h
  obtain ⟨_, hproj, hord, _⟩ := newTask_some hnew
  obtain ⟨_, p2, p3, _, _⟩ := preSave_fields false now t
  refine ⟨P, preSave false now t, hP, by rw [hs]; rfl, p2.trans hproj, ?_, ?_⟩
  · rw [p3, hord]
    cases hl : findLastTask s.tasks P with
    | none => exact Or.inl ⟨findLastTask_none hl, rfl⟩
    | some m =>
      obtain ⟨hm, hmP, hmax⟩ := findLastTask_some hl
      exact Or.inr ⟨m, hm, hmP, hmax, rfl⟩
  · intro x hx hxP
    rw [p3, hord]
    cases hl : findLastTask s.tasks P with
    | none => exact absurd hxP (findLastTask_none hl x hx)
    | some m =>
      obtain ⟨_, _, hmax⟩ := findLastTask_some hl
      have := hmax x hx hxP
      simp only
      omega

/-! ## Project deletion -/

theorem findOwnedProject_some {s : Store} {id user : ObjectId} {p : Project}
    (h : findOwnedProject s id user = some p) :
    p ∈ s.projects ∧ p._id = id ∧ p.owner = user := by
  unfold findOwnedProject at h
  have h1 := List.mem_of_find?_eq_some h
  have h2 := List.find?_some h
  simp only [Bool.and_eq_true, beq_iff_eq] at h2
  exact ⟨h1, h2.1, h2.2⟩

theorem deleteProject_ok {s : Store} {user id : ObjectId}
    (h : (deleteProject s user id).status = 200) :
    ∃ project, findOwnedProject s id user = some project
      ∧ (deleteProject s user id).store =
          { s with
            tasks := s.tasks.filter (fun t => !(t.project == project._id))
            activities := s.activities ++ [⟨user, project._id, project.title, none,
              project.title, ActivityType.project_deleted⟩]
            projects := s.projects.eraseP (fun x => x._id == id) } := by
  cases hp : findOwnedProject s id user with
  | none => simp [deleteProject, hp] at h
  | some project =>
    refine ⟨project, rfl, ?_⟩
    simp [deleteProject, hp, record]

/-- C10. In a store whose project ids are unique, a successful delete of project
`id` is a delete by its owner; afterwards the projects are the old ones without
project `id`, the tasks are the old ones without the tasks of project `id` (all
`N` of them gone, every other task in place), and the feed is the old feed plus
exactly one entry, of type `project_deleted`. -/
theorem deleteProject_cascade (s : Store) (user id : ObjectId)
    (hu : (s.projects.map (fun p => p._id)).Nodup)
    (h : (deleteProject s user id).status = 200) :
    ∃ project ∈ s.projects, project._id = id ∧ project.owner = user
      ∧ (deleteProject s user id).store.projects = s.projects.filter (fun p => p._id ≠ id)
      ∧ (deleteProject s user id).store.tasks = s.tasks.filter (fun t => t.project ≠ id)
      ∧ (deleteProject s user id).store.tasks.length
            + (s.tasks.filter (fun t => t.project = id)).length = s.tasks.length
      ∧ (deleteProject s user id).store.activities
          = s.activities ++ [⟨user, id, project.title, none, project.title,
              ActivityType.project_deleted⟩] := by
  obtain ⟨project, hp, hs⟩ := deleteProject_ok h
  obtain ⟨hmem, hid, ho⟩ := findOwnedProject_some hp
  have htasks : (deleteProject s user id).store.tasks
      = s.tasks.filter (fun t => t.project ≠ id) := by
    rw [hs, hid]
    simp only
    congr 1
    funext t
    by_cases ht : t.project = id <;> simp [ht]
  refine ⟨project, hmem, hid, ho, ?_, htasks, ?_, ?_⟩
  · rw [hs]
    simp only
    rw [eraseP_key_eq_filter (fun p : Project => p._id) id s.projects hu]
    congr 1
    funext q
    by_cases hq : q._id = id <;> simp [hq]
  · rw [htasks]
    have := List.length_eq_length_filter_add (l := s.tasks) (fun t => decide (t.project = id))
    rw [this]
    have e : (s.tasks.filter (fun t => decide (t.project ≠ id)))
        = s.tasks.filter (fun t => !(decide (t.project = id))) := by
      congr 1
      funext t
      by_cases ht : t.project = id <;> simp [ht]
    rw [e]
    omega
  · rw [hs, hid]

/-! ## Reorder -/

/-- With unique task ids and a duplicate-free id list, the updates of a reorder
amount to one pass over the tasks. -/
theorem setOrders_eq_map (ids : List ObjectId) (hids : ids.Nodup) (tasks : List Task) (k : Nat)
    (hu : (tasks.map (fun t => t._id)).Nodup) :
    setOrders tasks ids k
      = tasks.map (fun t =>
          if t._id ∈ ids then { t with order := k + ids.indexOf t._id } else t) := by
  induction ids generalizing tasks k with
  | nil => simp [setOrders]
  | cons a rest ih =>
    rw [List.nodup_cons] at hids
    obtain ⟨ha, hrest⟩ := hids
    simp only [setOrders]
    rw [updateFirst_key_eq_map (fun t : Task => t._id) a _ tasks hu]
    have hu' : ((tasks.map (fun t => if t._id = a then { t with order := k } else t)).map
        (fun t => t._id)).Nodup := by
      have e : (tasks.map (fun t => if t._id = a then { t with order := k } else t)).map
          (fun t => t._id) = tasks.map (fun t => t._id) := by
        rw [List.map_map]
        apply List.map_congr_left
        intro t _
        by_cases hta : t._id = a <;> simp [hta]
      rw [e]
      exact hu
    rw [ih hrest _ (k + 1) hu', List.map_map]
    apply List.map_congr_left
    intro t _
    by_cases hta : t._id = a
    · have hnot : t._id ∉ rest := hta ▸ ha
      simp [hta, ha]
    · by_cases htr : t._id ∈ rest
      · have : List.indexOf t._id (a :: rest) = List.indexOf t._id rest + 1 :=
          List.indexOf_cons_ne _ (fun e => hta e.symm)
        simp [hta, htr, this]
        omega
      · simp [hta, htr]

theorem reorderTasks_ok {s : Store} {user : ObjectId} {body : ReorderBody}
    (h : (reorderTasks s user body).status = 200) :
    ∃ taskIds projectId project, body.taskIds = some taskIds ∧ body.projectId = some projectId
      ∧ findAccessibleProject s projectId user = some project
      ∧ (reorderTasks s user body).store = { s with tasks := setOrders s.tasks taskIds 0 } := by
  cases ht : body.taskIds with
  | none => simp [reorderTasks, ht] at h
  | some taskIds =>
    cases hP : body.projectId with
    | none => simp [reorderTasks, ht, hP] at h
    | some projectId =>
      cases hp : findAccessibleProject s projectId user with
      | none => simp [reorderTasks, ht, hP, hp] at h
      | some project =>
        refine ⟨taskIds, projectId, project, rfl, rfl, hp, ?_⟩
        simp [reorderTasks, ht, hP, hp]

/-- C7. In a store whose task ids are unique, after a successful reorder with a
duplicate-free list `taskIds` the task collection is the old one in which every
task whose id is listed has `order` set to the zero-based index of its id in
`taskIds` and is otherwise unchanged, and every task that is not listed is
unchanged; in particular the task found under the `i`-th id is the task found
there before, with `order = i`.  Projects, activity feed and users are
unchanged. -/
theorem reorder_assigns_indices (s : Store) (user : ObjectId) (body : ReorderBody)
    (taskIds : List ObjectId) (hb : body.taskIds = some taskIds)
    (hu : (s.tasks.map (fun t => t._id)).Nodup) (hids : taskIds.Nodup)
    (h : (reorderTasks s user body).status = 200) :
    (reorderTasks s user body).store.tasks
        = s.tasks.map (fun t =>
            if t._id ∈ taskIds then { t with order := taskIds.indexOf t._id } else t)
      ∧ (∀ (i : Nat) (hi : i < taskIds.length) (t : Task),
          findTask s (taskIds.get ⟨i, hi⟩) = some t →
          findTask (reorderTasks s user body).store (taskIds.get ⟨i, hi⟩)
            = some { t with order := i })
      ∧ (reorderTasks s user body).store.projects = s.projects
      ∧ (reorderTasks s user body).store.activities = s.activities
      ∧ (reorderTasks s user body).store.users = s.users := by
  obtain ⟨ids, projectId, project, hb', _, _, hs⟩ := reorderTasks_ok h
  rw [hb] at hb'
  cases hb'
  have htasks : (reorderTasks s user body).store.tasks
      = s.tasks.map (fun t =>
          if t._id ∈ taskIds then { t with order := taskIds.indexOf t._id } else t) := by
    rw [hs]
    simp only
    rw [setOrders_eq_map taskIds hids s.tasks 0 hu]
    simp
  refine ⟨htasks, ?_, by rw [hs], by rw [hs], by rw [hs]⟩
  intro i hi t ht
  have hid := findTask_id ht
  unfold findTask at ht ⊢
  rw [htasks, List.find?_map]
  have hcomp : ((fun t : Task => t._id == taskIds.get ⟨i, hi⟩) ∘ fun t : Task =>
      if t._id ∈ taskIds then { t with order := taskIds.indexOf t._id } else t)
      = fun t : Task => t._id == taskIds.get ⟨i, hi⟩ := by
    funext x
    by_cases hx : x._id ∈ taskIds <;> simp [hx]
  rw [hcomp, ht]
  have hmem : t._id ∈ taskIds := hid ▸ List.get_mem taskIds i hi
  have hidx : taskIds.indexOf t._id = i := by
    rw [hid]
    exact List.get_indexOf hids ⟨i, hi⟩
  simp [hmem, hidx]

/-! ## The store invariant -/

theorem countTasks_eq (tasks : List Task) (P : ObjectId) :
    countTasks tasks P = (tasks.filter (fun t => t.project = P)).length := by
  unfold countTasks
  rw [List.countP_eq_length_filter]
  congr 2

theorem countCompletedTasks_eq (tasks : List Task) (P : ObjectId) :
    countCompletedTasks tasks P
      = (tasks.filter (fun t => t.project = P ∧ t.completed = true)).length := by
  unfold countCompletedTasks
  rw [List.countP_eq_length_filter]
  congr 2
  funext t
  by_cases h : t.project = P <;> simp [h]

theorem countCompletedTasks_le (tasks : List Task) (P : ObjectId) :
    countCompletedTasks tasks P ≤ countTasks tasks P := by
  unfold countCompletedTasks countTasks
  apply List.countP_mono_left
  intro t _ h
  simp only [Bool.and_eq_true] at h
  exact h.1

/-- The counter invariant in terms of the two counting queries. -/
theorem countersOK_iff (s : Store) (p : Project) :
    CountersOK s p ↔ p.tasksCount = countTasks s.tasks p._id
      ∧ p.completedTasksCount = countCompletedTasks s.tasks p._id := by
  unfold CountersOK
  rw [← countTasks_eq, ← countCompletedTasks_eq]
  constructor
  · exact fun h => h.2
  · intro h
    refine ⟨?_, h⟩
    rw [h.1, h.2]
    exact countCompletedTasks_le _ _

/-- After a change of the tasks of project `P` only, recounting `P` restores the
counter invariant of every project. -/
theorem counters_after_recount (s s₁ : Store) (P : ObjectId)
    (hu : (s.projects.map (fun p => p._id)).Nodup)
    (hc : ∀ p ∈ s.projects, CountersOK s p)
    (hproj : s₁.projects = s.projects)
    (hagree : ∀ q : Task → Bool, (∀ t, t.project = P → q t = false) →
      s₁.tasks.countP q = s.tasks.countP q) :
    ∀ p ∈ (updateProjectTaskCounts s₁ P).projects,
      CountersOK (updateProjectTaskCounts s₁ P) p := by
  intro p hp
  rw [countersOK_iff]
  simp only [updateProjectTaskCounts, hproj] at hp ⊢
  rw [updateFirst_key_eq_map (fun p : Project => p._id) P _ s.projects hu] at hp
  obtain ⟨y, hy, rfl⟩ := List.mem_map.1 hp
  by_cases hyP : y._id = P
  · simp [hyP]
  · have hcy := (countersOK_iff s y).1 (hc y hy)
    simp only [hyP, if_false]
    constructor
    · rw [hcy.1]
      unfold countTasks
      refine (hagree _ ?_).symm
      intro t ht
      simp only [beq_eq_false_iff_ne, ne_eq, ht]
      exact fun e => hyP e.symm
    · rw [hcy.2]
      unfold countCompletedTasks
      refine (hagree _ ?_).symm
      intro t ht
      simp only [Bool.and_eq_false_imp, beq_iff_eq, ht]
      exact fun e => absurd e.symm hyP

theorem consistent_record {s : Store} (a : ActivityFeed) (h : Consistent s) :
    Consistent (record s a) := h

theorem updateProjectTaskCounts_ids (s : Store) (P : ObjectId) :
    (updateProjectTaskCounts s P).projects.map (fun p => p._id)
      = s.projects.map (fun p => p._id) := by
  simp only [updateProjectTaskCounts]
  exact map_updateFirst _ _ _ _ (fun _ _ _ => rfl)

/-- The invariant after a change of the tasks of project `P` only, followed by
the recount of `P`. -/
theorem consistent_of_recount (s s₁ : Store) (P : ObjectId) (hc : Consistent s)
    (hproj : s₁.projects = s.projects)
    (hnext : s.nextId ≤ s₁.nextId)
    (htid : (s₁.tasks.map (fun t => t._id)).Nodup)
    (htfresh : ∀ i ∈ s₁.tasks.map (fun t => t._id), i < s₁.nextId)
    (htproj : ∀ i ∈ s₁.tasks.map (fun t => t.project), i ∈ s.projects.map (fun p => p._id))
    (hagree : ∀ q : Task → Bool, (∀ t, t.project = P → q t = false) →
      s₁.tasks.countP q = s.tasks.countP q) :
    Consistent (updateProjectTaskCounts s₁ P) := by
  obtain ⟨⟨hpu, _⟩, hpf, _, _, hcnt⟩ := hc
  have hids := updateProjectTaskCounts_ids s₁ P
  refine ⟨⟨?_, htid⟩, ?_, htfresh, ?_, counters_after_recount s s₁ P hpu hcnt hproj hagree⟩
  · rw [hids, hproj]
    exact hpu
  · rw [hids, hproj]
    intro i hi
    exact lt_of_lt_of_le (hpf i hi) hnext
  · rw [hids, hproj]
    exact htproj

theorem findTask_mem {s : Store} {id : ObjectId} {t : Task} (h : findTask s id = some t) :
    t ∈ s.tasks :=
  List.mem_of_find?_eq_some h

theorem findProject_mem {s : Store} {id : ObjectId} {p : Project}
    (h : findProject s id = some p) : p ∈ s.projects :=
  List.mem_of_find?_eq_some h

/-- The invariant after `task.save()` of a document with the stored task's id
and project, followed by the recount of that project. -/
theorem consistent_saveTask {s : Store} {id : ObjectId} {task saved : Task} {project : Project}
    (hc : Consistent s) (ht : findTask s id = some task)
    (hp : findProject s task.project = some project)
    (hid : saved._id = task._id) (hproj : saved.project = task.project) :
    Consistent (updateProjectTaskCounts (saveTask s task._id saved) project._id) := by
  have htu := hc.1.2
  have hmem := findTask_mem ht
  have hkey : ∀ y ∈ s.tasks, (y._id == task._id) = true → y = task := by
    intro y hy hy'
    exact eq_of_key_eq (fun t : Task => t._id) htu hy hmem (by simpa using hy')
  have hidmap : (saveTask s task._id saved).tasks.map (fun t => t._id)
      = s.tasks.map (fun t => t._id) := by
    simp only [saveTask]
    apply map_updateFirst
    intro y hy hy'
    rw [hkey y hy hy']
    exact hid
  have hprojmap : (saveTask s task._id saved).tasks.map (fun t => t.project)
      = s.tasks.map (fun t => t.project) := by
    simp only [saveTask]
    apply map_updateFirst
    intro y hy hy'
    rw [hkey y hy hy']
    exact hproj
  refine consistent_of_recount s _ _ hc rfl (le_refl _) ?_ ?_ ?_ ?_
  · rw [hidmap]
    exact htu
  · rw [hidmap]
    exact hc.2.2.1
  · rw [hprojmap]
    exact hc.2.2.2.1
  · intro q hq
    simp only [saveTask]
    have hfind : s.tasks.find? (fun x => x._id == task._id) = some task := by
      have := ht
      unfold findTask at this
      rw [findTask_id ht]
      exact this
    apply countP_updateFirst_of_find q _ _ _ task hfind
    have hP := findProject_id hp
    rw [hq saved (by rw [hproj, hP]), hq task (by rw [hP])]

/-! ## What a rejected request did: nothing -/

theorem createTask_rejected {s : Store} {user now : Nat} {body : CreateTaskBody}
    (h : (createTask s user now body).status ≠ 201) : (createTask s user now body).store = s := by
  cases ht : body.title with
  | none => simp [createTask, ht]
  | some title =>
    cases hP : body.projectId with
    | none => simp [createTask, ht, hP]
    | some P =>
      by_cases he : title = ""
      · simp [createTask, ht, hP, he]
      · cases hproj : findOwnedProject s P user with
        | none => simp [createTask, ht, hP, he, hproj]
        | some project =>
          cases hnew : newTask s.nextId user P title body
              (match findLastTask s.tasks P with
                | some lastTask => lastTask.order + 1
                | none => 0) with
          | none => simp [createTask, ht, hP, he, hproj, hnew]
          | some t => simp [createTask, ht, hP, he, hproj, hnew] at h

theorem updateTask_rejected {s : Store} {user now id : Nat} {body : UpdateTaskBody}
    (h : (updateTask s user now id body).status ≠ 200) :
    (updateTask s user now id body).store = s := by
  cases ht : findTask s id with
  | none => simp [updateTask, ht]
  | some task =>
    cases hp : findProject s task.project with
    | none => simp [updateTask, ht, hp]
    | some project =>
      by_cases ho : project.owner = user
      · cases hu : updatedTask now task body with
        | none => simp [updateTask, ht, hp, ho, hu]
        | some saved =>
          exfalso
          apply h
          by_cases hc : task.completed = saved.completed <;>
            simp [updateTask, ht, hp, ho, hu, hc]
      · simp [updateTask, ht, hp, ho]

theorem toggleTask_rejected {s : Store} {user now id : Nat}
    (h : (toggleTask s user now id).status ≠ 200) : (toggleTask s user now id).store = s := by
  cases ht : findTask s id with
  | none => simp [toggleTask, ht]
  | some task =>
    cases hp : findProject s task.project with
    | none => simp [toggleTask, ht, hp]
    | some project =>
      by_cases ho : project.owner = user
      · exfalso
        apply h
        simp [toggleTask, ht, hp, ho]
      · simp [toggleTask, ht, hp, ho]

theorem deleteTask_rejected {s : Store} {user id : Nat}
    (h : (deleteTask s user id).status ≠ 200) : (deleteTask s user id).store = s := by
  cases ht : findTask s id with
  | none => simp [deleteTask, ht]
  | some task =>
    cases hp : findProject s task.project with
    | none => simp [deleteTask, ht, hp]
    | some project =>
      by_cases ho : project.owner = user
      · exfalso
        apply h
        simp [deleteTask, ht, hp, ho]
      · simp [deleteTask, ht, hp, ho]

theorem deleteTask_ok {s : Store} {user id : Nat} (h : (deleteTask s user id).status = 200) :
    ∃ task project, findTask s id = some task ∧ findProject s task.project = some project
      ∧ project.owner = user
      ∧ (deleteTask s user id).store =
          record
            (updateProjectTaskCounts
              { s with tasks := s.tasks.eraseP (fun x => x._id == id) } project._id)
            ⟨user, project._id, project.title, none, task.title, ActivityType.task_deleted⟩ := by
  unfold deleteTask at h ⊢
  cases ht : findTask s id with
  | none => simp [ht] at h
  | some task =>
    cases hp : findProject s task.project with
    | none => simp [ht, hp] at h
    | some project =>
      by_cases ho : project.owner = user
      · exact ⟨task, project, rfl, hp, ho, by simp [hp, ho]⟩
      · simp [ht, hp, ho] at h

theorem reorderTasks_rejected {s : Store} {user : ObjectId} {body : ReorderBody}
    (h : (reorderTasks s user body).status ≠ 200) : (reorderTasks s user body).store = s := by
  cases ht : body.taskIds with
  | none => simp [reorderTasks, ht]
  | some taskIds =>
    cases hP : body.projectId with
    | none => simp [reorderTasks, ht, hP]
    | some projectId =>
      cases hp : findAccessibleProject s projectId user with
      | none => simp [reorderTasks, ht, hP, hp]
      | some project => simp [reorderTasks, ht, hP, hp] at h

theorem createProject_rejected {s : Store} {user : ObjectId} {body : CreateProjectBody}
    (h : (createProject s user body).status ≠ 201) : (createProject s user body).store = s := by
  cases ht : body.title with
  | none => simp [createProject, ht]
  | some title =>
    by_cases he : title = ""
    · simp [createProject, ht, he]
    · cases hnew : newProject s.nextId user title body with
      | none => simp [createProject, ht, he, hnew]
      | some project => simp [createProject, ht, he, hnew] at h

theorem createProject_ok {s : Store} {user : ObjectId} {body : CreateProjectBody}
    (h : (createProject s user body).status = 201) :
    ∃ title project, body.title = some title ∧ title ≠ ""
      ∧ newProject s.nextId user title body = some project
      ∧ (createProject s user body).store =
          record { s with projects := s.projects ++ [project], nextId := s.nextId + 1 }
            ⟨user, project._id, project.title, none, project.title,
              ActivityType.project_created⟩ := by
  cases ht : body.title with
  | none => simp [createProject, ht] at h
  | some title =>
    by_cases he : title = ""
    · simp [createProject, ht, he] at h
    · cases hnew : newProject s.nextId user title body with
      | none => simp [createProject, ht, he, hnew] at h
      | some project =>
        exact ⟨title, project, rfl, he, hnew, by simp [createProject, ht, he, hnew]⟩

theorem updateProject_rejected {s : Store} {user id : ObjectId} {body : UpdateProjectBody}
    (h : (updateProject s user id body).status ≠ 200) :
    (updateProject s user id body).store = s := by
  cases hp : findOwnedProject s id user with
  | none => simp [updateProject, hp]
  | some project =>
    cases ha : assignProjectFields project body with
    | none => simp [updateProject, hp, ha]
    | some p => simp [updateProject, hp, ha] at h

theorem updateProject_ok {s : Store} {user id : ObjectId} {body : UpdateProjectBody}
    (h : (updateProject s user id body).status = 200) :
    ∃ project p, findOwnedProject s id user = some project
      ∧ assignProjectFields project body = some p
      ∧ (updateProject s user id body).store =
          record (saveProject s project._id p)
            ⟨user, p._id, p.title, none, p.title, ActivityType.project_updated⟩ := by
  unfold updateProject at h ⊢
  cases hp : findOwnedProject s id user with
  | none => simp [hp] at h
  | some project =>
    cases ha : assignProjectFields project body with
    | none => simp [hp, ha] at h
    | some p => exact ⟨project, p, rfl, ha, by simp [ha]⟩

theorem deleteProject_rejected {s : Store} {user id : ObjectId}
    (h : (deleteProject s user id).status ≠ 200) : (deleteProject s user id).store = s := by
  cases hp : findOwnedProject s id user with
  | none => simp [deleteProject, hp]
  | some project => simp [deleteProject, hp] at h

theorem addCollaborator_store (s : Store) (user id : ObjectId) (body : AddCollaboratorBody) :
    (addCollaborator s user id body).store = s
      ∨ ∃ project collaboratorUser role, findOwnedProject s id user = some project
        ∧ s.users.find? (fun u => u.email == body.userEmail) = some collaboratorUser
        ∧ project.collaborators.find? (fun collab => collab.user == collaboratorUser._id) = none
        ∧ parseRole (body.role.getD "editor") = some role
        ∧ (addCollaborator s user id body).status = 200
        ∧ (addCollaborator s user id body).store =
            saveProject s project._id
              { project with
                collaborators := project.collaborators ++ [⟨collaboratorUser._id, role⟩] } := by
  unfold addCollaborator
  cases hp : findOwnedProject s id user with
  | none => exact Or.inl rfl
  | some project =>
    cases hu : s.users.find? (fun u => u.email == body.userEmail) with
    | none => exact Or.inl rfl
    | some collaboratorUser =>
      cases hc : project.collaborators.find? (fun collab => collab.user == collaboratorUser._id) with
      | some c => exact Or.inl (by simp [hc])
      | none =>
        cases hr : parseRole (body.role.getD "editor") with
        | none => exact Or.inl (by simp [hc, hr])
        | some role =>
          exact Or.inr ⟨project, collaboratorUser, role, rfl, rfl, hc, rfl, by simp [hc, hr],
            by simp [hc, hr]⟩

theorem removeCollaborator_store (s : Store) (user id userId : ObjectId) :
    (removeCollaborator s user id userId).store = s
      ∨ ∃ project, findOwnedProject s id user = some project
        ∧ (removeCollaborator s user id userId).status = 200
        ∧ (removeCollaborator s user id userId).store =
            saveProject s project._id
              { project with
                collaborators :=
                  project.collaborators.filter (fun collab => !(collab.user == userId)) } := by
  unfold removeCollaborator
  cases hp : findOwnedProject s id user with
  | none => exact Or.inl rfl
  | some project => exact Or.inr ⟨project, rfl, rfl, rfl⟩

/-! ## Every handler keeps the store invariant -/

theorem createTask_consistent {s : Store} (user now : Nat) (body : CreateTaskBody)
    (hc : Consistent s) : Consistent (createTask s user now body).store := by
  by_cases h : (createTask s user now body).status = 201
  · obtain ⟨title, P, project, t, _, _, hproj, hnew, hs⟩ := createTask_ok h
    obtain ⟨hid, hP, _⟩ := newTask_some hnew
    obtain ⟨p1, p2, _⟩ := preSave_fields false now t
    obtain ⟨hmem, hpid, _⟩ := findOwnedProject_some hproj
    rw [hs]
    apply consistent_record
    refine consistent_of_recount s _ P hc rfl (Nat.le_succ _) ?_ ?_ ?_ ?_
    · simp only [List.map_append, List.map_cons, List.map_nil]
      rw [List.nodup_append]
      refine ⟨hc.1.2, List.nodup_singleton _, ?_⟩
      intro i hi hi'
      have hlt := hc.2.2.1 i hi
      rw [List.mem_singleton] at hi'
      rw [hi', p1, hid] at hlt
      exact lt_irrefl _ hlt
    · intro i hi
      simp only [List.map_append, List.map_cons, List.map_nil, List.mem_append,
        List.mem_singleton] at hi
      rcases hi with hi | hi
      · exact Nat.lt_succ_of_lt (hc.2.2.1 i hi)
      · rw [hi, p1, hid]
        exact Nat.lt_succ_self _
    · intro i hi
      simp only [List.map_append, List.map_cons, List.map_nil, List.mem_append,
        List.mem_singleton] at hi
      rcases hi with hi | hi
      · exact hc.2.2.2.1 i hi
      · rw [hi, p2, hP, ← hpid]
        exact List.mem_map_of_mem (fun p : Project => p._id) hmem
    · intro q hq
      simp only [List.countP_append, List.countP_cons, List.countP_nil]
      rw [hq _ (p2.trans hP)]
      simp
  · rw [createTask_rejected h]
    exact hc

theorem updateTask_consistent {s : Store} (user now id : Nat) (body : UpdateTaskBody)
    (hc : Consistent s) : Consistent (updateTask s user now id body).store := by
  by_cases h : (updateTask s user now id body).status = 200
  · obtain ⟨task, project, saved, ht, hp, _, hu, hs⟩ := updateTask_ok h
    obtain ⟨hid, hproj, _⟩ := updatedTask_some hu
    rw [hs]
    split_ifs
    · exact consistent_saveTask hc ht hp hid hproj
    · exact consistent_record _ (consistent_saveTask hc ht hp hid hproj)
  · rw [updateTask_rejected h]
    exact hc

theorem toggleTask_consistent {s : Store} (user now id : Nat)
    (hc : Consistent s) : Consistent (toggleTask s user now id).store := by
  by_cases h : (toggleTask s user now id).status = 200
  · obtain ⟨task, project, ht, hp, _, hs⟩ := toggleTask_ok h
    rw [hs]
    exact consistent_record _
      (consistent_saveTask hc ht hp (toggledTask_id now task) (toggledTask_project now task))
  · rw [toggleTask_rejected h]
    exact hc

theorem deleteTask_consistent {s : Store} (user id : Nat)
    (hc : Consistent s) : Consistent (deleteTask s user id).store := by
  by_cases h : (deleteTask s user id).status = 200
  · obtain ⟨task, project, ht, hp, _, hs⟩ := deleteTask_ok h
    rw [hs]
    apply consistent_record
    have hsub : (s.tasks.eraseP (fun x => x._id == id)).Sublist s.tasks :=
      List.eraseP_sublist _
    refine consistent_of_recount s _ _ hc rfl (le_refl _) ?_ ?_ ?_ ?_
    · exact List.Nodup.sublist (hsub.map _) hc.1.2
    · intro i hi
      exact hc.2.2.1 i ((hsub.map _).subset hi)
    · intro i hi
      exact hc.2.2.2.1 i ((hsub.map _).subset hi)
    · intro q hq
      exact countP_eraseP_of_find q _ _ task ht (hq task (findProject_id hp).symm)
  · rw [deleteTask_rejected h]
    exact hc

/-- A reorder changes no field of a task other than `order`. -/
theorem setOrders_map {β : Type} (k : Task → β) (hk : ∀ (t : Task) (n : Nat), k { t with order := n } = k t)
    (ids : List ObjectId) (tasks : List Task) (n : Nat) :
    (setOrders tasks ids n).map k = tasks.map k := by
  induction ids generalizing tasks n with
  | nil => rfl
  | cons a rest ih =>
    simp only [setOrders]
    rw [ih]
    exact map_updateFirst _ _ _ _ (fun t _ _ => hk t n)

theorem countTasks_of_map_eq {tasks tasks' : List Task}
    (h : tasks'.map (fun t => (t.project, t.completed)) = tasks.map (fun t => (t.project, t.completed)))
    (P : ObjectId) :
    countTasks tasks' P = countTasks tasks P
      ∧ countCompletedTasks tasks' P = countCompletedTasks tasks P := by
  have e1 : ∀ l : List Task, countTasks l P
      = (l.map (fun t => (t.project, t.completed))).countP (fun x => x.1 == P) := by
    intro l
    rw [List.countP_map]
    rfl
  have e2 : ∀ l : List Task, countCompletedTasks l P
      = (l.map (fun t => (t.project, t.completed))).countP (fun x => x.1 == P && x.2 == true) := by
    intro l
    rw [List.countP_map]
    rfl
  rw [e1, e1, e2, e2, h]
  exact ⟨rfl, rfl⟩

theorem reorderTasks_consistent {s : Store} (user : ObjectId) (body : ReorderBody)
    (hc : Consistent s) : Consistent (reorderTasks s user body).store := by
  by_cases h : (reorderTasks s user body).status = 200
  · obtain ⟨taskIds, projectId, project, _, _, _, hs⟩ := reorderTasks_ok h
    rw [hs]
    obtain ⟨⟨hpu, htu⟩, hpf, htf, htp, hcnt⟩ := hc
    have hid := setOrders_map (fun t => t._id) (fun _ _ => rfl) taskIds s.tasks 0
    have hpr := setOrders_map (fun t => t.project) (fun _ _ => rfl) taskIds s.tasks 0
    have hpc := setOrders_map (fun t => (t.project, t.completed)) (fun _ _ => rfl) taskIds
      s.tasks 0
    refine ⟨⟨hpu, ?_⟩, hpf, ?_, ?_, ?_⟩
    · simp only [hid]
      exact htu
    · simp only [hid]
      exact htf
    · simp only [hpr]
      exact htp
    · intro p hp
      have := (countersOK_iff s p).1 (hcnt p hp)
      rw [countersOK_iff]
      simp only
      rw [(countTasks_of_map_eq hpc p._id).1, (countTasks_of_map_eq hpc p._id).2]
      exact this
  · rw [reorderTasks_rejected h]
    exact hc

theorem newProject_some {id user : ObjectId} {title : String} {body : CreateProjectBody}
    {p : Project} (h : newProject id user title body = some p) :
    p._id = id ∧ p.owner = user ∧ p.collaborators = [] ∧ p.tasksCount = 0
      ∧ p.completedTasksCount = 0 ∧ p.title = jsTrim title := by
  unfold newProject at h
  simp only at h
  split at h
  · cases h
  · split at h
    · cases h
      exact ⟨rfl, rfl, rfl, rfl, rfl, rfl⟩
    · cases h

theorem createProject_consistent {s : Store} (user : ObjectId) (body : CreateProjectBody)
    (hc : Consistent s) : Consistent (createProject s user body).store := by
  by_cases h : (createProject s user body).status = 201
  · obtain ⟨title, project, _, _, hnew, hs⟩ := createProject_ok h
    obtain ⟨hid, _, _, hn, hm, _⟩ := newProject_some hnew
    rw [hs]
    apply consistent_record
    obtain ⟨⟨hpu, htu⟩, hpf, htf, htp, hcnt⟩ := hc
    have hnone : ∀ t ∈ s.tasks, t.project ≠ s.nextId := by
      intro t ht e
      have hlt : t.project < s.nextId :=
        hpf _ (htp _ (List.mem_map_of_mem (fun t : Task => t.project) ht))
      rw [e] at hlt
      exact lt_irrefl _ hlt
    refine ⟨⟨?_, htu⟩, ?_, ?_, ?_, ?_⟩
    · simp only [List.map_append, List.map_cons, List.map_nil]
      rw [List.nodup_append]
      refine ⟨hpu, List.nodup_singleton _, ?_⟩
      intro i hi hi'
      have hlt := hpf i hi
      rw [List.mem_singleton] at hi'
      rw [hi', hid] at hlt
      exact lt_irrefl _ hlt
    · intro i hi
      simp only [List.map_append, List.map_cons, List.map_nil, List.mem_append,
        List.mem_singleton] at hi
      rcases hi with hi | hi
      · exact Nat.lt_succ_of_lt (hpf i hi)
      · rw [hi, hid]
        exact Nat.lt_succ_self _
    · intro i hi
      exact Nat.lt_succ_of_lt (htf i hi)
    · intro i hi
      simp only [List.map_append, List.mem_append]
      exact Or.inl (htp i hi)
    · intro p hp
      simp only [List.mem_append, List.mem_singleton] at hp
      rcases hp with hp | hp
      · exact hcnt p hp
      · rw [countersOK_iff, hp, hn, hm, hid]
        simp only [countTasks, countCompletedTasks]
        constructor
        · symm
          rw [List.countP_eq_zero]
          intro t ht
          simpa using hnone t ht
        · symm
          rw [List.countP_eq_zero]
          intro t ht
          have := hnone t ht
          simp [this]
  · rw [createProject_rejected h]
    exact hc

/-- The invariant after `project.save()` of a document with the stored
project's id and counters. -/
theorem consistent_saveProject {s : Store} {project p' : Project} (hc : Consistent s)
    (hmem : project ∈ s.projects) (hid : p'._id = project._id)
    (hn : p'.tasksCount = project.tasksCount)
    (hm : p'.completedTasksCount = project.completedTasksCount) :
    Consistent (saveProject s project._id p') := by
  obtain ⟨⟨hpu, htu⟩, hpf, htf, htp, hcnt⟩ := hc
  have hids : (saveProject s project._id p').projects.map (fun p => p._id)
      = s.projects.map (fun p => p._id) := by
    simp only [saveProject]
    apply map_updateFirst
    intro y _ hy
    rw [hid]
    exact (by simpa using hy : y._id = project._id).symm
  refine ⟨⟨?_, htu⟩, ?_, htf, ?_, ?_⟩
  · rw [hids]
    exact hpu
  · rw [hids]
    exact hpf
  · rw [hids]
    exact htp
  · intro z hz
    simp only [saveProject] at hz
    rcases mem_updateFirst hz with hz | ⟨y, _, _, hz⟩
    · exact hcnt z hz
    · have := (countersOK_iff s project).1 (hcnt project hmem)
      rw [countersOK_iff, hz, hid, hn, hm]
      exact this

theorem assignProjectFields_some {project p : Project} {body : UpdateProjectBody}
    (h : assignProjectFields project body = some p) :
    p._id = project._id ∧ p.owner = project.owner ∧ p.collaborators = project.collaborators
      ∧ p.tasksCount = project.tasksCount
      ∧ p.completedTasksCount = project.completedTasksCount := by
  unfold assignProjectFields at h
  simp only at h
  split at h
  · split at h
    · cases h
      exact ⟨rfl, rfl, rfl, rfl, rfl⟩
    · cases h
  · cases h

theorem updateProject_consistent {s : Store} (user id : ObjectId) (body : UpdateProjectBody)
    (hc : Consistent s) : Consistent (updateProject s user id body).store := by
  by_cases h : (updateProject s user id body).status = 200
  · obtain ⟨project, p, hp, ha, hs⟩ := updateProject_ok h
    obtain ⟨hid, _, _, hn, hm⟩ := assignProjectFields_some ha
    rw [hs]
    exact consistent_record _
      (consistent_saveProject hc (findOwnedProject_some hp).1 hid hn hm)
  · rw [updateProject_rejected h]
    exact hc

theorem addCollaborator_consistent {s : Store} (user id : ObjectId) (body : AddCollaboratorBody)
    (hc : Consistent s) : Consistent (addCollaborator s user id body).store := by
  rcases addCollaborator_store s user id body with h | ⟨project, _, _, hp, _, _, _, _, hs⟩
  · rw [h]
    exact hc
  · rw [hs]
    exact consistent_saveProject hc (findOwnedProject_some hp).1 rfl rfl rfl

theorem removeCollaborator_consistent {s : Store} (user id userId : ObjectId)
    (hc : Consistent s) : Consistent (removeCollaborator s user id userId).store := by
  rcases removeCollaborator_store s user id userId with h | ⟨project, hp, _, hs⟩
  · rw [h]
    exact hc
  · rw [hs]
    exact consistent_saveProject hc (findOwnedProject_some hp).1 rfl rfl rfl

theorem deleteProject_consistent {s : Store} (user id : ObjectId)
    (hc : Consistent s) : Consistent (deleteProject s user id).store := by
  by_cases h : (deleteProject s user id).status = 200
  · obtain ⟨project, hp, hs⟩ := deleteProject_ok h
    obtain ⟨_, hpid, _⟩ := findOwnedProject_some hp
    obtain ⟨⟨hpu, htu⟩, hpf, htf, htp, hcnt⟩ := hc
    rw [hs, hpid, eraseP_key_eq_filter (fun p : Project => p._id) id s.projects hpu]
    have hps : (s.projects.filter (fun x => !(x._id == id))).Sublist s.projects :=
      List.filter_sublist _
    have hts : (s.tasks.filter (fun t => !(t.project == id))).Sublist s.tasks :=
      List.filter_sublist _
    refine ⟨⟨?_, ?_⟩, ?_, ?_, ?_, ?_⟩
    · exact List.Nodup.sublist (hps.map _) hpu
    · exact List.Nodup.sublist (hts.map _) htu
    · intro i hi
      exact hpf i ((hps.map _).subset hi)
    · intro i hi
      exact htf i ((hts.map _).subset hi)
    · intro i hi
      obtain ⟨t, ht, rfl⟩ := List.mem_map.1 hi
      obtain ⟨ht1, ht2⟩ := List.mem_filter.1 ht
      obtain ⟨q, hq, hqi⟩ := List.mem_map.1 (htp _ (List.mem_map_of_mem (fun t : Task => t.project) ht1))
      refine List.mem_map.2 ⟨q, List.mem_filter.2 ⟨hq, ?_⟩, hqi⟩
      have hqi' : q._id = t.project := hqi
      rw [hqi']
      exact ht2
    · intro q hq
      obtain ⟨hq1, hq2⟩ := List.mem_filter.1 hq
      have hne : q._id ≠ id := by simpa using hq2
      have := (countersOK_iff s q).1 (hcnt q hq1)
      rw [countersOK_iff]
      simp only [countTasks, countCompletedTasks, List.countP_filter] at this ⊢
      rw [this.1, this.2]
      constructor
      · apply List.countP_congr
        intro t _
        by_cases e : t.project = q._id <;> simp [e, hne]
      · apply List.countP_congr
        intro t _
        by_cases e : t.project = q._id <;> simp [e, hne]
  · rw [deleteProject_rejected h]
    exact hc

/-- Every request keeps the store invariant. -/
theorem handle_consistent {s : Store} (r : Request) (hc : Consistent s) :
    Consistent (handle s r).store := by
  cases r with
  | createProject user body => exact createProject_consistent user body hc
  | updateProject user id body => exact updateProject_consistent user id body hc
  | deleteProject user id => exact deleteProject_consistent user id hc
  | addCollaborator user id body => exact addCollaborator_consistent user id body hc
  | removeCollaborator user id userId => exact removeCollaborator_consistent user id userId hc
  | createTask user now body => exact createTask_consistent user now body hc
  | updateTask user now id body => exact updateTask_consistent user now id body hc
  | deleteTask user id => exact deleteTask_consistent user id hc
  | toggleTask user now id => exact toggleTask_consistent user now id hc
  | reorderTasks user body => exact reorderTasks_consistent user body hc

theorem run_consistent {s : Store} (rs : List Request) (hc : Consistent s) :
    Consistent (run s rs) := by
  induction rs generalizing s with
  | nil => exact hc
  | cons r rs ih => exact ih (handle_consistent r hc)

theorem emptyStore_consistent (users : List User) : Consistent (emptyStore users) := by
  refine ⟨⟨List.nodup_nil, List.nodup_nil⟩, ?_, ?_, ?_, ?_⟩ <;> intro x hx <;> cases hx

/-- Every reachable store satisfies the store invariant. -/
theorem reachable_consistent {s : Store} (h : Reachable s) : Consistent s := by
  obtain ⟨users, rs, rfl⟩ := h
  exact run_consistent rs (emptyStore_consistent users)

/-- C2. In every state reachable from the empty store by requests served one
after the other, every stored project has `completedTasksCount ≤ tasksCount`,
`tasksCount` equal to the number of stored tasks that reference it and
`completedTasksCount` equal to the number of those with `completed == true`. -/
theorem reachable_counters (s : Store) (h : Reachable s) :
    ∀ p ∈ s.projects,
      p.completedTasksCount ≤ p.tasksCount
        ∧ p.tasksCount = (s.tasks.filter (fun t => t.project = p._id)).length
        ∧ p.completedTasksCount
            = (s.tasks.filter (fun t => t.project = p._id ∧ t.completed = true)).length :=
  (reachable_consistent h).2.2.2.2

/-! ## The task invariant -/

theorem updatedTask_taskOK {now : Nat} {task saved : Task} {body : UpdateTaskBody}
    (hinv : TaskOK task) (h : updatedTask now task body = some saved) : TaskOK saved := by
  obtain ⟨_, _, _, _, _, hc, ha⟩ := updatedTask_some h
  obtain ⟨ic, ia⟩ := hinv
  by_cases hst : saved.status = task.status
  · rw [if_pos hst] at hc ha
    exact ⟨by rw [hc, ic, hst], by rw [ha, ia, hc]⟩
  · rw [if_neg hst] at hc ha
    exact ⟨hc, by rw [ha, hc]⟩

theorem toggledTask_taskOK (now : Nat) (t : Task) : TaskOK (toggledTask now t) := by
  unfold TaskOK
  rw [toggledTask_completed, toggledTask_status, toggledTask_completedAt]
  cases t.completed <;> simp

theorem newTask_taskOK {id user P : ObjectId} {title : String} {body : CreateTaskBody}
    {order now : Nat} {t : Task} (h : newTask id user P title body order = some t) :
    TaskOK (preSave false now t) := by
  obtain ⟨_, _, _, hs, hc, ha, _⟩ := newTask_some h
  unfold TaskOK
  rw [preSave_completed, preSave_completedAt, (preSave_fields false now t).2.2.2.1]
  simp [hs, hc, ha]

theorem mem_saveTask {s : Store} {id : ObjectId} {saved t : Task}
    (h : t ∈ (saveTask s id saved).tasks) : t ∈ s.tasks ∨ t = saved := by
  simp only [saveTask] at h
  rcases mem_updateFirst h with h | ⟨_, _, _, h⟩
  · exact Or.inl h
  · exact Or.inr h

/-- Every request keeps the task invariant. -/
theorem handle_taskOK {s : Store} (r : Request) (hinv : ∀ t ∈ s.tasks, TaskOK t) :
    ∀ t ∈ (handle s r).store.tasks, TaskOK t := by
  cases r with
  | createProject user body =>
    simp only [handle]
    by_cases h : (createProject s user body).status = 201
    · obtain ⟨_, _, _, _, _, hs⟩ := createProject_ok h
      rw [hs]
      exact hinv
    · rw [createProject_rejected h]
      exact hinv
  | updateProject user id body =>
    simp only [handle]
    by_cases h : (updateProject s user id body).status = 200
    · obtain ⟨_, _, _, _, hs⟩ := updateProject_ok h
      rw [hs]
      exact hinv
    · rw [updateProject_rejected h]
      exact hinv
  | deleteProject user id =>
    simp only [handle]
    by_cases h : (deleteProject s user id).status = 200
    · obtain ⟨_, _, hs⟩ := deleteProject_ok h
      rw [hs]
      intro t ht
      exact hinv t (List.mem_filter.1 ht).1
    · rw [deleteProject_rejected h]
      exact hinv
  | addCollaborator user id body =>
    simp only [handle]
    rcases addCollaborator_store s user id body with h | ⟨_, _, _, _, _, _, _, _, hs⟩
    · rw [h]
      exact hinv
    · rw [hs]
      exact hinv
  | removeCollaborator user id userId =>
    simp only [handle]
    rcases removeCollaborator_store s user id userId with h | ⟨_, _, _, hs⟩
    · rw [h]
      exact hinv
    · rw [hs]
      exact hinv
  | createTask user now body =>
    simp only [handle]
    by_cases h : (createTask s user now body).status = 201
    · obtain ⟨_, _, _, t, _, _, _, hnew, hs⟩ := createTask_ok h
      rw [hs]
      intro x hx
      simp only [record_tasks, updateProjectTaskCounts_tasks, List.mem_append,
        List.mem_singleton] at hx
      rcases hx with hx | hx
      · exact hinv x hx
      · rw [hx]
        exact newTask_taskOK hnew
    · rw [createTask_rejected h]
      exact hinv
  | updateTask user now id body =>
    simp only [handle]
    by_cases h : (updateTask s user now id body).status = 200
    · obtain ⟨task, _, saved, ht, _, _, hu, hs⟩ := updateTask_ok h
      have hsaved := updatedTask_taskOK (hinv task (findTask_mem ht)) hu
      rw [hs]
      intro x hx
      have hx' : x ∈ (saveTask s task._id saved).tasks := by
        split_ifs at hx <;> exact hx
      rcases mem_saveTask hx' with hx' | hx'
      · exact hinv x hx'
      · rw [hx']
        exact hsaved
    · rw [updateTask_rejected h]
      exact hinv
  | deleteTask user id =>
    simp only [handle]
    by_cases h : (deleteTask s user id).status = 200
    · obtain ⟨_, _, _, _, _, hs⟩ := deleteTask_ok h
      rw [hs]
      intro x hx
      exact hinv x ((List.eraseP_sublist _).subset hx)
    · rw [deleteTask_rejected h]
      exact hinv
  | toggleTask user now id =>
    simp only [handle]
    by_cases h : (toggleTask s user now id).status = 200
    · obtain ⟨task, _, _, _, _, hs⟩ := toggleTask_ok h
      rw [hs]
      intro x hx
      rcases mem_saveTask hx with hx | hx
      · exact hinv x hx
      · rw [hx]
        exact toggledTask_taskOK now task
    · rw [toggleTask_rejected h]
      exact hinv
  | reorderTasks user body =>
    simp only [handle]
    by_cases h : (reorderTasks s user body).status = 200
    · obtain ⟨taskIds, _, _, _, _, _, hs⟩ := reorderTasks_ok h
      rw [hs]
      intro x hx
      have hmap := setOrders_map (fun t => (t.status, t.completed, t.completedAt))
        (fun _ _ => rfl) taskIds s.tasks 0
      have hx' : (x.status, x.completed, x.completedAt)
          ∈ (setOrders s.tasks taskIds 0).map (fun t => (t.status, t.completed, t.completedAt)) :=
        List.mem_map_of_mem (fun t : Task => (t.status, t.completed, t.completedAt)) hx
      rw [hmap] at hx'
      obtain ⟨y, hy, hxy⟩ := List.mem_map.1 hx'
      have hyok := hinv y hy
      simp only [Prod.mk.injEq] at hxy
      unfold TaskOK at hyok ⊢
      rw [← hxy.1, ← hxy.2.1, ← hxy.2.2]
      exact hyok
    · rw [reorderTasks_rejected h]
      exact hinv

theorem run_taskOK {s : Store} (rs : List Request) (hinv : ∀ t ∈ s.tasks, TaskOK t) :
    ∀ t ∈ (run s rs).tasks, TaskOK t := by
  induction rs generalizing s with
  | nil => exact hinv
  | cons r rs ih => exact ih (handle_taskOK r hinv)

/-- C3. From a store in which every task satisfies `completed == (status ==
'completed')` and `completedAt` non-null iff `completed` (as in the empty
store), every task stored after any sequence of requests satisfies it too; and
a successful update whose `status` field is one of the three status values
leaves the task with that status, with `completed == true` and a non-null
`completedAt` when it is `completed`, and with `completed == false` and a null
`completedAt` otherwise. -/
theorem task_invariant (s : Store) (hinv : ∀ t ∈ s.tasks, TaskOK t) :
    (∀ rs : List Request, ∀ t ∈ (run s rs).tasks, TaskOK t)
      ∧ ∀ (user now id : Nat) (body : UpdateTaskBody) (x : String) (st : TaskStatus),
          body.status = some x → parseTaskStatus x = some st →
          (updateTask s user now id body).status = 200 →
          ∃ t', findTask (updateTask s user now id body).store id = some t'
            ∧ t'.status = st
            ∧ t'.completed = decide (st = TaskStatus.completed)
            ∧ t'.completedAt.isSome = decide (st = TaskStatus.completed) := by
  refine ⟨fun rs => run_taskOK rs hinv, ?_⟩
  intro user now id body x st hb hparse h
  obtain ⟨task, project, saved, ht, _, _, hu, hs⟩ := updateTask_ok h
  obtain ⟨hid, _, _, _, hsome, _, _⟩ := updatedTask_some hu
  have hst : saved.status = st := by
    have := hsome x hb
    rw [hparse] at this
    exact (Option.some.inj this).symm
  have hok := updatedTask_taskOK (hinv task (findTask_mem ht)) hu
  have hfind : findTask (updateTask s user now id body).store id = some saved := by
    rw [hs]
    split_ifs <;>
      simp only [findTask_record, findTask_updateProjectTaskCounts] <;>
      exact findTask_saveTask ht (hid.trans (findTask_id ht))
  refine ⟨saved, hfind, hst, ?_, ?_⟩
  · rw [← hst]
    exact hok.1
  · rw [← hst, hok.2]
    exact hok.1

/-! ## Instances on the sample sessions -/

/-- Instance of `reachable_counters` at `sessionStore`, which two requests reach. -/
theorem reachable_counters_witness :
    Reachable sessionStore
      ∧ ∀ p ∈ sessionStore.projects,
          p.completedTasksCount ≤ p.tasksCount
            ∧ p.tasksCount = (sessionStore.tasks.filter (fun t => t.project = p._id)).length
            ∧ p.completedTasksCount
                = (sessionStore.tasks.filter
                    (fun t => t.project = p._id ∧ t.completed = true)).length :=
  ⟨⟨[], sessionRequests, rfl⟩, reachable_counters sessionStore ⟨[], sessionRequests, rfl⟩⟩

/-- Instance of `task_invariant` at `sessionStore`: a toggle, and an update to
`completed`. -/
theorem task_invariant_witness :
    (∀ t ∈ sessionStore.tasks, TaskOK t)
      ∧ (∀ t ∈ (run sessionStore [Request.toggleTask 1 12 1]).tasks, TaskOK t)
      ∧ ∃ t', findTask (updateTask sessionStore 1 11 1 (statusBody "completed")).store 1 = some t'
          ∧ t'.status = TaskStatus.completed
          ∧ t'.completed = decide (TaskStatus.completed = TaskStatus.completed)
          ∧ t'.completedAt.isSome = decide (TaskStatus.completed = TaskStatus.completed) :=
  ⟨by decide, (task_invariant sessionStore (by decide)).1 _,
    (task_invariant sessionStore (by decide)).2 1 11 1 (statusBody "completed") "completed"
      TaskStatus.completed rfl rfl (by decide)⟩

/-- Instance of `toggle_twice` at the `todo` task of `sessionStore`. -/
theorem toggle_twice_witness :
    findTask sessionStore 1 = some sessionTask ∧ TaskOK sessionTask
      ∧ (toggleTask (toggleTask sessionStore 1 20 1).store 1 21 1).status = 200
      ∧ ∃ t₂, findTask (toggleTask (toggleTask sessionStore 1 20 1).store 1 21 1).store 1
            = some t₂
          ∧ t₂.completed = sessionTask.completed
          ∧ t₂.completedAt.isSome = sessionTask.completedAt.isSome
          ∧ t₂.status = (if sessionTask.status = TaskStatus.in_progress then TaskStatus.todo
              else sessionTask.status) :=
  ⟨by decide, by decide,
    toggle_twice sessionStore 1 20 21 1 sessionTask (by decide) (by decide) (by decide)⟩

/-- C5 (counterexample). The task of `inProgressStore` is `in_progress`; user 1,
the owner, toggles it twice, both times successfully, and its status is then
`todo`, not `in_progress`. -/
theorem toggle_twice_in_progress :
    (findTask inProgressStore 1).map (fun t => t.status) = some TaskStatus.in_progress
      ∧ (toggleTask inProgressStore 1 20 1).status = 200
      ∧ (toggleTask (toggleTask inProgressStore 1 20 1).store 1 21 1).status = 200
      ∧ (findTask (toggleTask (toggleTask inProgressStore 1 20 1).store 1 21 1).store 1).map
          (fun t => t.status) = some TaskStatus.todo := by
  decide

/-- Instance of `updateTask_activity`: user 1 completes the task of
`sessionStore` by an update, which appends one `task_completed` entry. -/
theorem updateTask_activity_witness :
    findTask sessionStore 1 = some sessionTask
      ∧ (updateTask sessionStore 1 11 1 (statusBody "completed")).status = 200
      ∧ ∃ a, (updateTask sessionStore 1 11 1 (statusBody "completed")).store.activities
            = sessionStore.activities ++ [a]
          ∧ a.type_ = ActivityType.task_completed ∧ a.user = 1 ∧ a.taskId = some 1 := by
  refine ⟨by decide, by decide, ?_⟩
  obtain ⟨_, t', ht', h1, _⟩ :=
    updateTask_activity sessionStore 1 11 1 (statusBody "completed") sessionTask
      (by decide) (by decide)
  have hf : (findTask (updateTask sessionStore 1 11 1 (statusBody "completed")).store 1).map
      (fun t => t.completed) = some true := by decide
  rw [ht'] at hf
  exact h1 rfl (Option.some.inj hf)

/-- Instance of `createTask_order`: user 1 adds a second task to project 0 of
`sessionStore`. -/
theorem createTask_order_witness :
    (createTask sessionStore 1 12 buildBody).status = 201
      ∧ ∃ P task, buildBody.projectId = some P
        ∧ (createTask sessionStore 1 12 buildBody).store.tasks = sessionStore.tasks ++ [task]
        ∧ task.project = P
        ∧ (((∀ t ∈ sessionStore.tasks, t.project ≠ P) ∧ task.order = 0)
            ∨ ∃ m ∈ sessionStore.tasks, m.project = P
                ∧ (∀ t ∈ sessionStore.tasks, t.project = P → t.order ≤ m.order)
                ∧ task.order = m.order + 1)
        ∧ ∀ t ∈ sessionStore.tasks, t.project = P → t.order < task.order :=
  ⟨by decide, createTask_order sessionStore 1 12 buildBody (by decide)⟩

/-- Instance of `deleteProject_cascade`: user 1 deletes project 0 of
`sessionStore`. -/
theorem deleteProject_cascade_witness :
    (sessionStore.projects.map (fun p => p._id)).Nodup
      ∧ (deleteProject sessionStore 1 0).status = 200
      ∧ ∃ project ∈ sessionStore.projects, project._id = 0 ∧ project.owner = 1
        ∧ (deleteProject sessionStore 1 0).store.projects
            = sessionStore.projects.filter (fun p => p._id ≠ 0)
        ∧ (deleteProject sessionStore 1 0).store.tasks
            = sessionStore.tasks.filter (fun t => t.project ≠ 0)
        ∧ (deleteProject sessionStore 1 0).store.tasks.length
              + (sessionStore.tasks.filter (fun t => t.project = 0)).length
            = sessionStore.tasks.length
        ∧ (deleteProject sessionStore 1 0).store.activities
            = sessionStore.activities ++ [⟨1, 0, project.title, none, project.title,
                ActivityType.project_deleted⟩] :=
  ⟨by decide, by decide, deleteProject_cascade sessionStore 1 0 (by decide) (by decide)⟩

/-- Instance of `reorder_assigns_indices`: the owner reorders the tasks 1, 2, 3
of `threeTaskStore` as `[3, 1, 2]`, which gives task 3 order 0, task 1 order 1
and task 2 order 2. -/
theorem reorder_assigns_indices_witness :
    (threeTaskStore.tasks.map (fun t => t._id)).Nodup ∧ [3, 1, 2].Nodup
      ∧ (reorderTasks threeTaskStore 1 ⟨some [3, 1, 2], some 0⟩).status = 200
      ∧ threeTaskStore.tasks.map (fun t => (t._id, t.order)) = [(1, 0), (2, 1), (3, 2)]
      ∧ (reorderTasks threeTaskStore 1 ⟨some [3, 1, 2], some 0⟩).store.tasks.map
          (fun t => (t._id, t.order)) = [(1, 1), (2, 2), (3, 0)] := by
  refine ⟨by decide, by decide, by decide, by decide, ?_⟩
  rw [(reorder_assigns_indices threeTaskStore 1 ⟨some [3, 1, 2], some 0⟩ [3, 1, 2] rfl
    (by decide) (by decide) (by decide)).1]
  decide

/-- C8. In `twoOwnerStore` user 1 has no access to project 0, the project of
the tasks 1 and 2, whose orders are 0 and 1; the reorder request of user 1 that
names their own project 3 and the task ids `[2, 1]` is answered with 200 and
leaves the tasks 1 and 2 of project 0 with the orders 1 and 0. -/
theorem reorder_changes_foreign_tasks :
    findAccessibleProject twoOwnerStore 0 1 = none
      ∧ twoOwnerStore.tasks.map (fun t => (t._id, t.project, t.order)) = [(1, 0, 0), (2, 0, 1)]
      ∧ (reorderTasks twoOwnerStore 1 ⟨some [2, 1], some 3⟩).status = 200
      ∧ (reorderTasks twoOwnerStore 1 ⟨some [2, 1], some 3⟩).store.tasks.map
          (fun t => (t._id, t.project, t.order)) = [(1, 0, 1), (2, 0, 0)] := by
  decide

/-! ## Access control -/

/-- With unique keys, a query by key and a further condition finds the element
with that key when it meets the condition, and nothing otherwise. -/
theorem find?_key_and {α : Type} (k : α → Nat) (P : α → Bool) {l : List α}
    (h : (l.map k).Nodup) {p : α} (hp : p ∈ l) :
    l.find? (fun q => k q == k p && P q) = if P p = true then some p else none := by
  by_cases hP : P p = true
  · rw [if_pos hP]
    cases hf : l.find? (fun q => k q == k p && P q) with
    | none =>
      have := List.find?_eq_none.1 hf p hp
      simp [hP] at this
    | some x =>
      have hx := List.find?_some hf
      have hxm := List.mem_of_find?_eq_some hf
      simp only [Bool.and_eq_true, beq_iff_eq] at hx
      rw [eq_of_key_eq k h hxm hp hx.1]
  · rw [if_neg hP]
    apply List.find?_eq_none.2
    intro x hx hpred
    simp only [Bool.and_eq_true, beq_iff_eq] at hpred
    rw [eq_of_key_eq k h hx hp hpred.1] at hpred
    exact hP hpred.2

theorem findOwnedProject_of_mem {s : Store} (hu : (s.projects.map (fun p => p._id)).Nodup)
    {p : Project} (hp : p ∈ s.projects) (user : ObjectId) :
    findOwnedProject s p._id user = if p.owner = user then some p else none := by
  unfold findOwnedProject
  rw [find?_key_and (fun q : Project => q._id) (fun q => q.owner == user) hu hp]
  by_cases h : p.owner = user <;> simp [h]

theorem findAccessibleProject_of_mem {s : Store} (hu : (s.projects.map (fun p => p._id)).Nodup)
    {p : Project} (hp : p ∈ s.projects) (user : ObjectId) :
    findAccessibleProject s p._id user
      = if p.owner = user ∨ user ∈ p.collaborators.map (fun c => c.user) then some p
        else none := by
  unfold findAccessibleProject
  rw [find?_key_and (fun q : Project => q._id)
    (fun q => q.owner == user || q.collaborators.any (fun c => c.user == user)) hu hp]
  by_cases h1 : p.owner = user
  · simp [h1]
  · by_cases h2 : user ∈ p.collaborators.map (fun c => c.user)
    · have : p.collaborators.any (fun c => c.user == user) = true := by
        obtain ⟨c, hc, hcu⟩ := List.mem_map.1 h2
        exact List.any_eq_true.2 ⟨c, hc, by simpa using hcu⟩
      simp [h1, h2, this]
    · have : p.collaborators.any (fun c => c.user == user) = false := by
        rw [Bool.eq_false_iff]
        intro hany
        obtain ⟨c, hc, hcu⟩ := List.any_eq_true.1 hany
        exact h2 (List.mem_map.2 ⟨c, hc, by simpa using hcu⟩)
      simp [h1, h2, this]

/-- C11. In a store whose project ids are unique, for every stored project and
every user who is in its collaborators list (with whatever role) and is not its
owner: `GET /projects/:id` answers 200 with the project, while update, delete,
add-collaborator and remove-collaborator answer 404 and leave the whole store
(projects, tasks, activity feed) as it was. -/
theorem collaborator_reads_only (s : Store) (p : Project) (user : ObjectId)
    (hu : (s.projects.map (fun p => p._id)).Nodup) (hp : p ∈ s.projects)
    (hcol : user ∈ p.collaborators.map (fun c => c.user)) (hne : p.owner ≠ user) :
    getProject s user p._id = (200, some p)
      ∧ (∀ body, updateProject s user p._id body = ⟨404, s⟩)
      ∧ deleteProject s user p._id = ⟨404, s⟩
      ∧ (∀ body, addCollaborator s user p._id body = ⟨404, s⟩)
      ∧ (∀ userId, removeCollaborator s user p._id userId = ⟨404, s⟩) := by
  have hacc : findAccessibleProject s p._id user = some p := by
    rw [findAccessibleProject_of_mem hu hp, if_pos (Or.inr hcol)]
  have hown : findOwnedProject s p._id user = none := by
    rw [findOwnedProject_of_mem hu hp, if_neg hne]
  refine ⟨?_, ?_, ?_, ?_, ?_⟩
  · simp [getProject, hacc]
  · intro body
    simp [updateProject, hown]
  · simp [deleteProject, hown]
  · intro body
    simp [addCollaborator, hown]
  · intro userId
    simp [removeCollaborator, hown]

/-- C12. For every stored task whose project is stored: a caller who is not the
owner of that project (a collaborator included) gets 403 from get, update,
delete and toggle of the task, and the store (tasks, project counters, activity
feed) is left as it was; the owner does not get 403 from any of the four. -/
theorem task_access_owner_only (s : Store) (user id : ObjectId) (task : Task)
    (project : Project) (ht : findTask s id = some task)
    (hp : findProject s task.project = some project) :
    (project.owner ≠ user →
        getTask s user id = (403, none)
          ∧ (∀ now body, updateTask s user now id body = ⟨403, s⟩)
          ∧ deleteTask s user id = ⟨403, s⟩
          ∧ (∀ now, toggleTask s user now id = ⟨403, s⟩))
      ∧ (project.owner = user →
        getTask s user id = (200, some task)
          ∧ (∀ now body, (updateTask s user now id body).status ≠ 403)
          ∧ (deleteTask s user id).status = 200
          ∧ (∀ now, (toggleTask s user now id).status = 200)) := by
  constructor
  · intro hne
    refine ⟨?_, ?_, ?_, ?_⟩
    · simp [getTask, ht, hp, hne]
    · intro now body
      simp [updateTask, ht, hp, hne]
    · simp [deleteTask, ht, hp, hne]
    · intro now
      simp [toggleTask, ht, hp, hne]
  · intro ho
    refine ⟨?_, ?_, ?_, ?_⟩
    · simp [getTask, ht, hp, ho]
    · intro now body
      cases hu : updatedTask now task body with
      | none => simp [updateTask, ht, hp, ho, hu]
      | some saved =>
        by_cases hc : task.completed = saved.completed <;>
          simp [updateTask, ht, hp, ho, hu, hc]
    · simp [deleteTask, ht, hp, ho]
    · intro now
      simp [toggleTask, ht, hp, ho]

/-! ## The create, toggle, stats scenario -/

theorem updateFirst_append_single {α : Type} (p : α → Bool) (f : α → α) (l : List α) (y : α)
    (hl : ∀ x ∈ l, p x = false) (hy : p y = true) :
    updateFirst p f (l ++ [y]) = l ++ [f y] := by
  induction l with
  | nil => simp [updateFirst, hy]
  | cons x xs ih =>
    have hx : p x = false := hl x (List.mem_cons_self _ _)
    simp [updateFirst, hx, ih (fun z hz => hl z (List.mem_cons_of_mem _ hz))]

theorem find?_append_single {α : Type} (p : α → Bool) (l : List α) (y : α)
    (hl : ∀ x ∈ l, p x = false) (hy : p y = true) :
    (l ++ [y]).find? p = some y := by
  have hnone : l.find? p = none := by
    apply List.find?_eq_none.2
    intro x hx
    simp [hl x hx]
  rw [List.find?_append, hnone]
  simp [hy]

theorem countP_append_single {α : Type} (q : α → Bool) (l : List α) (y : α)
    (hl : ∀ x ∈ l, q x = false) :
    (l ++ [y]).countP q = if q y = true then 1 else 0 := by
  have h0 : l.countP q = 0 := by
    rw [List.countP_eq_zero]
    intro x hx
    simp [hl x hx]
  rw [List.countP_append, h0]
  by_cases hy : q y = true <;> simp [hy]

/-- The statistics of a project whose only task is completed. -/
theorem taskStats_single_completed (l : List Task) (y : Task) (n : ObjectId)
    (hl : ∀ x ∈ l, (x.project == n) = false) (hp : y.project = n)
    (hs : y.status = TaskStatus.completed) :
    taskStats (l ++ [y]) n = [(TaskStatus.completed, 1)] := by
  have h : ∀ st : TaskStatus, (l ++ [y]).countP (fun t => t.project == n && t.status == st)
      = if st = TaskStatus.completed then 1 else 0 := by
    intro st
    rw [countP_append_single _ l y (fun x hx => by simp [hl x hx])]
    cases st <;> simp [hp, hs]
  simp [taskStats, h]

/-- Toggle and stats in a store whose last project `p₂` is owned by `U` and
whose last task `task₀` is the only task of `p₂` and is not completed. -/
theorem stats_after_toggle (s₂ : Store) (l : List Task) (ps : List Project) (task₀ : Task)
    (p₂ : Project) (U now : Nat)
    (htasks : s₂.tasks = l ++ [task₀]) (hprojs : s₂.projects = ps ++ [p₂])
    (hlid : ∀ x ∈ l, (x._id == task₀._id) = false)
    (hlp : ∀ x ∈ l, (x.project == p₂._id) = false)
    (hps : ∀ q ∈ ps, (q._id == p₂._id) = false)
    (hown : p₂.owner = U) (htp : task₀.project = p₂._id)
    (htc : task₀.completed = false) :
    (toggleTask s₂ U now task₀._id).status = 200
      ∧ getProjectStats (toggleTask s₂ U now task₀._id).store U p₂._id
        = (200, some
            { totalTasks := 1, completedTasks := 1, inProgressTasks := 0, progress := 100,
              tasksByStatus := [(TaskStatus.completed, 1)] }) := by
  have hfindT : findTask s₂ task₀._id = some task₀ := by
    unfold findTask
    rw [htasks]
    exact find?_append_single (fun t => t._id == task₀._id) l task₀ hlid (by simp)
  have hfindP : findProject s₂ task₀.project = some p₂ := by
    unfold findProject
    rw [hprojs, htp]
    exact find?_append_single (fun p => p._id == p₂._id) ps p₂ hps (by simp)
  rw [toggleTask_of_found now hfindT hfindP hown]
  refine ⟨rfl, ?_⟩
  have htasks₃ : (saveTask s₂ task₀._id (toggledTask now task₀)).tasks
      = l ++ [toggledTask now task₀] := by
    simp only [saveTask, htasks]
    exact updateFirst_append_single (fun x => x._id == task₀._id) _ l task₀ hlid (by simp)
  have hproj₃ : (toggledTask now task₀).project = p₂._id := by
    rw [toggledTask_project, htp]
  have hcomp₃ : (toggledTask now task₀).completed = true := by
    rw [toggledTask_completed, htc]
    rfl
  have hstat₃ : (toggledTask now task₀).status = TaskStatus.completed := by
    rw [toggledTask_status, htc]
    rfl
  have hcount : countTasks (l ++ [toggledTask now task₀]) p₂._id = 1 := by
    unfold countTasks
    rw [countP_append_single _ l _ hlp]
    simp [hproj₃]
  have hcountc : countCompletedTasks (l ++ [toggledTask now task₀]) p₂._id = 1 := by
    unfold countCompletedTasks
    rw [countP_append_single _ l _ (fun x hx => by simp [hlp x hx])]
    simp [hproj₃, hcomp₃]
  have hacc : findAccessibleProject
      (record (updateProjectTaskCounts (saveTask s₂ task₀._id (toggledTask now task₀)) p₂._id)
        ⟨U, p₂._id, p₂.title, some (toggledTask now task₀)._id, (toggledTask now task₀).title,
          completionType (toggledTask now task₀).completed⟩) p₂._id U
      = some { p₂ with tasksCount := 1, completedTasksCount := 1 } := by
    unfold findAccessibleProject
    simp only [record_projects, updateProjectTaskCounts, saveTask_projects, hprojs, htasks₃,
      hcount, hcountc]
    rw [updateFirst_append_single (fun p => p._id == p₂._id) _ ps p₂ hps (by simp)]
    refine find?_append_single _ ps _ ?_ ?_
    · intro q hq
      simp [hps q hq]
    · simp [hown]
  unfold getProjectStats
  rw [hacc]
  simp only [record_tasks, updateProjectTaskCounts_tasks, htasks₃]
  rw [taskStats_single_completed l _ _ hlp hproj₃ hstat₃]
  have hprog : progress 1 1 = 100 := by decide
  simp [hprog]

theorem updateProjectTaskCounts_append (s : Store) (ps : List Project) (p : Project)
    (n : ObjectId) (hps : s.projects = ps ++ [p]) (h : ∀ q ∈ ps, (q._id == n) = false)
    (hp : p._id = n) :
    ∃ p', (updateProjectTaskCounts s n).projects = ps ++ [p'] ∧ p'._id = n
      ∧ p'.owner = p.owner := by
  refine ⟨{ p with tasksCount := countTasks s.tasks n
                   completedTasksCount := countCompletedTasks s.tasks n }, ?_, hp, rfl⟩
  simp only [updateProjectTaskCounts, hps]
  exact updateFirst_append_single (fun q => q._id == n) _ ps p h (by simp [hp])

/-- C13. From every store that satisfies the store invariant (every reachable
store does), when user `U` creates a project, creates a task in it and toggles
that task, the toggle succeeds and the project's stats are `{totalTasks: 1,
completedTasks: 1, inProgressTasks: 0, progress: 100, tasksByStatus:
{completed: 1}}`.  The new project has the id `s.nextId` and the new task the
id `s.nextId + 1`. -/
theorem scenario_stats (s : Store) (U now₁ now₂ : Nat) (pbody : CreateProjectBody)
    (tbody : CreateTaskBody) (hc : Consistent s)
    (h1 : (createProject s U pbody).status = 201)
    (hP : tbody.projectId = some s.nextId)
    (h2 : (createTask (createProject s U pbody).store U now₁ tbody).status = 201) :
    (toggleTask (createTask (createProject s U pbody).store U now₁ tbody).store U now₂
        (s.nextId + 1)).status = 200
      ∧ getProjectStats
          (toggleTask (createTask (createProject s U pbody).store U now₁ tbody).store U now₂
            (s.nextId + 1)).store U s.nextId
        = (200, some
            { totalTasks := 1, completedTasks := 1, inProgressTasks := 0, progress := 100,
              tasksByStatus := [(TaskStatus.completed, 1)] }) := by
  obtain ⟨_, hpf, htf, htp, _⟩ := hc
  have hPn : ∀ q ∈ s.projects, (q._id == s.nextId) = false := by
    intro q hq
    have hlt : q._id < s.nextId := hpf _ (List.mem_map_of_mem (fun p : Project => p._id) hq)
    simp only [beq_eq_false_iff_ne, ne_eq]
    exact Nat.ne_of_lt hlt
  have hTn : ∀ x ∈ s.tasks, (x._id == s.nextId + 1) = false := by
    intro x hx
    have hlt : x._id < s.nextId := htf _ (List.mem_map_of_mem (fun t : Task => t._id) hx)
    simp only [beq_eq_false_iff_ne, ne_eq]
    exact Nat.ne_of_lt (Nat.lt_succ_of_lt hlt)
  have hTp : ∀ x ∈ s.tasks, (x.project == s.nextId) = false := by
    intro x hx
    have hlt : x.project < s.nextId :=
      hpf _ (htp _ (List.mem_map_of_mem (fun t : Task => t.project) hx))
    simp only [beq_eq_false_iff_ne, ne_eq]
    exact Nat.ne_of_lt hlt
  obtain ⟨_, project, _, _, hnew, hs1⟩ := createProject_ok h1
  obtain ⟨hpid, hpo, _⟩ := newProject_some hnew
  rw [hs1] at h2 ⊢
  obtain ⟨_, P, _, t, _, hP', _, hnewt, hs2⟩ := createTask_ok h2
  rw [hP] at hP'
  cases hP'
  obtain ⟨htid, htproj, _, _, htc, _⟩ := newTask_some hnewt
  obtain ⟨q1, q2, _⟩ := preSave_fields false now₁ t
  have q5 : (preSave false now₁ t).completed = false := by
    rw [preSave_completed]
    simpa using htc
  have hid₀ : (preSave false now₁ t)._id = s.nextId + 1 := q1.trans htid
  have hproj₀ : (preSave false now₁ t).project = s.nextId := q2.trans htproj
  obtain ⟨p₂, hprojs, hp₂id, hp₂own⟩ :=
    updateProjectTaskCounts_append
      { users := s.users, projects := s.projects ++ [project],
        tasks := s.tasks ++ [preSave false now₁ t],
        activities := s.activities ++ [⟨U, project._id, project.title, none, project.title,
          ActivityType.project_created⟩],
        nextId := s.nextId + 1 + 1 }
      s.projects project s.nextId rfl hPn hpid
  have key : ∀ S₂ : Store, S₂.tasks = s.tasks ++ [preSave false now₁ t] →
      S₂.projects = s.projects ++ [p₂] →
      (toggleTask S₂ U now₂ (s.nextId + 1)).status = 200
        ∧ getProjectStats (toggleTask S₂ U now₂ (s.nextId + 1)).store U s.nextId
          = (200, some
              { totalTasks := 1, completedTasks := 1, inProgressTasks := 0, progress := 100,
                tasksByStatus := [(TaskStatus.completed, 1)] }) := by
    intro S₂ hT hPr
    have k := stats_after_toggle S₂ s.tasks s.projects (preSave false now₁ t) p₂ U now₂ hT hPr
      (by rw [hid₀]; exact hTn) (by rw [hp₂id]; exact hTp) (by rw [hp₂id]; exact hPn)
      (hp₂own.trans hpo) (hproj₀.trans hp₂id.symm) q5
    rw [hid₀, hp₂id] at k
    exact k
  exact key _ (by rw [hs2]; rfl) (by rw [hs2]; exact hprojs)

/-! ## Paging of the activity feed -/

theorem unitFor_pos_le (m : Nat) (fuel u : Nat) (hu : 0 < u) (hle : u ≤ m) :
    0 < unitFor m fuel u ∧ unitFor m fuel u ≤ m := by
  induction fuel generalizing u with
  | zero => exact ⟨hu, hle⟩
  | succ fuel ih =>
    simp only [unitFor]
    split_ifs with h
    · exact ⟨hu, hle⟩
    · apply ih
      · omega
      · have h53 : (2 : Nat) ≤ 2 ^ 53 := by decide
        have : 2 * u ≤ 2 ^ 53 * u := Nat.mul_le_mul_right u h53
        omega

theorem div_le_roundHalfEven (num den : Nat) : num / den ≤ roundHalfEven num den := by
  unfold roundHalfEven
  simp only
  split_ifs <;> omega

theorem roundNat_pos {m : Nat} (h : 1 ≤ m) : 1 ≤ roundNat m := by
  unfold roundNat
  split_ifs with hm
  · exact h
  · simp only
    have hm' : 1 ≤ m := h
    obtain ⟨hu, hle⟩ := unitFor_pos_le m (m + 1) 1 (by decide) hm'
    have hq : 1 ≤ m / unitFor m (m + 1) 1 := (Nat.one_le_div_iff hu).2 hle
    have hr := div_le_roundHalfEven m (unitFor m (m + 1) 1)
    exact Nat.mul_pos (by omega) hu

theorem roundNat_small {m : Nat} (h : m < 2 ^ 53) : roundNat m = m := by
  unfold roundNat
  rw [if_pos h]

theorem overflowBound_gt : 2 ^ 53 < overflowBound := by
  decide

/-- The binary64 value of a small integer is that integer. -/
theorem toNumber_small {n : Int} (h : n.natAbs < 2 ^ 53) : toNumber n = JsNumber.finite n := by
  unfold toNumber
  simp only [roundNat_small h]
  have hb := overflowBound_gt
  rw [if_neg (by omega)]
  congr 1
  split_ifs with hn <;> omega

/-- The binary64 value of a natural number is `+Infinity` or a natural number,
which is positive when the number is. -/
theorem toNumber_nonneg {n : Int} (h : 0 ≤ n) :
    toNumber n = JsNumber.posInf
      ∨ ∃ m : Int, toNumber n = JsNumber.finite m ∧ 0 ≤ m ∧ (1 ≤ n → 1 ≤ m) ∧ (n = 0 → m = 0) := by
  unfold toNumber
  simp only
  have hneg : ¬ n < 0 := by omega
  by_cases hov : overflowBound ≤ roundNat n.natAbs
  · left
    rw [if_pos hov, if_neg hneg]
  · right
    rw [if_neg hov, if_neg hneg]
    refine ⟨_, rfl, by omega, ?_, ?_⟩
    · intro h1
      have : 1 ≤ roundNat n.natAbs := roundNat_pos (by omega)
      omega
    · intro h0
      rw [h0]
      decide

/-- A number read by `parseInt` that is not negative is `NaN`, `+Infinity` or a
natural number. -/
theorem JsNumber.not_negative_cases {a : JsNumber} (h : a.isNegative = false) :
    a = JsNumber.nan ∨ a = JsNumber.posInf ∨ ∃ n : Int, a = JsNumber.finite n ∧ 0 ≤ n := by
  cases a with
  | finite n =>
    right
    right
    refine ⟨n, rfl, ?_⟩
    simpa [JsNumber.isNegative] using h
  | posInf => exact Or.inr (Or.inl rfl)
  | negInf => simp [JsNumber.isNegative] at h
  | nan => exact Or.inl rfl

/-- The `value || fallback` of a number that is not negative, with a positive
fallback, is `+Infinity` or a positive integer. -/
theorem orDefault_positive {a : JsNumber} {d : Int} (h : a.isNegative = false) (hd : 1 ≤ d) :
    orDefault a (JsNumber.finite d) = JsNumber.posInf
      ∨ ∃ n : Int, orDefault a (JsNumber.finite d) = JsNumber.finite n ∧ 1 ≤ n := by
  rcases JsNumber.not_negative_cases h with rfl | rfl | ⟨n, rfl, hn⟩
  · right
    exact ⟨d, by simp [orDefault], hd⟩
  · left
    simp [orDefault]
  · right
    by_cases h0 : n = 0
    · exact ⟨d, by simp [orDefault, h0], hd⟩
    · exact ⟨n, by simp [orDefault, h0], by omega⟩

/-- The `value || fallback` of a number is neither zero nor `NaN` when the
fallback is neither. -/
theorem orDefault_truthy (a d : JsNumber) (h0 : d ≠ JsNumber.finite 0) (hn : d ≠ JsNumber.nan) :
    orDefault a d ≠ JsNumber.finite 0 ∧ orDefault a d ≠ JsNumber.nan := by
  unfold orDefault
  split_ifs with h
  · exact ⟨h0, hn⟩
  · exact ⟨fun e => h (Or.inr e), fun e => h (Or.inl e)⟩

/-- C14 (amended). For every activity-feed request, `limit` and `page` are 20
and 1 when the query parameter is absent, not numeric or reads as 0, and are
otherwise the binary64 number `parseInt` reads, negative ones and `Infinity`
included; `skip` is the binary64 value of `(page - 1) * limit`, which is the
exact integer while `page - 1` and the product stay below `2^53` in magnitude.
When the numbers read are not negative, `page >= 1` and `limit >= 1`, and
`skip >= 0` except when `limit` is `Infinity` and `page` is 1, where `skip` is
`NaN`. -/
theorem feedPaging_values (limit page : Option String) :
    (feedPaging limit page).limit
        = (if parseInt limit = JsNumber.nan ∨ parseInt limit = JsNumber.finite 0
            then JsNumber.finite 20 else parseInt limit)
      ∧ (feedPaging limit page).page
        = (if parseInt page = JsNumber.nan ∨ parseInt page = JsNumber.finite 0
            then JsNumber.finite 1 else parseInt page)
      ∧ (feedPaging limit page).skip
        = ((feedPaging limit page).page.sub (JsNumber.finite 1)).mul (feedPaging limit page).limit
      ∧ (feedPaging limit page).limit ≠ JsNumber.finite 0
      ∧ (feedPaging limit page).limit ≠ JsNumber.nan
      ∧ (feedPaging limit page).page ≠ JsNumber.finite 0
      ∧ (feedPaging limit page).page ≠ JsNumber.nan
      ∧ feedPaging none none = ⟨JsNumber.finite 20, JsNumber.finite 1, JsNumber.finite 0⟩
      ∧ (∀ l p : Int, (feedPaging limit page).limit = JsNumber.finite l →
          (feedPaging limit page).page = JsNumber.finite p →
          (p - 1).natAbs < 2 ^ 53 → ((p - 1) * l).natAbs < 2 ^ 53 →
          (feedPaging limit page).skip = JsNumber.finite ((p - 1) * l))
      ∧ ((parseInt limit).isNegative = false → (parseInt page).isNegative = false →
          (feedPaging limit page).limit.atLeast 1 ∧ (feedPaging limit page).page.atLeast 1
            ∧ ((feedPaging limit page).skip.atLeast 0
              ∨ ((feedPaging limit page).limit = JsNumber.posInf
                ∧ (feedPaging limit page).page = JsNumber.finite 1
                ∧ (feedPaging limit page).skip = JsNumber.nan))) := by
  have hl : (feedPaging limit page).limit = orDefault (parseInt limit) (JsNumber.finite 20) := rfl
  have hp : (feedPaging limit page).page = orDefault (parseInt page) (JsNumber.finite 1) := rfl
  have hs : (feedPaging limit page).skip
      = ((feedPaging limit page).page.sub (JsNumber.finite 1)).mul
          (feedPaging limit page).limit := rfl
  have hlt := orDefault_truthy (parseInt limit) (JsNumber.finite 20) (by decide) (by decide)
  have hpt := orDefault_truthy (parseInt page) (JsNumber.finite 1) (by decide) (by decide)
  refine ⟨hl, hp, hs, by rw [hl]; exact hlt.1, by rw [hl]; exact hlt.2, by rw [hp]; exact hpt.1,
    by rw [hp]; exact hpt.2, by decide, ?_, ?_⟩
  · intro l p hL hP h1 h2
    rw [hs, hL, hP]
    show (toNumber (p - 1)).mul (JsNumber.finite l) = JsNumber.finite ((p - 1) * l)
    rw [toNumber_small h1]
    show toNumber ((p - 1) * l) = JsNumber.finite ((p - 1) * l)
    exact toNumber_small h2
  · intro hln hpn
    rw [hs, hl, hp]
    rcases orDefault_positive hln (by decide : (1 : Int) ≤ 20) with hL | ⟨l, hL, hl1⟩ <;>
      rcases orDefault_positive hpn (by decide : (1 : Int) ≤ 1) with hP | ⟨p, hP, hp1⟩ <;>
      rw [hL, hP]
    · refine ⟨trivial, trivial, Or.inl ?_⟩
      decide
    · refine ⟨trivial, hp1, ?_⟩
      have hsub : (JsNumber.finite p).sub (JsNumber.finite 1) = toNumber (p - 1) := rfl
      rw [hsub]
      rcases toNumber_nonneg (by omega : (0 : Int) ≤ p - 1) with h | ⟨m, h, hm0, hm1, _⟩
      · rw [h]
        left
        decide
      · rw [h]
        by_cases hm : m = 0
        · right
          have hp' : p = 1 := by
            by_contra hne
            have := hm1 (by omega)
            omega
          subst hm
          subst hp'
          exact ⟨rfl, rfl, by decide⟩
        · left
          have hneg : ¬ m < 0 := by omega
          simp [JsNumber.mul, JsNumber.isNegative, hm, hneg, JsNumber.atLeast]
    · refine ⟨hl1, trivial, Or.inl ?_⟩
      have hl0 : l ≠ 0 := by omega
      have hneg : ¬ l < 0 := by omega
      simp [JsNumber.sub, JsNumber.mul, JsNumber.isNegative, hl0, hneg, JsNumber.atLeast]
    · refine ⟨hl1, hp1, Or.inl ?_⟩
      have hsub : (JsNumber.finite p).sub (JsNumber.finite 1) = toNumber (p - 1) := rfl
      rw [hsub]
      rcases toNumber_nonneg (by omega : (0 : Int) ≤ p - 1) with h | ⟨m, h, hm0, _, _⟩
      · rw [h]
        have hl0 : l ≠ 0 := by omega
        have hneg : ¬ l < 0 := by omega
        simp [JsNumber.mul, JsNumber.isNegative, hl0, hneg, JsNumber.atLeast]
      · rw [h]
        have hmul : (JsNumber.finite m).mul (JsNumber.finite l) = toNumber (m * l) := rfl
        rw [hmul]
        rcases toNumber_nonneg (Int.mul_nonneg hm0 (by omega : (0 : Int) ≤ l))
          with h' | ⟨k, h', hk0, _, _⟩
        · rw [h']
          trivial
        · rw [h']
          exact hk0

/-- C14 (counterexample). The request `?limit=10&page=-1` is served with
`page = -1` and `skip = -20`: the negative page is not clamped. -/
theorem feedPaging_negative_page :
    (feedPaging (some "10") (some "-1")).page = JsNumber.finite (-1)
      ∧ (feedPaging (some "10") (some "-1")).limit = JsNumber.finite 10
      ∧ (feedPaging (some "10") (some "-1")).skip = JsNumber.finite (-20)
      ∧ ¬ (feedPaging (some "10") (some "-1")).page.atLeast 1
      ∧ ¬ (feedPaging (some "10") (some "-1")).skip.atLeast 0
      ∧ (feedPaging (some "-5") none).limit = JsNumber.finite (-5) := by
  decide

set_option maxRecDepth 100000 in
/-- C14 (instances). `?limit=10&page=3` is served with `skip = 20`;
`?limit=20&page=9007199254740993` with `page = 9007199254740992` and
`skip = 180143985094819808`, the binary64 values; and a `limit` of 1 followed by
400 zeros with `page=1` gives `limit = Infinity` and `skip = NaN`. -/
theorem feedPaging_values_witness :
    feedPaging (some "10") (some "3")
        = ⟨JsNumber.finite 10, JsNumber.finite 3, JsNumber.finite 20⟩
      ∧ ((feedPaging (some "10") (some "3")).limit.atLeast 1
        ∧ (feedPaging (some "10") (some "3")).page.atLeast 1
        ∧ ((feedPaging (some "10") (some "3")).skip.atLeast 0
          ∨ ((feedPaging (some "10") (some "3")).limit = JsNumber.posInf
            ∧ (feedPaging (some "10") (some "3")).page = JsNumber.finite 1
            ∧ (feedPaging (some "10") (some "3")).skip = JsNumber.nan)))
      ∧ (feedPaging (some "10") (some "3")).skip = JsNumber.finite ((3 - 1) * 10)
      ∧ feedPaging (some "20") (some "9007199254740993")
        = ⟨JsNumber.finite 20, JsNumber.finite 9007199254740992,
            JsNumber.finite 180143985094819808⟩
      ∧ feedPaging (some (String.mk ('1' :: List.replicate 400 '0'))) (some "1")
        = ⟨JsNumber.posInf, JsNumber.finite 1, JsNumber.nan⟩ :=
  ⟨by decide,
    (feedPaging_values (some "10") (some "3")).2.2.2.2.2.2.2.2.2 (by decide) (by decide),
    (feedPaging_values (some "10") (some "3")).2.2.2.2.2.2.2.2.1 10 3 (by decide) (by decide)
      (by decide) (by decide),
    by decide, by decide⟩

/-! ## The activity feed is append-only -/

/-- Every request leaves the feed as it was or appends one entry to it. -/
theorem handle_activities (s : Store) (r : Request) :
    (handle s r).store.activities = s.activities
      ∨ ∃ a, (handle s r).store.activities = s.activities ++ [a] := by
  cases r with
  | createProject user body =>
    simp only [handle]
    by_cases h : (createProject s user body).status = 201
    · obtain ⟨_, _, _, _, _, hs⟩ := createProject_ok h
      exact Or.inr ⟨_, by rw [hs]; rfl⟩
    · exact Or.inl (by rw [createProject_rejected h])
  | updateProject user id body =>
    simp only [handle]
    by_cases h : (updateProject s user id body).status = 200
    · obtain ⟨_, _, _, _, hs⟩ := updateProject_ok h
      exact Or.inr ⟨_, by rw [hs]; rfl⟩
    · exact Or.inl (by rw [updateProject_rejected h])
  | deleteProject user id =>
    simp only [handle]
    by_cases h : (deleteProject s user id).status = 200
    · obtain ⟨_, _, hs⟩ := deleteProject_ok h
      exact Or.inr ⟨_, by rw [hs]⟩
    · exact Or.inl (by rw [deleteProject_rejected h])
  | addCollaborator user id body =>
    simp only [handle]
    rcases addCollaborator_store s user id body with h | ⟨_, _, _, _, _, _, _, _, hs⟩
    · exact Or.inl (by rw [h])
    · exact Or.inl (by rw [hs]; rfl)
  | removeCollaborator user id userId =>
    simp only [handle]
    rcases removeCollaborator_store s user id userId with h | ⟨_, _, _, hs⟩
    · exact Or.inl (by rw [h])
    · exact Or.inl (by rw [hs]; rfl)
  | createTask user now body =>
    simp only [handle]
    by_cases h : (createTask s user now body).status = 201
    · obtain ⟨_, _, _, _, _, _, _, _, hs⟩ := createTask_ok h
      exact Or.inr ⟨_, by rw [hs]; rfl⟩
    · exact Or.inl (by rw [createTask_rejected h])
  | updateTask user now id body =>
    simp only [handle]
    by_cases h : (updateTask s user now id body).status = 200
    · obtain ⟨task, _, saved, _, _, _, _, hs⟩ := updateTask_ok h
      by_cases hc : task.completed = saved.completed
      · exact Or.inl (by rw [hs, if_pos hc]; rfl)
      · exact Or.inr ⟨_, by rw [hs, if_neg hc]; rfl⟩
    · exact Or.inl (by rw [updateTask_rejected h])
  | deleteTask user id =>
    simp only [handle]
    by_cases h : (deleteTask s user id).status = 200
    · obtain ⟨_, _, _, _, _, hs⟩ := deleteTask_ok h
      exact Or.inr ⟨_, by rw [hs]; rfl⟩
    · exact Or.inl (by rw [deleteTask_rejected h])
  | toggleTask user now id =>
    simp only [handle]
    by_cases h : (toggleTask s user now id).status = 200
    · obtain ⟨_, _, _, _, _, hs⟩ := toggleTask_ok h
      exact Or.inr ⟨_, by rw [hs]; rfl⟩
    · exact Or.inl (by rw [toggleTask_rejected h])
  | reorderTasks user body =>
    simp only [handle]
    by_cases h : (reorderTasks s user body).status = 200
    · obtain ⟨_, _, _, _, _, _, hs⟩ := reorderTasks_ok h
      exact Or.inl (by rw [hs])
    · exact Or.inl (by rw [reorderTasks_rejected h])

/-- C15. The activity feed is append-only: after any sequence of requests the
feed is the feed from before followed by the new entries, at most one a
request, so every entry present before is still there, at its place and with
all its fields (the `projectName` and `task` snapshots included) unchanged. -/
theorem activities_append_only (s : Store) (rs : List Request) :
    ∃ new : List ActivityFeed,
      (run s rs).activities = s.activities ++ new ∧ new.length ≤ rs.length := by
  induction rs generalizing s with
  | nil => exact ⟨[], by simp [run], le_refl _⟩
  | cons r rs ih =>
    obtain ⟨new, hnew, hlen⟩ := ih (handle s r).store
    simp only [run, List.length_cons]
    rcases handle_activities s r with h | ⟨a, h⟩
    · refine ⟨new, ?_, Nat.le_succ_of_le hlen⟩
      rw [hnew, h]
    · refine ⟨a :: new, ?_, ?_⟩
      · rw [hnew, h, List.append_assoc]
        rfl
      · simpa using hlen

/-! ## Activity entries of the lifecycle events -/

/-- Reading a project back after `project.save()`. -/
theorem findProject_saveProject {s : Store} {id user : ObjectId} {project p : Project}
    (h : findOwnedProject s id user = some project) (hid : p._id = id) :
    findProject (saveProject s project._id p) id = some p := by
  obtain ⟨hmem, hpid, _⟩ := findOwnedProject_some h
  simp only [findProject, saveProject, hpid]
  rw [find?_updateFirst_self _ _ (fun _ _ => by simpa using hid)]
  cases hf : s.projects.find? (fun x => x._id == id) with
  | none =>
    have := List.find?_eq_none.1 hf project hmem
    simp [hpid] at this
  | some x => rfl

/-- A request answered with 400, 403 or 404 leaves the store as it was. -/
theorem handle_rejected (s : Store) (r : Request)
    (h : (handle s r).status = 400 ∨ (handle s r).status = 403 ∨ (handle s r).status = 404) :
    (handle s r).store = s := by
  cases r with
  | createProject user body =>
    simp only [handle] at h ⊢
    exact createProject_rejected (by omega)
  | updateProject user id body =>
    simp only [handle] at h ⊢
    exact updateProject_rejected (by omega)
  | deleteProject user id =>
    simp only [handle] at h ⊢
    exact deleteProject_rejected (by omega)
  | addCollaborator user id body =>
    simp only [handle] at h ⊢
    rcases addCollaborator_store s user id body with hs | ⟨_, _, _, _, _, _, _, hst, _⟩
    · exact hs
    · omega
  | removeCollaborator user id userId =>
    simp only [handle] at h ⊢
    rcases removeCollaborator_store s user id userId with hs | ⟨_, _, hst, _⟩
    · exact hs
    · omega
  | createTask user now body =>
    simp only [handle] at h ⊢
    exact createTask_rejected (by omega)
  | updateTask user now id body =>
    simp only [handle] at h ⊢
    exact updateTask_rejected (by omega)
  | deleteTask user id =>
    simp only [handle] at h ⊢
    exact deleteTask_rejected (by omega)
  | toggleTask user now id =>
    simp only [handle] at h ⊢
    exact toggleTask_rejected (by omega)
  | reorderTasks user body =>
    simp only [handle] at h ⊢
    exact reorderTasks_rejected (by omega)

/-- C16. Every successful project create, project update, project delete, task
create and task delete appends exactly one activity entry: its `user` is the
caller, its type is `project_created`, `project_updated`, `project_deleted`,
`task_created` or `task_deleted`, its `projectName` is the title of the project
as stored at that moment (the new title after an update, the title of the
deleted project), and its `task` field is the task's title for the task events
and the project's title for the project events.  A request answered with 400,
403 or 404 leaves the store, and so the feed, as it was. -/
theorem lifecycle_activity (s : Store) (user : ObjectId) :
    (∀ body, (createProject s user body).status = 201 →
        ∃ project, (createProject s user body).store.projects = s.projects ++ [project]
          ∧ (createProject s user body).store.activities
            = s.activities ++ [⟨user, project._id, project.title, none, project.title,
                ActivityType.project_created⟩])
      ∧ (∀ id body, (updateProject s user id body).status = 200 →
        ∃ p, findProject (updateProject s user id body).store id = some p
          ∧ (updateProject s user id body).store.activities
            = s.activities ++ [⟨user, id, p.title, none, p.title,
                ActivityType.project_updated⟩])
      ∧ (∀ id, (deleteProject s user id).status = 200 →
        ∃ project, findOwnedProject s id user = some project
          ∧ (deleteProject s user id).store.activities
            = s.activities ++ [⟨user, id, project.title, none, project.title,
                ActivityType.project_deleted⟩])
      ∧ (∀ now body, (createTask s user now body).status = 201 →
        ∃ P project task, body.projectId = some P ∧ findOwnedProject s P user = some project
          ∧ (createTask s user now body).store.tasks = s.tasks ++ [task]
          ∧ (createTask s user now body).store.activities
            = s.activities ++ [⟨user, P, project.title, some task._id, task.title,
                ActivityType.task_created⟩])
      ∧ (∀ id, (deleteTask s user id).status = 200 →
        ∃ task project, findTask s id = some task ∧ findProject s task.project = some project
          ∧ (deleteTask s user id).store.activities
            = s.activities ++ [⟨user, task.project, project.title, none, task.title,
                ActivityType.task_deleted⟩])
      ∧ (∀ r : Request,
          (handle s r).status = 400 ∨ (handle s r).status = 403 ∨ (handle s r).status = 404 →
          (handle s r).store = s) := by
  refine ⟨?_, ?_, ?_, ?_, ?_, handle_rejected s⟩
  · intro body h
    obtain ⟨_, project, _, _, _, hs⟩ := createProject_ok h
    exact ⟨project, by rw [hs]; rfl, by rw [hs]; rfl⟩
  · intro id body h
    obtain ⟨project, p, hp, ha, hs⟩ := updateProject_ok h
    obtain ⟨hid, _⟩ := assignProjectFields_some ha
    have hpid := (findOwnedProject_some hp).2.1
    refine ⟨p, ?_, ?_⟩
    · rw [hs, findProject_record]
      exact findProject_saveProject hp (hid.trans hpid)
    · rw [hs, ← hpid, ← hid]
      rfl
  · intro id h
    obtain ⟨project, hp, hs⟩ := deleteProject_ok h
    have hpid := (findOwnedProject_some hp).2.1
    exact ⟨project, hp, by rw [hs, hpid]⟩
  · intro now body h
    obtain ⟨_, P, project, t, _, hP, hp, _, hs⟩ := createTask_ok h
    exact ⟨P, project, preSave false now t, hP, hp, by rw [hs]; rfl, by rw [hs]; rfl⟩
  · intro id h
    obtain ⟨task, project, ht, hp, _, hs⟩ := deleteTask_ok h
    refine ⟨task, project, ht, hp, ?_⟩
    rw [hs, findProject_id hp]
    rfl

/-- Instances of `lifecycle_activity`.  In `sessionStore` user 1 owns the project
"Sprint 1" (id 0) with the task "Design" (id 1).  Creating the project, renaming
it to " Sprint 2 " (stored trimmed), deleting it, adding the task "Build" and
deleting the task "Design" each succeed and append the one entry stated; the
update by user 2 is answered 404 and changes nothing. -/
theorem lifecycle_activity_witness :
    ((createProject (emptyStore []) 1 sprintBody).status = 201
        ∧ (createProject (emptyStore []) 1 sprintBody).store.activities
          = [⟨1, 0, "Sprint 1", none, "Sprint 1", ActivityType.project_created⟩]
        ∧ ∃ project, (createProject (emptyStore []) 1 sprintBody).store.projects
            = (emptyStore []).projects ++ [project]
          ∧ (createProject (emptyStore []) 1 sprintBody).store.activities
            = (emptyStore []).activities ++ [⟨1, project._id, project.title, none, project.title,
                ActivityType.project_created⟩])
      ∧ ((updateProject sessionStore 1 0 renameBody).status = 200
        ∧ (findProject (updateProject sessionStore 1 0 renameBody).store 0).map
            (fun p => (p.title, p.status)) = some ("Sprint 2", ProjectStatus.archived)
        ∧ (updateProject sessionStore 1 0 renameBody).store.activities
          = sessionStore.activities
            ++ [⟨1, 0, "Sprint 2", none, "Sprint 2", ActivityType.project_updated⟩]
        ∧ ∃ p, findProject (updateProject sessionStore 1 0 renameBody).store 0 = some p
          ∧ (updateProject sessionStore 1 0 renameBody).store.activities
            = sessionStore.activities ++ [⟨1, 0, p.title, none, p.title,
                ActivityType.project_updated⟩])
      ∧ ((deleteProject sessionStore 1 0).status = 200
        ∧ (deleteProject sessionStore 1 0).store.activities
          = sessionStore.activities
            ++ [⟨1, 0, "Sprint 1", none, "Sprint 1", ActivityType.project_deleted⟩]
        ∧ ∃ project, findOwnedProject sessionStore 0 1 = some project
          ∧ (deleteProject sessionStore 1 0).store.activities
            = sessionStore.activities ++ [⟨1, 0, project.title, none, project.title,
                ActivityType.project_deleted⟩])
      ∧ ((createTask sessionStore 1 12 buildBody).status = 201
        ∧ (createTask sessionStore 1 12 buildBody).store.activities
          = sessionStore.activities
            ++ [⟨1, 0, "Sprint 1", some 2, "Build", ActivityType.task_created⟩]
        ∧ ∃ P project task, buildBody.projectId = some P
          ∧ findOwnedProject sessionStore P 1 = some project
          ∧ (createTask sessionStore 1 12 buildBody).store.tasks = sessionStore.tasks ++ [task]
          ∧ (createTask sessionStore 1 12 buildBody).store.activities
            = sessionStore.activities ++ [⟨1, P, project.title, some task._id, task.title,
                ActivityType.task_created⟩])
      ∧ ((deleteTask sessionStore 1 1).status = 200
        ∧ (deleteTask sessionStore 1 1).store.activities
          = sessionStore.activities
            ++ [⟨1, 0, "Sprint 1", none, "Design", ActivityType.task_deleted⟩]
        ∧ ∃ task project, findTask sessionStore 1 = some task
          ∧ findProject sessionStore task.project = some project
          ∧ (deleteTask sessionStore 1 1).store.activities
            = sessionStore.activities ++ [⟨1, task.project, project.title, none, task.title,
                ActivityType.task_deleted⟩])
      ∧ ((handle sessionStore (Request.updateProject 2 0 renameBody)).status = 404
        ∧ (handle sessionStore (Request.updateProject 2 0 renameBody)).store = sessionStore) :=
  ⟨⟨by decide, by decide, (lifecycle_activity (emptyStore []) 1).1 sprintBody (by decide)⟩,
    ⟨by decide, by decide, by decide,
      (lifecycle_activity sessionStore 1).2.1 0 renameBody (by decide)⟩,
    ⟨by decide, by decide, (lifecycle_activity sessionStore 1).2.2.1 0 (by decide)⟩,
    ⟨by decide, by decide, (lifecycle_activity sessionStore 1).2.2.2.1 12 buildBody (by decide)⟩,
    ⟨by decide, by decide, (lifecycle_activity sessionStore 1).2.2.2.2.1 1 (by decide)⟩,
    ⟨by decide,
      (lifecycle_activity sessionStore 1).2.2.2.2.2 (Request.updateProject 2 0 renameBody)
        (Or.inr (Or.inr (by decide)))⟩⟩

/-! ## Collaborators -/

theorem mem_saveProject {s : Store} {id : ObjectId} {p z : Project}
    (h : z ∈ (saveProject s id p).projects) : z ∈ s.projects ∨ z = p := by
  simp only [saveProject] at h
  rcases mem_updateFirst h with h | ⟨_, _, _, h⟩
  · exact Or.inl h
  · exact Or.inr h

theorem collaboratorsUnique_recount {s : Store} (P : ObjectId) (h : CollaboratorsUnique s) :
    CollaboratorsUnique (updateProjectTaskCounts s P) := by
  intro z hz
  simp only [updateProjectTaskCounts] at hz
  rcases mem_updateFirst hz with hz | ⟨y, hy, _, hz⟩
  · exact h z hz
  · rw [hz]
    exact h y hy

theorem collaboratorsUnique_of_projects {s s' : Store} (hp : s'.projects = s.projects)
    (h : CollaboratorsUnique s) : CollaboratorsUnique s' := by
  intro z hz
  rw [hp] at hz
  exact h z hz

theorem find?_user_eq_none {cs : List Collaborator} {u : ObjectId}
    (h : cs.find? (fun collab => collab.user == u) = none) :
    u ∉ cs.map (fun c => c.user) := by
  intro hmem
  obtain ⟨c, hc, hcu⟩ := List.mem_map.1 hmem
  have := List.find?_eq_none.1 h c hc
  simp [hcu] at this

/-- Every request keeps the collaborator invariant. -/
theorem handle_collaboratorsUnique {s : Store} (r : Request) (h : CollaboratorsUnique s) :
    CollaboratorsUnique (handle s r).store := by
  cases r with
  | createProject user body =>
    simp only [handle]
    by_cases hst : (createProject s user body).status = 201
    · obtain ⟨_, project, _, _, hnew, hs⟩ := createProject_ok hst
      obtain ⟨_, _, hcol, _⟩ := newProject_some hnew
      rw [hs]
      intro z hz
      simp only [record_projects, List.mem_append, List.mem_singleton] at hz
      rcases hz with hz | hz
      · exact h z hz
      · rw [hz, hcol]
        exact List.nodup_nil
    · rw [createProject_rejected hst]
      exact h
  | updateProject user id body =>
    simp only [handle]
    by_cases hst : (updateProject s user id body).status = 200
    · obtain ⟨project, p, hp, ha, hs⟩ := updateProject_ok hst
      obtain ⟨_, _, hcol, _⟩ := assignProjectFields_some ha
      rw [hs]
      intro z hz
      rcases mem_saveProject hz with hz | hz
      · exact h z hz
      · rw [hz, hcol]
        exact h project (findOwnedProject_some hp).1
    · rw [updateProject_rejected hst]
      exact h
  | deleteProject user id =>
    simp only [handle]
    by_cases hst : (deleteProject s user id).status = 200
    · obtain ⟨_, _, hs⟩ := deleteProject_ok hst
      rw [hs]
      intro z hz
      exact h z ((List.eraseP_sublist _).subset hz)
    · rw [deleteProject_rejected hst]
      exact h
  | addCollaborator user id body =>
    simp only [handle]
    rcases addCollaborator_store s user id body with hs | ⟨project, u, role, hp, _, hnone, _, _, hs⟩
    · rw [hs]
      exact h
    · rw [hs]
      intro z hz
      rcases mem_saveProject hz with hz | hz
      · exact h z hz
      · rw [hz]
        simp only [List.map_append, List.map_cons, List.map_nil]
        rw [List.nodup_append]
        refine ⟨h project (findOwnedProject_some hp).1, List.nodup_singleton _, ?_⟩
        intro i hi hi'
        rw [List.mem_singleton] at hi'
        rw [hi'] at hi
        exact find?_user_eq_none hnone hi
  | removeCollaborator user id userId =>
    simp only [handle]
    rcases removeCollaborator_store s user id userId with hs | ⟨project, hp, _, hs⟩
    · rw [hs]
      exact h
    · rw [hs]
      intro z hz
      rcases mem_saveProject hz with hz | hz
      · exact h z hz
      · rw [hz]
        exact List.Nodup.sublist ((List.filter_sublist _).map _)
          (h project (findOwnedProject_some hp).1)
  | createTask user now body =>
    simp only [handle]
    by_cases hst : (createTask s user now body).status = 201
    · obtain ⟨_, _, _, _, _, _, _, _, hs⟩ := createTask_ok hst
      rw [hs]
      exact collaboratorsUnique_of_projects rfl
        (collaboratorsUnique_recount _ (collaboratorsUnique_of_projects rfl h))
    · rw [createTask_rejected hst]
      exact h
  | updateTask user now id body =>
    simp only [handle]
    by_cases hst : (updateTask s user now id body).status = 200
    · obtain ⟨_, _, _, _, _, _, _, hs⟩ := updateTask_ok hst
      rw [hs]
      split_ifs
      · exact collaboratorsUnique_recount _ (collaboratorsUnique_of_projects rfl h)
      · exact collaboratorsUnique_of_projects rfl
          (collaboratorsUnique_recount _ (collaboratorsUnique_of_projects rfl h))
    · rw [updateTask_rejected hst]
      exact h
  | deleteTask user id =>
    simp only [handle]
    by_cases hst : (deleteTask s user id).status = 200
    · obtain ⟨_, _, _, _, _, hs⟩ := deleteTask_ok hst
      rw [hs]
      exact collaboratorsUnique_of_projects rfl
        (collaboratorsUnique_recount _ (collaboratorsUnique_of_projects rfl h))
    · rw [deleteTask_rejected hst]
      exact h
  | toggleTask user now id =>
    simp only [handle]
    by_cases hst : (toggleTask s user now id).status = 200
    · obtain ⟨_, _, _, _, _, hs⟩ := toggleTask_ok hst
      rw [hs]
      exact collaboratorsUnique_of_projects rfl
        (collaboratorsUnique_recount _ (collaboratorsUnique_of_projects rfl h))
    · rw [toggleTask_rejected hst]
      exact h
  | reorderTasks user body =>
    simp only [handle]
    by_cases hst : (reorderTasks s user body).status = 200
    · obtain ⟨_, _, _, _, _, _, hs⟩ := reorderTasks_ok hst
      rw [hs]
      exact collaboratorsUnique_of_projects rfl h
    · rw [reorderTasks_rejected hst]
      exact h

theorem run_collaboratorsUnique {s : Store} (rs : List Request) (h : CollaboratorsUnique s) :
    CollaboratorsUnique (run s rs) := by
  induction rs generalizing s with
  | nil => exact h
  | cons r rs ih => exact ih (handle_collaboratorsUnique r h)

theorem addCollaborator_ok {s : Store} {user id : ObjectId} {body : AddCollaboratorBody}
    (h : (addCollaborator s user id body).status = 200) :
    ∃ project u role, findOwnedProject s id user = some project
      ∧ s.users.find? (fun x => x.email == body.userEmail) = some u
      ∧ project.collaborators.find? (fun collab => collab.user == u._id) = none
      ∧ (addCollaborator s user id body).store =
          saveProject s project._id
            { project with collaborators := project.collaborators ++ [⟨u._id, role⟩] } := by
  cases hp : findOwnedProject s id user with
  | none => simp [addCollaborator, hp] at h
  | some project =>
    cases hu : s.users.find? (fun u => u.email == body.userEmail) with
    | none => simp [addCollaborator, hp, hu] at h
    | some u =>
      cases hc : project.collaborators.find? (fun collab => collab.user == u._id) with
      | some c => simp [addCollaborator, hp, hu, hc] at h
      | none =>
        cases hr : parseRole (body.role.getD "editor") with
        | none => simp [addCollaborator, hp, hu, hc, hr] at h
        | some role =>
          exact ⟨project, u, role, rfl, rfl, hc, by simp [addCollaborator, hp, hu, hc, hr]⟩

theorem removeCollaborator_ok {s : Store} {user id userId : ObjectId}
    (h : (removeCollaborator s user id userId).status = 200) :
    ∃ project, findOwnedProject s id user = some project
      ∧ (removeCollaborator s user id userId).store =
          saveProject s project._id
            { project with
              collaborators :=
                project.collaborators.filter (fun collab => !(collab.user == userId)) } := by
  cases hp : findOwnedProject s id user with
  | none => simp [removeCollaborator, hp] at h
  | some project => exact ⟨project, rfl, by simp [removeCollaborator, hp]⟩

/-- C17. In every reachable state no project's collaborators list contains a
user twice.  An add-collaborator request by the owner for a user who is already
in the list is answered 400 and changes nothing; a successful one appends
exactly one entry, for a user who was not in the list, at the end of the list;
a successful remove-collaborator leaves the prior list without the entries of
the given user, the others in their order. -/
theorem collaborators_unique (s : Store) (h : Reachable s) :
    (∀ p ∈ s.projects, (p.collaborators.map (fun c => c.user)).Nodup)
      ∧ (∀ (user id : ObjectId) (body : AddCollaboratorBody) (project : Project) (u : User),
          findOwnedProject s id user = some project →
          s.users.find? (fun x => x.email == body.userEmail) = some u →
          u._id ∈ project.collaborators.map (fun c => c.user) →
          addCollaborator s user id body = ⟨400, s⟩)
      ∧ (∀ (user id : ObjectId) (body : AddCollaboratorBody),
          (addCollaborator s user id body).status = 200 →
          ∃ project u role, findOwnedProject s id user = some project
            ∧ s.users.find? (fun x => x.email == body.userEmail) = some u
            ∧ u._id ∉ project.collaborators.map (fun c => c.user)
            ∧ findProject (addCollaborator s user id body).store id
              = some { project with
                  collaborators := project.collaborators ++ [⟨u._id, role⟩] })
      ∧ (∀ (user id userId : ObjectId),
          (removeCollaborator s user id userId).status = 200 →
          ∃ project, findOwnedProject s id user = some project
            ∧ findProject (removeCollaborator s user id userId).store id
              = some { project with
                  collaborators := project.collaborators.filter (fun c => c.user ≠ userId) }) := by
  refine ⟨?_, ?_, ?_, ?_⟩
  · obtain ⟨users, rs, rfl⟩ := h
    exact run_collaboratorsUnique rs (fun p hp => by cases hp)
  · intro user id body project u hp hu hmem
    obtain ⟨c, hc, hcu⟩ := List.mem_map.1 hmem
    cases hf : project.collaborators.find? (fun collab => collab.user == u._id) with
    | none =>
      have := List.find?_eq_none.1 hf c hc
      simp [hcu] at this
    | some c' => simp [addCollaborator, hp, hu, hf]
  · intro user id body hst
    obtain ⟨project, u, role, hp, hu, hnone, hs⟩ := addCollaborator_ok hst
    refine ⟨project, u, role, hp, hu, find?_user_eq_none hnone, ?_⟩
    rw [hs]
    exact findProject_saveProject hp (findOwnedProject_some hp).2.1
  · intro user id userId hst
    obtain ⟨project, hp, hs⟩ := removeCollaborator_ok hst
    refine ⟨project, hp, ?_⟩
    rw [hs]
    have := findProject_saveProject (p := { project with
      collaborators := project.collaborators.filter (fun collab => !(collab.user == userId)) })
      hp (findOwnedProject_some hp).2.1
    rw [this]
    congr 2
    apply List.filter_congr
    intro c _
    by_cases hcu : c.user = userId <;> simp [hcu]

/-! ## Validation of create requests -/

theorem newProject_invalid_title {id user : ObjectId} {title : String} {body : CreateProjectBody}
    (h : validTitle 100 (jsTrim title) = false) : newProject id user title body = none := by
  unfold newProject
  simp only
  split
  · rfl
  · simp [h]

theorem newTask_invalid_title {id user P : ObjectId} {title : String} {body : CreateTaskBody}
    {order : Nat} (h : validTitle 200 (jsTrim title) = false) :
    newTask id user P title body order = none := by
  unfold newTask
  simp only
  split
  · rfl
  · simp [h]

theorem validTitle_of_long {maxlength : Nat} {title : String}
    (h : maxlength < jsLength (jsTrim title)) :
    title ≠ "" ∧ validTitle maxlength (jsTrim title) = false := by
  constructor
  · intro e
    rw [e] at h
    have : jsLength (jsTrim "") = 0 := by decide
    omega
  · unfold validTitle
    simp only [Bool.and_eq_false_imp, decide_eq_false_iff_not]
    intro _
    omega

/-- C18 (amended). A project-create or task-create request whose title is
absent or empty, or a task-create request without `projectId`, is answered 400.
A request whose title is longer than the maximum (100 for a project, 200 for a
task) is answered 500 by project-create; by task-create it is answered 404 when
the project is not one of the caller's and 500 otherwise.  In all these cases
projects, tasks and activity feed are left unchanged. -/
theorem create_validation (s : Store) (user : ObjectId) :
    (∀ body : CreateProjectBody, body.title = none ∨ body.title = some "" →
        createProject s user body = ⟨400, s⟩)
      ∧ (∀ (body : CreateProjectBody) (title : String), body.title = some title →
          100 < jsLength (jsTrim title) → createProject s user body = ⟨500, s⟩)
      ∧ (∀ (now : Nat) (body : CreateTaskBody),
          body.title = none ∨ body.title = some "" ∨ body.projectId = none →
          createTask s user now body = ⟨400, s⟩)
      ∧ (∀ (now : Nat) (body : CreateTaskBody) (title : String) (P : ObjectId),
          body.title = some title → body.projectId = some P →
          200 < jsLength (jsTrim title) →
          createTask s user now body
            = ⟨if (findOwnedProject s P user).isSome then 500 else 404, s⟩) := by
  refine ⟨?_, ?_, ?_, ?_⟩
  · intro body h
    rcases h with h | h <;> simp [createProject, h]
  · intro body title ht hlong
    obtain ⟨hne, hinv⟩ := validTitle_of_long hlong
    simp [createProject, ht, hne, newProject_invalid_title hinv]
  · intro now body h
    rcases h with h | h | h
    · simp [createTask, h]
    · cases hP : body.projectId <;> simp [createTask, h, hP]
    · cases ht : body.title <;> simp [createTask, h, ht]
  · intro now body title P ht hP hlong
    obtain ⟨hne, hinv⟩ := validTitle_of_long hlong
    cases hp : findOwnedProject s P user with
    | none => simp [createTask, ht, hP, hne, hp]
    | some project => simp [createTask, ht, hP, hne, hp, newTask_invalid_title hinv]

/-- C18 (counterexample). A project-create request with a title of 101
characters is answered 500, not 400. -/
theorem createProject_long_title :
    jsLength longTitle = 101
      ∧ (createProject (emptyStore []) 1 ⟨some longTitle, none, none, none, none⟩).status
        = 500 := by
  decide

/-! ## Toggle is a binary flip -/

theorem toggledTask_fields (now : Nat) (t : Task) :
    (toggledTask now t).title = t.title ∧ (toggledTask now t).order = t.order
      ∧ (toggledTask now t).priority = t.priority := by
  unfold toggledTask preSave
  simp only
  split_ifs <;> exact ⟨rfl, rfl, rfl⟩

/-- C19. For every successful toggle of a stored task whose `completed` flag was
`c`: the task afterwards has `completed = not c`, its status is `completed` when
it is now completed and `todo` otherwise (never `in_progress`, whatever the
status was), exactly one activity entry is appended, of type `task_completed`
when the task is now completed and `task_reopened` otherwise, and title, order,
project and priority of the task are unchanged. -/
theorem toggle_flips (s : Store) (user now id : Nat) (t : Task)
    (ht : findTask s id = some t) (h : (toggleTask s user now id).status = 200) :
    ∃ t', findTask (toggleTask s user now id).store id = some t'
      ∧ t'.completed = (!t.completed)
      ∧ t'.status = (if t'.completed = true then TaskStatus.completed else TaskStatus.todo)
      ∧ t'.status ≠ TaskStatus.in_progress
      ∧ (∃ a, (toggleTask s user now id).store.activities = s.activities ++ [a]
          ∧ a.type_ = (if t'.completed = true then ActivityType.task_completed
              else ActivityType.task_reopened)
          ∧ a.user = user ∧ a.taskId = some id)
      ∧ t'.title = t.title ∧ t'.order = t.order ∧ t'.project = t.project
      ∧ t'.priority = t.priority := by
  have hfind := findTask_toggleTask ht h
  obtain ⟨task, project, ht', _, _, hs⟩ := toggleTask_ok h
  rw [ht] at ht'
  cases ht'
  obtain ⟨f1, f2, f3⟩ := toggledTask_fields now t
  refine ⟨toggledTask now t, hfind, toggledTask_completed now t, ?_, ?_, ?_, f1, f2,
    toggledTask_project now t, f3⟩
  · rw [toggledTask_status, toggledTask_completed]
    cases t.completed <;> rfl
  · rw [toggledTask_status]
    cases t.completed <;> simp
  · refine ⟨_, by rw [hs]; rfl, ?_, rfl, ?_⟩
    · simp only [completionType]
    · simp only [Option.some.injEq]
      exact (toggledTask_id now t).trans (findTask_id ht)

/-! ## Project statistics -/

theorem countP_by_status (tasks : List Task) (P : ObjectId) :
    tasks.countP (fun t => t.project == P && t.status == TaskStatus.todo)
        + tasks.countP (fun t => t.project == P && t.status == TaskStatus.in_progress)
        + tasks.countP (fun t => t.project == P && t.status == TaskStatus.completed)
      = countTasks tasks P := by
  unfold countTasks
  induction tasks with
  | nil => rfl
  | cons x xs ih =>
    simp only [List.countP_cons]
    by_cases hp : x.project = P
    · cases hs : x.status <;> simp [hp, hs] at ih ⊢ <;> omega
    · simp [hp] at ih ⊢
      omega

theorem taskStats_sum (tasks : List Task) (P : ObjectId) :
    ((taskStats tasks P).map (fun group => group.2)).sum = countTasks tasks P := by
  rw [← countP_by_status tasks P]
  unfold taskStats
  simp only [List.map_cons, List.map_nil, List.filter_cons, List.filter_nil]
  by_cases h1 : tasks.countP (fun t => t.project == P && t.status == TaskStatus.todo) = 0 <;>
    by_cases h2 : tasks.countP (fun t => t.project == P && t.status == TaskStatus.in_progress) = 0 <;>
    by_cases h3 : tasks.countP (fun t => t.project == P && t.status == TaskStatus.completed) = 0 <;>
    simp [h1, h2, h3]
  all_goals omega

theorem countP_not_completed (tasks : List Task) (P : ObjectId) :
    countCompletedTasks tasks P + tasks.countP (fun t => t.project == P && !t.completed)
      = countTasks tasks P := by
  unfold countTasks countCompletedTasks
  induction tasks with
  | nil => rfl
  | cons x xs ih =>
    simp only [List.countP_cons]
    by_cases hp : x.project = P
    · cases hc : x.completed <;> simp [hp, hc] at ih ⊢ <;> omega
    · simp [hp] at ih ⊢
      omega

/-- C20. For every project the caller can access, the stats are answered with
`inProgressTasks = totalTasks - completedTasks`, the two being the project's
stored counters.  When these counters agree with the tasks and the tasks satisfy
the task invariant (as in every reachable state), `inProgressTasks` is the
number of the project's tasks whose status is `todo` or `in_progress`, and the
counts of `tasksByStatus` add up to `totalTasks`. -/
theorem stats_inProgress (s : Store) (user id : ObjectId) (p : Project)
    (hacc : findAccessibleProject s id user = some p) :
    ∃ st, getProjectStats s user id = (200, some st)
      ∧ st.totalTasks = p.tasksCount ∧ st.completedTasks = p.completedTasksCount
      ∧ st.inProgressTasks = (st.totalTasks : Int) - (st.completedTasks : Int)
      ∧ (CountersOK s p → (∀ t ∈ s.tasks, TaskOK t) →
          st.inProgressTasks
              = ((s.tasks.filter (fun t => t.project = p._id
                  ∧ (t.status = TaskStatus.todo ∨ t.status = TaskStatus.in_progress))).length : Int)
            ∧ ((st.tasksByStatus.map (fun group => group.2)).sum : Nat) = st.totalTasks) := by
  refine ⟨{ totalTasks := p.tasksCount
            completedTasks := p.completedTasksCount
            inProgressTasks := (p.tasksCount : Int) - (p.completedTasksCount : Int)
            progress := progress p.tasksCount p.completedTasksCount
            tasksByStatus := taskStats s.tasks p._id },
    by simp [getProjectStats, hacc], rfl, rfl, rfl, ?_⟩
  intro hc hinv
  obtain ⟨h1, h2⟩ := (countersOK_iff s p).1 hc
  constructor
  · simp only
    rw [h1, h2, ← countP_not_completed s.tasks p._id]
    have hcongr : s.tasks.countP (fun t => t.project == p._id && !t.completed)
        = (s.tasks.filter (fun t => t.project = p._id
            ∧ (t.status = TaskStatus.todo ∨ t.status = TaskStatus.in_progress))).length := by
      rw [List.countP_eq_length_filter]
      congr 1
      apply List.filter_congr
      intro t ht
      have hok := (hinv t ht).1
      by_cases hp : t.project = p._id <;> cases hs : t.status <;> simp [hp, hs, hok]
    rw [hcongr]
    push_cast
    omega
  · simp only
    rw [taskStats_sum, h1]

/-! ## Further instances on the sample sessions -/

/-- Instance of `collaborator_reads_only`: user 2, a viewer of the project of
`sharedStore`, reads it and cannot delete it. -/
theorem collaborator_reads_only_witness :
    sharedProject ∈ sharedStore.projects
      ∧ 2 ∈ sharedProject.collaborators.map (fun c => c.user) ∧ sharedProject.owner ≠ 2
      ∧ getProject sharedStore 2 0 = (200, some sharedProject)
      ∧ deleteProject sharedStore 2 0 = ⟨404, sharedStore⟩ :=
  ⟨by decide, by decide, by decide,
    (collaborator_reads_only sharedStore sharedProject 2 (by decide) (by decide) (by decide)
      (by decide)).1,
    (collaborator_reads_only sharedStore sharedProject 2 (by decide) (by decide) (by decide)
      (by decide)).2.2.1⟩

/-- Instance of `task_access_owner_only` at the task of `sessionStore`: user 2
is refused with 403, user 1, the owner, reads the task. -/
theorem task_access_owner_only_witness :
    findTask sessionStore 1 = some sessionTask
      ∧ findProject sessionStore sessionTask.project = some sessionProject
      ∧ getTask sessionStore 2 1 = (403, none)
      ∧ deleteTask sessionStore 2 1 = ⟨403, sessionStore⟩
      ∧ getTask sessionStore 1 1 = (200, some sessionTask) :=
  ⟨by decide, by decide,
    ((task_access_owner_only sessionStore 2 1 sessionTask sessionProject (by decide)
      (by decide)).1 (by decide)).1,
    ((task_access_owner_only sessionStore 2 1 sessionTask sessionProject (by decide)
      (by decide)).1 (by decide)).2.2.1,
    ((task_access_owner_only sessionStore 1 1 sessionTask sessionProject (by decide)
      (by decide)).2 (by decide)).1⟩

/-- Instance of `scenario_stats`: the scenario of the specification from the
empty store, with the project "Sprint 1" and the task "Design". -/
theorem scenario_stats_witness :
    (createProject (emptyStore []) 1 sprintBody).status = 201
      ∧ (createTask (createProject (emptyStore []) 1 sprintBody).store 1 10 designBody).status
        = 201
      ∧ getProjectStats
          (toggleTask (createTask (createProject (emptyStore []) 1 sprintBody).store 1 10
            designBody).store 1 11 1).store 1 0
        = (200, some
            { totalTasks := 1, completedTasks := 1, inProgressTasks := 0, progress := 100,
              tasksByStatus := [(TaskStatus.completed, 1)] }) :=
  ⟨by decide, by decide,
    (scenario_stats (emptyStore []) 1 10 11 sprintBody designBody (emptyStore_consistent [])
      (by decide) rfl (by decide)).2⟩

/-- Instance of `collaborators_unique` at `sharedStore`: the list of the project
has no user twice, and adding user 2 a second time is answered 400. -/
theorem collaborators_unique_witness :
    Reachable sharedStore
      ∧ (∀ p ∈ sharedStore.projects, (p.collaborators.map (fun c => c.user)).Nodup)
      ∧ addCollaborator sharedStore 1 0 ⟨"bob@example.com", none⟩ = ⟨400, sharedStore⟩ :=
  ⟨⟨_, _, rfl⟩, (collaborators_unique sharedStore ⟨_, _, rfl⟩).1,
    (collaborators_unique sharedStore ⟨_, _, rfl⟩).2.1 1 0 ⟨"bob@example.com", none⟩
      sharedProject ⟨2, "bob@example.com"⟩ (by decide) (by decide) (by decide)⟩

/-- Instance of `toggle_flips` at the `todo` task of `sessionStore`. -/
theorem toggle_flips_witness :
    findTask sessionStore 1 = some sessionTask
      ∧ (toggleTask sessionStore 1 20 1).status = 200
      ∧ ∃ t', findTask (toggleTask sessionStore 1 20 1).store 1 = some t'
          ∧ t'.completed = (!sessionTask.completed)
          ∧ t'.status ≠ TaskStatus.in_progress := by
  refine ⟨by decide, by decide, ?_⟩
  obtain ⟨t', h1, h2, _, h4, _⟩ :=
    toggle_flips sessionStore 1 20 1 sessionTask (by decide) (by decide)
  exact ⟨t', h1, h2, h4⟩

/-- Instance of `stats_inProgress` at `sessionStore`, whose only task is `todo`:
`inProgressTasks` is 1 although no task has the status `in_progress`. -/
theorem stats_inProgress_witness :
    findAccessibleProject sessionStore 0 1 = some sessionProject
      ∧ (sessionStore.tasks.filter (fun t => t.status = TaskStatus.in_progress)).length = 0
      ∧ ∃ st, getProjectStats sessionStore 1 0 = (200, some st) ∧ st.inProgressTasks = 1 := by
  refine ⟨by decide, by decide, ?_⟩
  obtain ⟨st, h1, _, _, _, h5⟩ := stats_inProgress sessionStore 1 0 sessionProject (by decide)
  refine ⟨st, h1, ?_⟩
  rw [(h5 (by decide) (by decide)).1]
  decide

end ToDo
